import Mathlib

/-!
# Mean-average-precision evaluator (`windows/map_evaluator`)

Shallow embedding of `MapEvaluator::EvaluateAveragePrecision` and
`MapEvaluator::Evaluate` (map_evaluator.cpp) together with `ImageInfo`
(image_info.hpp), and theorems about them.

Conventions of the embedding:
* a C++ `double` is a value of `Dbl`: an exact rational, one of the two
  infinities, or NaN.  Rounding and overflow of finite values are not
  modelled (exact arithmetic); the IEEE rules for the special values are.
* `int` and `size_t` values are `Int` / `Nat` (no overflow: sizes are far
  below 2^31).
* a fatal path (`LOG(FATAL)`, a thrown exception) is an `Except.error`.
* library code that `Evaluate` calls is an argument of the embedding: `sort`
  stands for `std::sort` (its contract is `StdSortContract`) and
  `ComputeFeatureDistance` for the configured distance method, which rests on
  OpenCV's norms. `stdSort` is the `std::sort` of libstdc++, the argument
  where the order of equal distances matters.
* where rounding matters, the operations `add64`, `sub64`, `mul64`, `div64`
  round every finite result to the nearest double (`round64`), and the cosine
  distance is also given over the reals (`cosineDistanceIn` with `Real.sqrt`).
-/

set_option autoImplicit false

namespace MapEvaluator

/-! ## Doubles -/

/-- Exact-arithmetic model of an IEEE double. Zero is unsigned; wherever this
program divides by a zero, that zero is `+0.0` (it comes from an `int`
conversion or from `1.0 - 1.0`). -/
inductive Dbl where
  | fin (q : ℚ)
  | pinf
  | ninf
  | nan
  deriving DecidableEq

namespace Dbl

/-- Conversion `(double)n` of an integer. -/
def ofInt (n : Int) : Dbl := fin (n : ℚ)

/-- Unary minus. -/
def neg : Dbl → Dbl
  | fin a => fin (-a)
  | pinf => ninf
  | ninf => pinf
  | nan => nan

/-- IEEE addition `a + b`. -/
def add : Dbl → Dbl → Dbl
  | fin a, fin b => fin (a + b)
  | nan, _ => nan
  | _, nan => nan
  | pinf, ninf => nan
  | ninf, pinf => nan
  | pinf, _ => pinf
  | _, pinf => pinf
  | ninf, _ => ninf
  | _, ninf => ninf

/-- IEEE subtraction `a - b`. -/
def sub (a b : Dbl) : Dbl := add a (neg b)

/-- Sign of a double as an integer in {-1, 0, 1}; NaN has none. -/
def sign : Dbl → Option Int
  | fin a => some (if 0 < a then 1 else if a < 0 then -1 else 0)
  | pinf => some 1
  | ninf => some (-1)
  | nan => none

/-- The infinity of the given sign; a zero sign (inf * 0) gives NaN. -/
def infOfSign (s : Int) : Dbl :=
  if 0 < s then pinf else if s < 0 then ninf else nan

/-- IEEE multiplication `a * b`. -/
def mul : Dbl → Dbl → Dbl
  | fin a, fin b => fin (a * b)
  | a, b =>
    match sign a, sign b with
    | some s, some t => infOfSign (s * t)
    | _, _ => nan

/-- IEEE division `a / b`; a zero divisor is `+0.0`. -/
def div : Dbl → Dbl → Dbl
  | nan, _ => nan
  | _, nan => nan
  | fin a, fin b =>
    if b = 0 then (if 0 < a then pinf else if a < 0 then ninf else nan)
    else fin (a / b)
  | fin _, pinf => fin 0
  | fin _, ninf => fin 0
  | pinf, fin b => if 0 ≤ b then pinf else ninf
  | ninf, fin b => if 0 ≤ b then ninf else pinf
  | pinf, pinf => nan
  | pinf, ninf => nan
  | ninf, pinf => nan
  | ninf, ninf => nan

/-- IEEE comparison `a < b` (false whenever an operand is NaN). -/
def lt : Dbl → Dbl → Bool
  | fin a, fin b => decide (a < b)
  | nan, _ => false
  | _, nan => false
  | pinf, _ => false
  | _, ninf => false
  | ninf, _ => true
  | fin _, pinf => true

/-- Function `std::min(a, b)`, which is `(b < a) ? b : a`. -/
def min (a b : Dbl) : Dbl := if lt b a then b else a

/-- A double is finite when it is neither an infinity nor NaN. -/
def isFinite : Dbl → Bool
  | fin _ => true
  | _ => false

end Dbl

/-! ## Data model -/

/-- Structure `ImageInfo` of image_info.hpp. -/
structure ImageInfo where
  id : Int
  classId : Int
  isQuery : Bool
  classCount : Int
  distance : Dbl := Dbl.fin (-1)
  deriving DecidableEq

/-- Member `ImageInfo::operator<`: compares the distances only. -/
def ImageInfo.lt (a b : ImageInfo) : Bool := Dbl.lt a.distance b.distance

/-- The fatal outcomes of the evaluator. -/
inductive EvalError where
  /-- `std::length_error` thrown by `vector::reserve`. -/
  | lengthError
  /-- `cv::Exception` of a row range outside the feature matrix. -/
  | rowOutOfRange
  /-- `LOG(FATAL)` of `ComputeFeatureDistance`. -/
  | distanceNotImplemented
  /-- `cv::Exception` of an OpenCV assertion on the operands (matrices of
  different sizes, an empty matrix); also stands for a read past the end of a
  row, which is undefined in C++. -/
  | cvAssertion
  deriving DecidableEq

/-- The configuration members of `MapEvaluator` read by the scoring code. -/
structure Config where
  mExcludeQueryFromDB : Bool := true
  mTopK : Int := 0
  deriving DecidableEq

/-! ## `EvaluateAveragePrecision` -/

/-- Value of `nResults` when the loop starts (lines 156-176). -/
def resultCount (cfg : Config) (size : Nat) : Int :=
  let nResults : Int := size
  let nResults := if cfg.mExcludeQueryFromDB then nResults - 1 else nResults
  if cfg.mTopK > 0 then Min.min cfg.mTopK nResults else nResults

/-- Value of `matches` before the top-K adjustment (lines 155-164). -/
def matchesBeforeTopK (cfg : Config) (query : ImageInfo) : Dbl :=
  let matches_ := Dbl.ofInt query.classCount
  if cfg.mExcludeQueryFromDB then matches_.sub (Dbl.fin 1) else matches_

/-- Value of `matches` when the loop starts (lines 155-176): the adjusted
match count. -/
def adjustedMatches (cfg : Config) (query : ImageInfo) (size : Nat) : Dbl :=
  if cfg.mTopK > 0 then
    Dbl.min (Dbl.ofInt (resultCount cfg size)) (matchesBeforeTopK cfg query)
  else matchesBeforeTopK cfg query

/-- The local variables of the scoring loop. `consumed` is a ghost variable:
it records, for every sample pushed to `precisionRecallValues`, the raw index
`i` and the entry `sortedResult[i]` (a consumed position). -/
structure LoopState where
  oldRecall : Dbl := Dbl.fin 0
  oldPrecision : Dbl := Dbl.fin 1
  recall_ : Dbl := Dbl.fin 0
  precision_ : Dbl := Dbl.fin 0
  averagePrecision : Dbl := Dbl.fin 0
  matchCount : Dbl := Dbl.fin 0
  wasQueryExcluded : Bool := false
  precisionRecallValues : List (Dbl × Dbl) := []
  consumed : List (Nat × ImageInfo) := []
  deriving DecidableEq

/-- One pass of the loop body (lines 193-212) at raw index `i` on the entry
`x = sortedResult[i]`, once the `break` and `continue` tests have failed. -/
def scoreStep (query : ImageInfo) (matches_ : Dbl) (i : Nat) (x : ImageInfo)
    (s : LoopState) : LoopState :=
  let matchCount :=
    if x.classId = query.classId then s.matchCount.add (Dbl.fin 1) else s.matchCount
  let recall_ := matchCount.div matches_
  let precision_ :=
    if s.wasQueryExcluded then matchCount.div (Dbl.ofInt i)
    else matchCount.div (Dbl.ofInt (i + 1))
  let averagePrecision :=
    s.averagePrecision.add
      ((recall_.sub s.oldRecall).mul ((s.oldPrecision.add precision_).div (Dbl.fin 2)))
  { oldRecall := recall_
    oldPrecision := precision_
    recall_ := recall_
    precision_ := precision_
    averagePrecision := averagePrecision
    matchCount := matchCount
    wasQueryExcluded := s.wasQueryExcluded
    precisionRecallValues := s.precisionRecallValues ++ [(precision_, recall_)]
    consumed := s.consumed ++ [(i, x)] }

/-- The loop `for (int i = 0; i < sortedResult.size(); i++)` of lines 181-213,
run from raw index `i` over the remaining entries `sortedResult[i..]`. -/
def scoreLoop (cfg : Config) (query : ImageInfo) (matches_ : Dbl) (nResults : Int) :
    Nat → List ImageInfo → LoopState → LoopState
  | _, [], s => s
  | i, x :: rest, s =>
    if (s.precisionRecallValues.length : Int) = nResults then s
    else if cfg.mExcludeQueryFromDB && decide (x.id = query.id) then
      scoreLoop cfg query matches_ nResults (i + 1) rest { s with wasQueryExcluded := true }
    else
      scoreLoop cfg query matches_ nResults (i + 1) rest (scoreStep query matches_ i x s)

/-- State of the local variables when the loop of `EvaluateAveragePrecision`
has ended. -/
def finalState (cfg : Config) (query : ImageInfo) (sortedResult : List ImageInfo) :
    LoopState :=
  scoreLoop cfg query (adjustedMatches cfg query sortedResult.length)
    (resultCount cfg sortedResult.length) 0 sortedResult {}

/-- What `EvaluateAveragePrecision` hands back: the returned double, the
output vector, and whether the top-K warning was logged. -/
structure APResult where
  averagePrecision : Dbl
  precisionRecallValues : List (Dbl × Dbl)
  warning : Bool
  deriving DecidableEq

/-- Method `MapEvaluator::EvaluateAveragePrecision` (map_evaluator.cpp, lines
143-216). `precisionRecallValues.reserve(nResults)` converts a negative
`nResults` to a huge `size_t` and throws `std::length_error`; that happens
exactly for an empty `sortedResult` with the exclusion switched on. -/
def EvaluateAveragePrecision (cfg : Config) (query : ImageInfo)
    (sortedResult : List ImageInfo) : Except EvalError APResult :=
  let warning := Dbl.lt (matchesBeforeTopK cfg query) (Dbl.ofInt cfg.mTopK)
  if resultCount cfg sortedResult.length < 0 then Except.error EvalError.lengthError
  else
    let s := finalState cfg query sortedResult
    Except.ok
      { averagePrecision := s.averagePrecision
        precisionRecallValues := s.precisionRecallValues
        warning := warning }

/-- Number of entries of a consumed-position record whose class is the
query's class. -/
def sameClassCount (query : ImageInfo) (c : List (Nat × ImageInfo)) : Nat :=
  ((c.map Prod.snd).filter (fun x => decide (x.classId = query.classId))).length

/-- Number of consumed entries whose class is the query's class. -/
def sameClassConsumed (cfg : Config) (query : ImageInfo) (sortedResult : List ImageInfo) :
    Nat :=
  sameClassCount query (finalState cfg query sortedResult).consumed

/-- The bookkeeping facts that hold of the loop state at raw index `i`. -/
structure Bookkeeping (cfg : Config) (query : ImageInfo) (l0 : List ImageInfo)
    (i : Nat) (s : LoopState) : Prop where
  count : s.matchCount = Dbl.fin (sameClassCount query s.consumed)
  len : s.consumed.length = s.precisionRecallValues.length
  le_index : s.consumed.length ≤ i
  lt_index : s.wasQueryExcluded = true → s.consumed.length + 1 ≤ i
  excl : s.wasQueryExcluded = true → cfg.mExcludeQueryFromDB = true
  entry : ∀ p ∈ s.consumed, l0[p.1]? = some p.2
  notQuery : cfg.mExcludeQueryFromDB = true → ∀ p ∈ s.consumed, p.2.id ≠ query.id

/-- Value of `matchCount` after the test of line 193 on the entry `x`, from
the value `c` before it. -/
def stepCount (query : ImageInfo) (x : ImageInfo) (c : ℚ) : ℚ :=
  if x.classId = query.classId then c + 1 else c

/-- The divisor of the precision at raw index `i` (lines 199-206): `i` once
the query's own entry has been skipped, `i + 1` before. -/
def stepDivisor (s : LoopState) (i : Nat) : ℚ :=
  if s.wasQueryExcluded then (i : ℚ) else (i : ℚ) + 1

/-- Loop invariant for a positive adjusted match count `m`: the accumulated
average precision and the last precision are finite, the precision lies in
[0, 1] and the average precision lies between 0 and the last recall. -/
def Bounded (query : ImageInfo) (m : ℚ) (s : LoopState) : Prop :=
  ∃ a p : ℚ, s.averagePrecision = Dbl.fin a ∧ s.oldPrecision = Dbl.fin p ∧
    s.oldRecall = Dbl.fin ((sameClassCount query s.consumed : ℚ) / m) ∧
    0 ≤ p ∧ p ≤ 1 ∧ 0 ≤ a ∧ a ≤ (sameClassCount query s.consumed : ℚ) / m

/-- Loop invariant for a non-zero adjusted match count `m`: the values are
finite, and the average precision is still zero while nothing has matched. -/
def ZeroUntilMatch (query : ImageInfo) (m : ℚ) (s : LoopState) : Prop :=
  ∃ a p : ℚ, s.averagePrecision = Dbl.fin a ∧ s.oldPrecision = Dbl.fin p ∧
    s.oldRecall = Dbl.fin ((sameClassCount query s.consumed : ℚ) / m) ∧
    (sameClassCount query s.consumed = 0 → a = 0)

/-- Loop invariant for a perfect ranking with `M` entries to retrieve, the
query's own entry standing at raw index `pos`: the consumed positions are the
raw indices passed so far (the own entry apart once it is skipped), and the
recall and the average precision are both `min k M / M` after `k` consumed
positions, the precision being 1 while `k ≤ M`. -/
def PerfectInv (cfg : Config) (query : ImageInfo) (M pos : Nat) (i : Nat) (s : LoopState) :
    Prop :=
  s.consumed.length = (if s.wasQueryExcluded then i - 1 else i) ∧
  (s.wasQueryExcluded = true → pos < i) ∧
  (cfg.mExcludeQueryFromDB = true → pos < i → s.wasQueryExcluded = true) ∧
  sameClassCount query s.consumed = min s.consumed.length M ∧
  ∃ p : ℚ, s.averagePrecision = Dbl.fin (((min s.consumed.length M : ℕ) : ℚ) / (M : ℚ)) ∧
    s.oldRecall = Dbl.fin (((min s.consumed.length M : ℕ) : ℚ) / (M : ℚ)) ∧
    s.oldPrecision = Dbl.fin p ∧ (s.consumed.length ≤ M → p = 1)

/-! ## Worked scenario -/

/-- Catalog entry of the worked scenario with the given distance. -/
def scenarioItem (id classId : Int) (isQuery : Bool) (classCount : Int) (d : ℚ) :
    ImageInfo :=
  { id := id, classId := classId, isQuery := isQuery, classCount := classCount,
    distance := Dbl.fin d }

/-- The query of the worked scenario: item 0 of class A (= 7), classCount 2. -/
def scenarioQuery : ImageInfo := scenarioItem 0 7 true 2 0

/-- The ascending ranking `[id 0, id 1, id 3, id 2]` of the worked scenario;
class A is 7 and class B is 8. -/
def scenarioRanking : List ImageInfo :=
  [scenarioItem 0 7 true 2 0, scenarioItem 1 7 false 2 1,
   scenarioItem 3 8 false 2 2, scenarioItem 2 8 false 2 3]

/-- Configuration of the worked scenario: exclusion on, no top-K limit. -/
def scenarioConfig : Config := { mExcludeQueryFromDB := true, mTopK := 0 }

/-- A query that is the only member of its class (classCount 1). -/
def loneQuery : ImageInfo := scenarioItem 0 7 true 1 0

/-- A ranking for `loneQuery`: the query itself, then an item of another class. -/
def loneRanking : List ImageInfo := [scenarioItem 0 7 true 1 0, scenarioItem 1 8 false 1 1]

/-- A ranking for `scenarioQuery` whose other entries are all of class B. -/
def noMatchRanking : List ImageInfo :=
  [scenarioItem 0 7 true 2 0, scenarioItem 3 8 false 2 2, scenarioItem 2 8 false 2 3]

/-- What `EvaluateAveragePrecision` returns in the worked scenario. -/
def scenarioResult : APResult :=
  { averagePrecision := Dbl.fin 1
    precisionRecallValues :=
      [(Dbl.fin 1, Dbl.fin 1), (Dbl.fin (1 / 2), Dbl.fin 1), (Dbl.fin (1 / 3), Dbl.fin 1)]
    warning := false }

/-! ## `Evaluate` -/

/-- The members of `MapEvaluator` read or written by `Evaluate`; `Mat` is the
type of one row of the feature matrix `mFeatures`. -/
structure Evaluator (Mat : Type) extends Config where
  mFeatures : List Mat
  mImageInfos : List ImageInfo
  mQueryInfos : List ImageInfo

/-- Row view `mFeatures(cv::Range(r, r + 1), cv::Range::all())`; OpenCV
asserts that the range lies inside the matrix. -/
def featureRow {Mat : Type} (mFeatures : List Mat) (r : Int) : Except EvalError Mat :=
  if r < 0 then Except.error EvalError.rowOutOfRange
  else
    match mFeatures[r.toNat]? with
    | some v => Except.ok v
    | none => Except.error EvalError.rowOutOfRange

/-- The distance pass of `Evaluate` (lines 118-122) from index `iImage` on:
the distance field of every catalog item is overwritten. The argument
`ComputeFeatureDistance` is the configured distance method. -/
def computeDistances {Mat : Type} (ComputeFeatureDistance : Mat → Mat → Except EvalError Dbl)
    (mFeatures : List Mat) (queryFeature : Mat) :
    Nat → List ImageInfo → Except EvalError (List ImageInfo)
  | _, [] => Except.ok []
  | iImage, info :: rest =>
    match featureRow mFeatures iImage with
    | Except.error e => Except.error e
    | Except.ok imageFeature =>
      match ComputeFeatureDistance queryFeature imageFeature with
      | Except.error e => Except.error e
      | Except.ok d =>
        match computeDistances ComputeFeatureDistance mFeatures queryFeature (iImage + 1) rest with
        | Except.error e => Except.error e
        | Except.ok rest1 => Except.ok ({ info with distance := d } :: rest1)

/-- Lines 114-122 of `Evaluate` for one query: the catalog `mImageInfos` after
the distance pass. -/
def distancePass {Mat : Type} (ComputeFeatureDistance : Mat → Mat → Except EvalError Dbl)
    (mFeatures : List Mat) (mImageInfos : List ImageInfo) (query : ImageInfo) :
    Except EvalError (List ImageInfo) :=
  match featureRow mFeatures query.id with
  | Except.error e => Except.error e
  | Except.ok queryFeature =>
    computeDistances ComputeFeatureDistance mFeatures queryFeature 0 mImageInfos

/-- Lines 124-129 of `Evaluate` for one query: the ranking `sortedResult` is
`sort` applied to a copy of the catalog, and it is scored. The argument `sort`
stands for `std::sort(begin, end)`. -/
def scoreQuery (sort : List ImageInfo → List ImageInfo) (cfg : Config)
    (mImageInfos : List ImageInfo) (query : ImageInfo) : Except EvalError Dbl :=
  match EvaluateAveragePrecision cfg query (sort mImageInfos) with
  | Except.error e => Except.error e
  | Except.ok r => Except.ok r.averagePrecision

/-- The body of the query loop of `Evaluate` (lines 114-135): it returns the
new value of `meanAveragePrecision` and the new catalog. -/
def evaluateQuery {Mat : Type} (ComputeFeatureDistance : Mat → Mat → Except EvalError Dbl)
    (sort : List ImageInfo → List ImageInfo) (cfg : Config) (mFeatures : List Mat)
    (query : ImageInfo) (st : Dbl × List ImageInfo) : Except EvalError (Dbl × List ImageInfo) :=
  match distancePass ComputeFeatureDistance mFeatures st.2 query with
  | Except.error e => Except.error e
  | Except.ok infos =>
    match scoreQuery sort cfg infos query with
    | Except.error e => Except.error e
    | Except.ok averagePrecision => Except.ok (st.1.add averagePrecision, infos)

/-- The query loop of `Evaluate` (lines 112-136) over the remaining queries. -/
def evaluateLoop {Mat : Type} (ComputeFeatureDistance : Mat → Mat → Except EvalError Dbl)
    (sort : List ImageInfo → List ImageInfo) (cfg : Config) (mFeatures : List Mat) :
    List ImageInfo → Dbl × List ImageInfo → Except EvalError (Dbl × List ImageInfo)
  | [], st => Except.ok st
  | query :: rest, st =>
    match evaluateQuery ComputeFeatureDistance sort cfg mFeatures query st with
    | Except.error e => Except.error e
    | Except.ok st1 => evaluateLoop ComputeFeatureDistance sort cfg mFeatures rest st1

/-- Method `MapEvaluator::Evaluate` (map_evaluator.cpp, lines 107-140): the
returned double and the evaluator after the call. -/
def Evaluate {Mat : Type} (ComputeFeatureDistance : Mat → Mat → Except EvalError Dbl)
    (sort : List ImageInfo → List ImageInfo) (ev : Evaluator Mat) :
    Except EvalError (Dbl × Evaluator Mat) :=
  match evaluateLoop ComputeFeatureDistance sort ev.toConfig ev.mFeatures ev.mQueryInfos
      (Dbl.fin 0, ev.mImageInfos) with
  | Except.error e => Except.error e
  | Except.ok st =>
    Except.ok (st.1.div (Dbl.ofInt ev.mQueryInfos.length), { ev with mImageInfos := st.2 })

/-- What the C++ standard promises of `std::sort` with `operator<`, when that
comparison is a strict weak ordering on the input (no NaN distance): the
output is a rearrangement of the input in which no later element is less
than an earlier one. The order of equivalent elements is not promised. -/
def StdSortContract (sort : List ImageInfo → List ImageInfo) : Prop :=
  ∀ l : List ImageInfo, (∀ x ∈ l, x.distance ≠ Dbl.nan) →
    (sort l).Perm l ∧ (sort l).Pairwise (fun a b => ImageInfo.lt b a = false)

/-- The average precision `Evaluate` computes for one query from a catalog in
the state `mImageInfos`: the distance pass, then the scoring of the ranking. -/
def queryAveragePrecision {Mat : Type}
    (ComputeFeatureDistance : Mat → Mat → Except EvalError Dbl)
    (sort : List ImageInfo → List ImageInfo) (cfg : Config) (mFeatures : List Mat)
    (mImageInfos : List ImageInfo) (query : ImageInfo) : Except EvalError Dbl :=
  match distancePass ComputeFeatureDistance mFeatures mImageInfos query with
  | Except.error e => Except.error e
  | Except.ok infos => scoreQuery sort cfg infos query

/-- The ranking `sortedResult` that `Evaluate` builds for one query. -/
def queryRanking {Mat : Type} (ComputeFeatureDistance : Mat → Mat → Except EvalError Dbl)
    (sort : List ImageInfo → List ImageInfo) (mFeatures : List Mat)
    (mImageInfos : List ImageInfo) (query : ImageInfo) : Except EvalError (List ImageInfo) :=
  match distancePass ComputeFeatureDistance mFeatures mImageInfos query with
  | Except.error e => Except.error e
  | Except.ok infos => Except.ok (sort infos)

/-- Sum of doubles, accumulated from 0.0 in list order as `Evaluate` does. -/
def Dbl.sum (l : List Dbl) : Dbl := l.foldl Dbl.add (Dbl.fin 0)

/-- A catalog with the distance scratch field reset on every item. -/
def eraseDistance (l : List ImageInfo) : List ImageInfo :=
  l.map (fun x => { x with distance := Dbl.fin (-1) })

/-- The property "stable ascending-by-distance ranking": along the list no
later distance is less than an earlier one, and of two entries at the same
distance the one with the smaller id comes first. -/
def StableAscending (l : List ImageInfo) : Prop :=
  l.Pairwise (fun a b => Dbl.lt b.distance a.distance = false ∧
    (a.distance = b.distance → a.id < b.id))

/-! ## A sorting procedure that meets the contract of `std::sort` -/

/-- A total preorder on doubles that agrees with `<` away from NaN (NaN is put
first). -/
def Dbl.leTotal : Dbl → Dbl → Bool
  | Dbl.nan, _ => true
  | _, Dbl.nan => false
  | Dbl.ninf, _ => true
  | _, Dbl.ninf => false
  | Dbl.fin a, Dbl.fin b => decide (a ≤ b)
  | _, Dbl.pinf => true
  | Dbl.pinf, _ => false

/-- Insertion sort by distance; it keeps the order of equal distances. -/
def insertionSortByDistance (l : List ImageInfo) : List ImageInfo :=
  l.insertionSort (fun a b => Dbl.leTotal a.distance b.distance = true)

/-! ## A small evaluator -/

/-- Distance |a - b| of one-dimensional features (the L1 norm of `a - b`). -/
def absDistance (a b : ℚ) : Except EvalError Dbl := Except.ok (Dbl.fin |a - b|)

/-- Three one-dimensional features; items 1 and 2 have the same feature, so
they are at the same distance from item 0. Items 0 and 1 are queries. -/
def tieEvaluator : Evaluator ℚ :=
  { mExcludeQueryFromDB := true
    mTopK := 0
    mFeatures := [0, 1, 1]
    mImageInfos := [{ id := 0, classId := 7, isQuery := true, classCount := 2 },
      { id := 1, classId := 7, isQuery := true, classCount := 2 },
      { id := 2, classId := 8, isQuery := false, classCount := 1 }]
    mQueryInfos := [{ id := 0, classId := 7, isQuery := true, classCount := 2 },
      { id := 1, classId := 7, isQuery := true, classCount := 2 }] }

/-- The evaluator `tieEvaluator` with an empty query set. -/
def noQueryEvaluator : Evaluator ℚ := { tieEvaluator with mQueryInfos := [] }

/-- The first query of `tieEvaluator` (item 0). -/
def tieQuery0 : ImageInfo := { id := 0, classId := 7, isQuery := true, classCount := 2 }

/-- The second query of `tieEvaluator` (item 1). -/
def tieQuery1 : ImageInfo := { id := 1, classId := 7, isQuery := true, classCount := 2 }

/-- The average precisions of the queries of `tieEvaluator` under
`insertionSortByDistance`: 1 for item 0 and 1/4 for item 1. -/
def tieAveragePrecision (q : ImageInfo) : Dbl :=
  if q.id = 0 then Dbl.fin 1 else Dbl.fin (1 / 4)

/-- The catalog of `tieEvaluator` after the distance pass for item 0. -/
def tieDistances0 : List ImageInfo :=
  [{ id := 0, classId := 7, isQuery := true, classCount := 2, distance := Dbl.fin 0 },
   { id := 1, classId := 7, isQuery := true, classCount := 2, distance := Dbl.fin 1 },
   { id := 2, classId := 8, isQuery := false, classCount := 1, distance := Dbl.fin 1 }]

/-! ## Distance functions (vector_distance_functions.hpp)

A feature vector is one row of the `CV_32F` matrix `mFeatures`: a list of
finite values, taken exactly. The square root inside OpenCV's L2 norm is the
argument `sqrt` of the functions that need it; what a theorem needs of it
(`sqrt 0 = 0`, exactness at one value) is stated where it is used. -/

/-- The enumeration `DistanceFunction`; `other value outside` is a value
outside the seven enumerators (which have the values 0 to 6), which a C++
variable of the enumeration type can hold. -/
inductive DistanceFunction where
  | L2
  | L2Squared
  | L1
  | Infinity
  | Cosine
  | Hamming
  | MaximalDimensionDifference
  | other (value : Int) (outside : value < 0 ∨ 6 < value)
  deriving DecidableEq

/-- OpenCV `a.mul(b)`: the per-element product; the operands must have the
same size. -/
def cvMul (a b : List ℚ) : Except EvalError (List ℚ) :=
  if a.length = b.length then Except.ok (List.zipWith (fun x y => x * y) a b)
  else Except.error EvalError.cvAssertion

/-- OpenCV `cv::sum(m)[0]`: the sum of the elements. -/
def cvSum (m : List ℚ) : ℚ := m.sum

/-- OpenCV `norm(a)` (the L2 norm): the square root of the sum of squares. -/
def cvNorm (sqrt : ℚ → ℚ) (a : List ℚ) : ℚ := sqrt (cvSum (a.map (fun x => x * x)))

/-- Function `cosineDistance` (vector_distance_functions.hpp, lines 21-27). -/
def cosineDistance (sqrt : ℚ → ℚ) (a b : List ℚ) : Except EvalError Dbl :=
  match cvMul a b with
  | Except.error e => Except.error e
  | Except.ok perElementMultiplication =>
    let dot := Dbl.fin (cvSum perElementMultiplication)
    let cosAngle := dot.div ((Dbl.fin (cvNorm sqrt a)).mul (Dbl.fin (cvNorm sqrt b)))
    Except.ok ((Dbl.fin 1).sub cosAngle)

/-- OpenCV `a != s` for a scalar `s`: the 8-bit mask with 255 where the
element differs from `s` and 0 elsewhere. -/
def cvNeScalar (a : List ℚ) (s : ℚ) : List Nat :=
  a.map (fun v => if v ≠ s then 255 else 0)

/-- OpenCV `x != y` for two masks: 255 where the elements differ and 0
elsewhere; the operands must have the same size. -/
def cvNe (x y : List Nat) : Except EvalError (List Nat) :=
  if x.length = y.length then
    Except.ok (List.zipWith (fun u v => if u ≠ v then 255 else 0) x y)
  else Except.error EvalError.cvAssertion

/-- Function `hamming` (vector_distance_functions.hpp, lines 35-45): the sum
of the mask `r`, divided by 255. -/
def hamming (a b : List ℚ) : Except EvalError Dbl :=
  let x := cvNeScalar a 0
  let y := cvNeScalar b 0
  match cvNe x y with
  | Except.error e => Except.error e
  | Except.ok r => Except.ok ((Dbl.fin ((r.sum : Nat) : ℚ)).div (Dbl.fin 255))

/-- The scan of `cv::minMaxLoc` for the maximum, from raw index `i` on, with
the maximum `maxVal` found so far at index `maxIdx`: a later element replaces
it only when it is strictly greater. -/
def maxLocFrom (maxVal : ℚ) (maxIdx : Nat) : Nat → List ℚ → Nat
  | _, [] => maxIdx
  | i, v :: rest =>
    if maxVal < v then maxLocFrom v i (i + 1) rest
    else maxLocFrom maxVal maxIdx (i + 1) rest

/-- Modelled from the spec: `cv::minMaxLoc` is OpenCV library code, not part of
the sources; its `maxIdx.x` is the index of the maximum of the row, "ties in
argmax resolved by first occurrence". An empty matrix has no maximum. -/
def cvMaxLoc : List ℚ → Option Nat
  | [] => none
  | v :: rest => some (maxLocFrom v 0 1 rest)

/-- Function `maximalDimensionDifference` (vector_distance_functions.hpp,
lines 54-61): `a.at<float>(maxIdx.x)` and `b.at<float>(maxIdx.x)` are read at
the index of the maximum of `a`. -/
def maximalDimensionDifference (a b : List ℚ) : Except EvalError Dbl :=
  match cvMaxLoc a with
  | none => Except.error EvalError.cvAssertion
  | some maxIdx =>
    match a[maxIdx]?, b[maxIdx]? with
    | some x, some y => Except.ok (Dbl.fin |x - y|)
    | _, _ => Except.error EvalError.cvAssertion

/-- The norm types passed to `cv::norm` by `ComputeFeatureDistance`. -/
inductive NormType where
  | NORM_L2
  | NORM_L2SQR
  | NORM_L1
  | NORM_INF
  deriving DecidableEq

/-- Modelled from the spec: `cv::norm(a, b, normType)` is OpenCV library code,
not part of the sources; section 4.3 gives the norms of the difference as
L1 = Σ|aᵢ−bᵢ|, L2 = √(Σ(aᵢ−bᵢ)²), L2Squared = Σ(aᵢ−bᵢ)² and
Infinity = max|aᵢ−bᵢ|. OpenCV asserts that the operands have the same size;
the infinity norm of an empty row is 0. -/
def cvNormDiff (sqrt : ℚ → ℚ) (a b : List ℚ) (normType : NormType) : Except EvalError Dbl :=
  if a.length = b.length then
    let diff := List.zipWith (fun x y => x - y) a b
    match normType with
    | NormType.NORM_L2 => Except.ok (Dbl.fin (sqrt (cvSum (diff.map (fun d => d * d)))))
    | NormType.NORM_L2SQR => Except.ok (Dbl.fin (cvSum (diff.map (fun d => d * d))))
    | NormType.NORM_L1 => Except.ok (Dbl.fin (cvSum (diff.map (fun d => |d|))))
    | NormType.NORM_INF => Except.ok (Dbl.fin ((diff.map (fun d => |d|)).foldl max 0))
  else Except.error EvalError.cvAssertion

/-- Method `MapEvaluator::ComputeFeatureDistance` (map_evaluator.cpp, lines
218-243), with the member `mDistanceFunction` as an argument. -/
def ComputeFeatureDistance (sqrt : ℚ → ℚ) (mDistanceFunction : DistanceFunction)
    (a b : List ℚ) : Except EvalError Dbl :=
  match mDistanceFunction with
  | DistanceFunction.L2 => cvNormDiff sqrt a b NormType.NORM_L2
  | DistanceFunction.L2Squared => cvNormDiff sqrt a b NormType.NORM_L2SQR
  | DistanceFunction.L1 => cvNormDiff sqrt a b NormType.NORM_L1
  | DistanceFunction.Infinity => cvNormDiff sqrt a b NormType.NORM_INF
  | DistanceFunction.Cosine => cosineDistance sqrt a b
  | DistanceFunction.Hamming => hamming a b
  | DistanceFunction.MaximalDimensionDifference => maximalDimensionDifference a b
  | DistanceFunction.other _ _ => Except.error EvalError.distanceNotImplemented

/-- A square root that is exact on the squares of rationals: the integer
square roots of numerator and denominator. -/
def exactSqrt (x : ℚ) : ℚ := (Nat.sqrt x.num.toNat : ℚ) / (Nat.sqrt x.den : ℚ)

/-- Number of positions at which exactly one of the two vectors is non-zero. -/
def differingSupport (a b : List ℚ) : Nat :=
  (List.zip a b).countP (fun p => decide (p.1 ≠ 0) != decide (p.2 ≠ 0))

/-- A feature matrix of two rows for the examples of the distance functions. -/
def metricFeatures : List (List ℚ) := [[1, 3, 3], [0, 1, 7]]

/-- A catalog of two items for `metricFeatures`. -/
def metricCatalog : List ImageInfo :=
  [{ id := 0, classId := 7, isQuery := true, classCount := 2 },
   { id := 1, classId := 7, isQuery := false, classCount := 2 }]

/-- The catalog `metricCatalog` after the distance pass for item 0 under the
selector `MaximalDimensionDifference`. -/
def metricDistances : List ImageInfo :=
  [{ id := 0, classId := 7, isQuery := true, classCount := 2, distance := Dbl.fin 0 },
   { id := 1, classId := 7, isQuery := false, classCount := 2, distance := Dbl.fin 2 }]

/-! ## `ParseAnnotationFile` and the constructor

The annotation file is the list of its lines, each a list of characters (what
`getline(input, line)` yields, line after line); a file that cannot be opened
is `none`. -/

/-- The three columns `ParseAnnotationFile` converts with `stoi`. -/
inductive Column where
  | class_id
  | is_query
  | class_count
  deriving DecidableEq

/-- The fatal outcomes of the constructor of `MapEvaluator`. -/
inductive ConstructError where
  /-- `CHECK(input.is_open())` failed. -/
  | openFailed
  /-- `LOG(FATAL)` "Error parsing column ... on line number `lineNumber`". -/
  | parseError (column : Column) (lineNumber : Int)
  /-- `CHECK(isQuery == 0 || isQuery == 1)` failed, reporting `lineNumber`. -/
  | invalidIsQuery (lineNumber : Int) (received : Int)
  /-- `CHECK_EQ(mFeatures.rows, mImageInfos.size())` failed. -/
  | rowCountMismatch
  deriving DecidableEq

/-- The characters of a stream up to the first `delimiter`, and what follows
the delimiter; `none` when the end of the stream is reached first. -/
def splitAtDelimiter (delimiter : Char) : List Char → List Char × Option (List Char)
  | [] => ([], none)
  | c :: cs =>
    if c = delimiter then ([], some cs)
    else (c :: (splitAtDelimiter delimiter cs).1, (splitAtDelimiter delimiter cs).2)

/-- Library function `std::getline(stream, token, delimiter)` on a string
stream. The stream is `some cs` while it is good, `cs` being the characters not
yet read, and `none` once the end has been reached (eofbit set). On a good
stream the token is erased and filled up to the delimiter or the end; on a
stream that is not good the sentry fails and the token keeps its value. The
result is the new stream state and the new token. -/
def getline (stream : Option (List Char)) (token : List Char) (delimiter : Char) :
    Option (List Char) × List Char :=
  match stream with
  | none => (none, token)
  | some cs => ((splitAtDelimiter delimiter cs).2, (splitAtDelimiter delimiter cs).1)

/-- The white space `strtol` skips: space, and the characters 9 to 13. -/
def isSpace (c : Char) : Bool := c.toNat = 32 || (9 ≤ c.toNat && c.toNat ≤ 13)

/-- The decimal digits of C (`isdigit`): the characters 48 to 57. -/
def isDigit (c : Char) : Bool := 48 ≤ c.toNat && c.toNat ≤ 57

/-- Decimal value of a list of digits. -/
def digitsValue (ds : List Char) : Nat :=
  ds.foldl (fun acc c => 10 * acc + (c.toNat - 48)) 0

/-- Library call `std::stoi(token.c_str())`: the string ends at the first NUL;
white space is skipped, an optional sign is read, then the longest run of
digits; what follows the digits is ignored. `none` stands for the exception
thrown when there is no digit (`invalid_argument`) or the value does not fit
an `int` (`out_of_range`). -/
def stoi (str : List Char) : Option Int :=
  let s0 := str.takeWhile (fun c => c.toNat ≠ 0)
  let s1 := s0.dropWhile isSpace
  let negative : Bool := s1.head? = some '-'
  let s2 :=
    match s1 with
    | c :: r => if c = '-' ∨ c = '+' then r else s1
    | [] => s1
  let digits := s2.takeWhile isDigit
  if digits = [] then none
  else
    let value : Int := if negative then -(digitsValue digits : Int) else (digitsValue digits : Int)
    if -2147483648 ≤ value ∧ value ≤ 2147483647 then some value else none

/-- The body of the `while` loop of `ParseAnnotationFile` (lines 39-92) up to
the two `push_back`s, for the line `line` read while the counter `id` has the
value `id`: the `ImageInfo` built from the line, or the fatal error. The line
number reported is `id + 1` taken after `id++`. The local `isQuery` tested by
the `CHECK` is the one declared on line 60; `stoi` stores into
`imageInfo.isQuery`. -/
def parseLine (id : Int) (line : List Char) : Except ConstructError ImageInfo :=
  let delimiter := ';'
  let r0 := getline (some line) [] delimiter
  let id1 := id + 1
  let r1 := getline r0.1 r0.2 delimiter
  match stoi r1.2 with
  | none => Except.error (ConstructError.parseError Column.class_id (id1 + 1))
  | some classId =>
    let r2 := getline r1.1 r1.2 delimiter
    let isQuery : Int := 0
    match stoi r2.2 with
    | none => Except.error (ConstructError.parseError Column.is_query (id1 + 1))
    | some imageInfoIsQuery =>
      if ¬ (isQuery = 0 ∨ isQuery = 1) then
        Except.error (ConstructError.invalidIsQuery (id1 + 1) isQuery)
      else
        let r3 := getline r2.1 r2.2 delimiter
        match stoi r3.2 with
        | none => Except.error (ConstructError.parseError Column.class_count (id1 + 1))
        | some classCount =>
          Except.ok
            { id := id
              classId := classId
              isQuery := decide (imageInfoIsQuery ≠ 0)
              classCount := classCount }

/-- The `while (getline(input, line))` loop of `ParseAnnotationFile` from the
counter value `id` on, over the lines not yet read; the state is the pair of
`mImageInfos` and `mQueryInfos`. -/
def parseLines : Int → List (List Char) → List ImageInfo × List ImageInfo →
    Except ConstructError (List ImageInfo × List ImageInfo)
  | _, [], st => Except.ok st
  | id, line :: rest, st =>
    match parseLine id line with
    | Except.error e => Except.error e
    | Except.ok imageInfo =>
      parseLines (id + 1) rest
        (st.1 ++ [imageInfo], if imageInfo.isQuery then st.2 ++ [imageInfo] else st.2)

/-- Method `MapEvaluator::ParseAnnotationFile` (map_evaluator.cpp, lines 23-104)
on an evaluator whose `mImageInfos` and `mQueryInfos` are still empty: the two
vectors it fills. -/
def ParseAnnotationFile (annotationFile : Option (List (List Char))) :
    Except ConstructError (List ImageInfo × List ImageInfo) :=
  match annotationFile with
  | none => Except.error ConstructError.openFailed
  | some lines => parseLines 0 lines ([], [])

/-- All the members of the class `MapEvaluator`. -/
structure MapEvaluatorObject extends Evaluator (List ℚ) where
  mDistanceFunction : DistanceFunction
  mDistanceFunctionParameter : Dbl

/-- The constructor `MapEvaluator::MapEvaluator` (map_evaluator.hpp, lines
32-45). `loadedFeatures` is the matrix that `LoadFeatures` leaves in
`mFeatures`, row by row. -/
def MapEvaluatorObject.construct (loadedFeatures : List (List ℚ))
    (annotationFile : Option (List (List Char))) : Except ConstructError MapEvaluatorObject :=
  match ParseAnnotationFile annotationFile with
  | Except.error e => Except.error e
  | Except.ok parsed =>
    if (loadedFeatures.length : Int) = (parsed.1.length : Int) then
      Except.ok
        { mExcludeQueryFromDB := true
          mTopK := 0
          mFeatures := loadedFeatures
          mImageInfos := parsed.1
          mQueryInfos := parsed.2
          mDistanceFunction := DistanceFunction.L2
          mDistanceFunctionParameter := Dbl.fin 0 }
    else Except.error ConstructError.rowCountMismatch

/-- Method `Evaluate` of a constructed object: the distance method is
`ComputeFeatureDistance` with the member `mDistanceFunction`. -/
def MapEvaluatorObject.Evaluate (sqrt : ℚ → ℚ) (sort : List ImageInfo → List ImageInfo)
    (obj : MapEvaluatorObject) : Except EvalError (Dbl × Evaluator (List ℚ)) :=
  MapEvaluator.Evaluate (ComputeFeatureDistance sqrt obj.mDistanceFunction) sort obj.toEvaluator

/-- An annotation file of three lines; the first column of the second line is
not its line number, and the third line has further columns. -/
def sampleAnnotation : List (List Char) :=
  ["0;7;1;2".toList, "99;7;0;2".toList, "2;8;1;1;cat.jpg;cats".toList]

/-- The catalog parsed from `sampleAnnotation`. -/
def sampleCatalog : List ImageInfo :=
  [{ id := 0, classId := 7, isQuery := true, classCount := 2 },
   { id := 1, classId := 7, isQuery := false, classCount := 2 },
   { id := 2, classId := 8, isQuery := true, classCount := 1 }]

/-- The query set parsed from `sampleAnnotation`. -/
def sampleQueries : List ImageInfo :=
  [{ id := 0, classId := 7, isQuery := true, classCount := 2 },
   { id := 2, classId := 8, isQuery := true, classCount := 1 }]

/-- An annotation file whose lines carry the values 2 and -1 in the column
`is query`. -/
def isQueryTwoAnnotation : List (List Char) := ["0;5;2;3".toList, "1;5;-1;3".toList]

/-- An annotation file whose first line (line 1, 0-based line 0) has a
malformed class id. -/
def malformedAnnotation : List (List Char) := ["0;x;0;1".toList]

/-- The catalog of `tieEvaluator` after the distance pass for item 1, the last
of its queries. -/
def tieDistances1 : List ImageInfo :=
  [{ id := 0, classId := 7, isQuery := true, classCount := 2, distance := Dbl.fin 1 },
   { id := 1, classId := 7, isQuery := true, classCount := 2, distance := Dbl.fin 0 },
   { id := 2, classId := 8, isQuery := false, classCount := 1, distance := Dbl.fin 0 }]


/-- A query whose classCount is understated: its class has three members in
`understatedRanking`, the annotation says 2. -/
def understatedQuery : ImageInfo := scenarioItem 0 7 true 2 0

/-- A ranking for `understatedQuery`: the query itself and two more items of
its class. -/
def understatedRanking : List ImageInfo :=
  [scenarioItem 0 7 true 2 0, scenarioItem 1 7 false 2 1, scenarioItem 2 7 false 2 2]


/-- Configuration with the exclusion on and top-K limit 2. -/
def topKConfig : Config := { mExcludeQueryFromDB := true, mTopK := 2 }


/-! ## The trace of the scoring loop

The ghost record `consumed` lists the consumed positions in order; position
`j` of it (0-based) is the consumed position that `j` consumed positions
precede. -/

/-- Whether the loop, when it reaches raw index `i`, has passed the `continue`
of line 190: the exclusion is on and an entry before `i` has the query's id.
This is the value of `wasQueryExcluded` at raw index `i`. -/
def skippedBefore (cfg : Config) (query : ImageInfo) (sortedResult : List ImageInfo)
    (i : Nat) : Bool :=
  cfg.mExcludeQueryFromDB && (sortedResult.take i).any (fun x => decide (x.id = query.id))

/-- The divisor of the precision at raw index `i` (lines 199-206): `i` when
the query's own entry has been skipped before, `i + 1` otherwise. -/
def usedDivisor (cfg : Config) (query : ImageInfo) (sortedResult : List ImageInfo)
    (i : Nat) : Int :=
  if skippedBefore cfg query sortedResult i then (i : Int) else (i : Int) + 1

/-- The value of `matchCount` at consumed position `j`: the number of entries
of the query's class among the consumed positions up to `j`, `j` included. -/
def matchCountAt (query : ImageInfo) (consumed : List (Nat × ImageInfo)) (j : Nat) : Dbl :=
  Dbl.fin (sameClassCount query (consumed.take (j + 1)))

/-- The divisor in the words of the specification: with `p` the number of
positions consumed before the current one, `p + 1` while the query's own entry
has not been skipped and `p` after it has been. -/
def claimedDivisor (skipped : Bool) (p : Nat) : Int :=
  if skipped then (p : Int) else (p : Int) + 1

/-- The last element of a list, or `prev` for the empty list. -/
def lastOr {α : Type} (prev : α) : List α → α
  | [] => prev
  | x :: rest => lastOr x rest

/-- The terms of the trapezoidal sum in the words of the specification, for
the samples (precision, recall) in order, from the values of the preceding
position: `(recall_j - recall_{j-1}) * (precision_j + precision_{j-1}) / 2`. -/
def trapezoidTerms (prevPrecision prevRecall : Dbl) : List (Dbl × Dbl) → List Dbl
  | [] => []
  | (p, r) :: rest =>
    ((r.sub prevRecall).mul (p.add prevPrecision)).div (Dbl.fin 2) :: trapezoidTerms p r rest

/-- The trapezoidal sum over the samples, with the starting values
`recall_{-1} = 0` and `precision_{-1} = 1`. -/
def trapezoidalSum (samples : List (Dbl × Dbl)) : Dbl :=
  Dbl.sum (trapezoidTerms (Dbl.fin 1) (Dbl.fin 0) samples)

/-- For every consumed position, whether its entry is of the query's class. -/
def matchFlags (query : ImageInfo) (consumed : List (Nat × ImageInfo)) : List Bool :=
  consumed.map (fun c => decide (c.2.classId = query.classId))

/-- The sum of the closed form: over the positions (precision, is a match) in
order, the sum over the matching ones of `(precision_j + precision_{j-1}) / 2`,
from the precision of the preceding position. -/
def matchingSum (prevPrecision : ℚ) : List (ℚ × Bool) → ℚ
  | [] => 0
  | (p, isMatch) :: rest =>
    (if isMatch then (p + prevPrecision) / 2 else 0) + matchingSum p rest

/-- The closed form `(1 / matches) * Σ (precision_j + precision_{j-1}) / 2`
over the matching positions, with `precision_{-1} = 1`. -/
def closedForm (matches_ : ℚ) (positions : List (ℚ × Bool)) : ℚ :=
  (1 / matches_) * matchingSum 1 positions

/-- Loop invariant that ties the recorded samples to the trace: the flag
`wasQueryExcluded` is `skippedBefore`, nothing but skips separates the raw
index from the number of consumed positions, and the sample of every consumed
position is `matchCount` over the divisor at its raw index, and over
`matches`. -/
structure TraceInv (cfg : Config) (query : ImageInfo) (l0 : List ImageInfo) (m : Dbl)
    (i : Nat) (s : LoopState) : Prop where
  excluded : s.wasQueryExcluded = skippedBefore cfg query l0 i
  noSkip : s.wasQueryExcluded = false → s.consumed.length = i
  sample : ∀ (j k : Nat) (x : ImageInfo), s.consumed[j]? = some (k, x) →
    s.precisionRecallValues[j]? = some
      ((matchCountAt query s.consumed j).div (Dbl.ofInt (usedDivisor cfg query l0 k)),
        (matchCountAt query s.consumed j).div m)
  position : ∀ (j k : Nat) (x : ImageInfo), s.consumed[j]? = some (k, x) →
    (skippedBefore cfg query l0 k = false → k = j) ∧
    (skippedBefore cfg query l0 k = true → j + 1 ≤ k)

/-- Loop invariant for a ranking that holds the query's id at most once: one
skip at most has happened, so the divisor at every consumed position is the
number of positions consumed so far, the current one included. -/
def OnceInv (cfg : Config) (query : ImageInfo) (l0 : List ImageInfo) (i : Nat)
    (s : LoopState) : Prop :=
  (s.wasQueryExcluded = true → s.consumed.length + 1 = i) ∧
  ∀ (j k : Nat) (x : ImageInfo), s.consumed[j]? = some (k, x) →
    usedDivisor cfg query l0 k = (j : Int) + 1

/-- Loop invariant: the accumulated average precision is the trapezoidal sum
of the samples recorded so far, and `oldPrecision`, `oldRecall` are the last
sample (or the starting values 1 and 0). -/
def TrapInv (s : LoopState) : Prop :=
  s.averagePrecision = trapezoidalSum s.precisionRecallValues ∧
  (s.oldPrecision, s.oldRecall) = lastOr (Dbl.fin 1, Dbl.fin 0) s.precisionRecallValues

/-- Loop invariant for a non-zero adjusted match count `m`: the recorded
precisions are finite values `ps`, the accumulated average precision is the
closed form over them, and the term of every position that is not a match is
zero. -/
def ClosedInv (query : ImageInfo) (m : ℚ) (s : LoopState) : Prop :=
  ∃ ps : List ℚ, s.precisionRecallValues.map Prod.fst = ps.map Dbl.fin ∧
    ps.length = s.consumed.length ∧
    s.averagePrecision = Dbl.fin (closedForm m (ps.zip (matchFlags query s.consumed))) ∧
    s.oldPrecision = Dbl.fin (lastOr 1 ps) ∧
    s.oldRecall = Dbl.fin ((sameClassCount query s.consumed : ℚ) / m) ∧
    ∀ t ∈ (trapezoidTerms (Dbl.fin 1) (Dbl.fin 0) s.precisionRecallValues).zip
        (matchFlags query s.consumed), t.2 = false → t.1 = Dbl.fin 0


/-- A ranking for `scenarioQuery` in which an item of the other class comes
before the match: `[id 0, id 3, id 1, id 2]`. -/
def mixedRanking : List ImageInfo :=
  [scenarioItem 0 7 true 2 0, scenarioItem 3 8 false 2 1,
   scenarioItem 1 7 false 2 2, scenarioItem 2 8 false 2 3]


/-- OpenCV `norm(a)` (the L2 norm) over a field `K` with the square root
`sqrt`: the square root of the sum of squares. -/
def cvNormIn {K : Type} [Field K] (sqrt : K → K) (a : List K) : K :=
  sqrt ((a.map (fun x => x * x)).sum)

/-- Function `cosineDistance` (vector_distance_functions.hpp, lines 21-27) in
exact arithmetic over a field `K` that has the square root `sqrt` (the real
numbers with `Real.sqrt`): the operations of `cosineDistance` in the same
order, without rounding. The value is `none` when the divisor
`norm(a) * norm(b)` is zero, where the double is NaN or infinite. -/
def cosineDistanceIn {K : Type} [Field K] [DecidableEq K] (sqrt : K → K) (a b : List K) :
    Except EvalError (Option K) :=
  if a.length = b.length then
    let perElementMultiplication := List.zipWith (fun x y => x * y) a b
    let dot := perElementMultiplication.sum
    let divisor := cvNormIn sqrt a * cvNormIn sqrt b
    if divisor = 0 then Except.ok none else Except.ok (some (1 - dot / divisor))
  else Except.error EvalError.cvAssertion


/-! ## The command-line front end (map_evaluator_cli.cpp)

A command-line argument, like every string here, is the list of its
characters. -/

/-- The two exceptions of `std::stoi`. -/
inductive StoiException where
  | invalid_argument
  | out_of_range
  deriving DecidableEq

/-- Library call `std::stoi(value)` with its two exceptions told apart; the
steps are those of `stoi`. -/
def stoiOutcome (str : List Char) : Except StoiException Int :=
  let s0 := str.takeWhile (fun c => c.toNat ≠ 0)
  let s1 := s0.dropWhile isSpace
  let negative : Bool := s1.head? = some '-'
  let s2 :=
    match s1 with
    | c :: r => if c = '-' ∨ c = '+' then r else s1
    | [] => s1
  let digits := s2.takeWhile isDigit
  if digits = [] then Except.error StoiException.invalid_argument
  else
    let value : Int := if negative then -(digitsValue digits : Int) else (digitsValue digits : Int)
    if -2147483648 ≤ value ∧ value ≤ 2147483647 then Except.ok value
    else Except.error StoiException.out_of_range

/-- The integer nearest to `n / d`, ties going to the even integer. -/
def roundNearestEven (n d : Nat) : Nat :=
  let f := n / d
  let r := n % d
  if 2 * r < d then f else if d < 2 * r then f + 1 else if f % 2 = 0 then f else f + 1

/-- The number of halvings that bring `n` below 2, with at most `fuel` of
them. -/
def log2Fuel : Nat → Nat → Nat
  | 0, _ => 0
  | fuel + 1, n => if n < 2 then 0 else log2Fuel fuel (n / 2) + 1

/-- The position of the leading bit of `n`: the floor of its binary
logarithm (0 for `n = 0`). -/
def floorLog2 (n : Nat) : Nat := log2Fuel n n

/-- The double nearest to the rational `q`: a significand `m` of 53 bits
(2^52 ≤ m ≤ 2^53) and an exponent `e` with `|q|` nearest to `m * 2^e`. -/
def round64 (q : ℚ) : ℚ :=
  if q = 0 then 0
  else
    let n := q.num.natAbs
    let d := q.den
    let e0 : Int := (floorLog2 n : Int) - (floorLog2 d : Int) - 52
    let scaled (e : Int) : Nat × Nat :=
      if 0 ≤ e then (n, d * 2 ^ e.toNat) else (n * 2 ^ (-e).toNat, d)
    let e : Int := if (scaled e0).1 < 2 ^ 52 * (scaled e0).2 then e0 - 1 else e0
    let m := roundNearestEven (scaled e).1 (scaled e).2
    let v : ℚ := if 0 ≤ e then ((m * 2 ^ e.toNat : Nat) : ℚ) else mkRat (m : Int) (2 ^ (-e).toNat)
    if q < 0 then -v else v

/-- Rounding of an exact result to a double. -/
def Dbl.round : Dbl → Dbl
  | Dbl.fin q => Dbl.fin (round64 q)
  | x => x

/-- The double `a + b`. -/
def Dbl.add64 (a b : Dbl) : Dbl := (a.add b).round

/-- The double `a - b`. -/
def Dbl.sub64 (a b : Dbl) : Dbl := (a.sub b).round

/-- The double `a * b`. -/
def Dbl.mul64 (a b : Dbl) : Dbl := (a.mul b).round

/-- The double `a / b`. -/
def Dbl.div64 (a b : Dbl) : Dbl := (a.div b).round

/-- One pass of the loop body (lines 193-212) in double arithmetic: `scoreStep`
with every operation rounded. -/
def scoreStep64 (query : ImageInfo) (matches_ : Dbl) (i : Nat) (x : ImageInfo)
    (s : LoopState) : LoopState :=
  let matchCount :=
    if x.classId = query.classId then s.matchCount.add64 (Dbl.fin 1) else s.matchCount
  let recall_ := matchCount.div64 matches_
  let precision_ :=
    if s.wasQueryExcluded then matchCount.div64 (Dbl.ofInt i)
    else matchCount.div64 (Dbl.ofInt (i + 1))
  let averagePrecision :=
    s.averagePrecision.add64
      ((recall_.sub64 s.oldRecall).mul64 ((s.oldPrecision.add64 precision_).div64 (Dbl.fin 2)))
  { oldRecall := recall_
    oldPrecision := precision_
    recall_ := recall_
    precision_ := precision_
    averagePrecision := averagePrecision
    matchCount := matchCount
    wasQueryExcluded := s.wasQueryExcluded
    precisionRecallValues := s.precisionRecallValues ++ [(precision_, recall_)]
    consumed := s.consumed ++ [(i, x)] }

/-- The loop of lines 181-213 in double arithmetic. -/
def scoreLoop64 (cfg : Config) (query : ImageInfo) (matches_ : Dbl) (nResults : Int) :
    Nat → List ImageInfo → LoopState → LoopState
  | _, [], s => s
  | i, x :: rest, s =>
    if (s.precisionRecallValues.length : Int) = nResults then s
    else if cfg.mExcludeQueryFromDB && decide (x.id = query.id) then
      scoreLoop64 cfg query matches_ nResults (i + 1) rest { s with wasQueryExcluded := true }
    else
      scoreLoop64 cfg query matches_ nResults (i + 1) rest (scoreStep64 query matches_ i x s)

/-- State of the local variables when the loop has ended, in double
arithmetic. The values of `matches` and `nResults` before the loop are small
integers, which the doubles hold exactly. -/
def finalState64 (cfg : Config) (query : ImageInfo) (sortedResult : List ImageInfo) :
    LoopState :=
  scoreLoop64 cfg query (adjustedMatches cfg query sortedResult.length)
    (resultCount cfg sortedResult.length) 0 sortedResult {}

/-- Method `MapEvaluator::EvaluateAveragePrecision` in double arithmetic. -/
def EvaluateAveragePrecision64 (cfg : Config) (query : ImageInfo)
    (sortedResult : List ImageInfo) : Except EvalError APResult :=
  let warning := Dbl.lt (matchesBeforeTopK cfg query) (Dbl.ofInt cfg.mTopK)
  if resultCount cfg sortedResult.length < 0 then Except.error EvalError.lengthError
  else
    let s := finalState64 cfg query sortedResult
    Except.ok
      { averagePrecision := s.averagePrecision
        precisionRecallValues := s.precisionRecallValues
        warning := warning }

/-- The sum of the closed form in double arithmetic, accumulated from `acc` in
the order of the positions. -/
def matchingSum64 (prevPrecision acc : Dbl) : List (Dbl × Bool) → Dbl
  | [] => acc
  | (p, isMatch) :: rest =>
    matchingSum64 p
      (if isMatch then acc.add64 ((p.add64 prevPrecision).div64 (Dbl.fin 2)) else acc) rest

/-- The closed form `(1 / matches) * Σ (precision_j + precision_{j-1}) / 2` in
double arithmetic, the operations in the order written. -/
def closedForm64 (matches_ : Dbl) (positions : List (Dbl × Bool)) : Dbl :=
  ((Dbl.fin 1).div64 matches_).mul64 (matchingSum64 (Dbl.fin 1) (Dbl.fin 0) positions)

/-- Configuration of the command-line front end without options: exclusion
off, no top-K limit. -/
def plainConfig : Config := { mExcludeQueryFromDB := false, mTopK := 0 }

/-- A query of class 7 with classCount 3. -/
def roundingQuery : ImageInfo := scenarioItem 1 7 true 3 0

/-- A ranking for `roundingQuery` with the classes other, same, same, other,
same. -/
def roundingRanking : List ImageInfo :=
  [scenarioItem 0 8 false 2 0, scenarioItem 1 7 true 3 1, scenarioItem 2 7 false 3 2,
   scenarioItem 3 8 false 2 3, scenarioItem 4 7 false 3 4]


/-! ## `std::sort` as libstdc++ implements it

`Evaluate` sorts with `std::sort`, which is library code. The definitions of
this section follow the `std::sort` of libstdc++ (GCC 12: `std::__sort` and its
helpers in bits/stl_algo.h, the heap helpers in bits/stl_heap.h). The array is
a list, an iterator is its index. A comparison that would read outside the
array gives false and a swap with an index outside the array does nothing
(undefined behaviour in C++; neither happens when `<` is a strict weak
ordering of the elements). The loops of the partition and of the heap helpers
take a bound on their rounds; the array length bounds each of them: an index
moves by one step per round inside the array, or the hole moves one level of
the heap. -/

/-- Function `std::iter_swap(first + i, first + j)` on the array kept as a list;
nothing happens when an index is outside the array. -/
def iter_swap {α : Type} (arr : List α) (i j : Nat) : List α :=
  match arr[i]?, arr[j]? with
  | some x, some y => (arr.set i y).set j x
  | _, _ => arr

/-- The comparison `comp(i, j)` of two iterators, `*i < *j`; false when an
index is outside the array. -/
def compAt {α : Type} (lt : α → α → Bool) (arr : List α) (i j : Nat) : Bool :=
  match arr[i]?, arr[j]? with
  | some x, some y => lt x y
  | _, _ => false

/-- Function `std::__move_median_to_first(result, a, b, c)`. -/
def move_median_to_first {α : Type} (lt : α → α → Bool) (arr : List α)
    (result a b c : Nat) : List α :=
  if compAt lt arr a b then
    if compAt lt arr b c then iter_swap arr result b
    else if compAt lt arr a c then iter_swap arr result c
    else iter_swap arr result a
  else if compAt lt arr a c then iter_swap arr result a
  else if compAt lt arr b c then iter_swap arr result c
  else iter_swap arr result b

/-- The loop `while (comp(first, pivot)) ++first;` of
`std::__unguarded_partition`. -/
def scanUp {α : Type} (lt : α → α → Bool) (arr : List α) (pivot : Nat) : Nat → Nat → Nat
  | 0, first => first
  | fuel + 1, first =>
    if compAt lt arr first pivot then scanUp lt arr pivot fuel (first + 1) else first

/-- The loop `while (comp(pivot, last)) --last;` of
`std::__unguarded_partition`. -/
def scanDown {α : Type} (lt : α → α → Bool) (arr : List α) (pivot : Nat) : Nat → Nat → Nat
  | 0, last => last
  | fuel + 1, last =>
    if compAt lt arr pivot last then scanDown lt arr pivot fuel (last - 1) else last

/-- Function `std::__unguarded_partition(first, last, pivot)`: the array after the
call and the returned cut. -/
def unguarded_partition {α : Type} (lt : α → α → Bool) (pivot : Nat) :
    Nat → List α → Nat → Nat → List α × Nat
  | 0, arr, first, _ => (arr, first)
  | fuel + 1, arr, first, last =>
    let first := scanUp lt arr pivot arr.length first
    let last := last - 1
    let last := scanDown lt arr pivot arr.length last
    if ¬ first < last then (arr, first)
    else unguarded_partition lt pivot fuel (iter_swap arr first last) (first + 1) last

/-- Function `std::__unguarded_partition_pivot(first, last)`. -/
def unguarded_partition_pivot {α : Type} (lt : α → α → Bool) (arr : List α)
    (first last : Nat) : List α × Nat :=
  let mid := first + (last - first) / 2
  let arr := move_median_to_first lt arr first (first + 1) mid (last - 1)
  unguarded_partition lt first arr.length arr (first + 1) last

/-- Function `std::__push_heap(first, holeIndex, topIndex, value)`; the array is kept
with `value` stored at the hole. -/
def push_heap {α : Type} (lt : α → α → Bool) (first topIndex : Nat) :
    Nat → List α → Nat → List α
  | 0, arr, _ => arr
  | fuel + 1, arr, holeIndex =>
    let parent := (holeIndex - 1) / 2
    if topIndex < holeIndex ∧ compAt lt arr (first + parent) (first + holeIndex) = true then
      push_heap lt first topIndex fuel
        (iter_swap arr (first + holeIndex) (first + parent)) parent
    else arr

/-- The `while (secondChild < (len - 1) / 2)` loop of `std::__adjust_heap`:
the array (with `value` at the hole), the hole and `secondChild` after it. -/
def adjust_heap_loop {α : Type} (lt : α → α → Bool) (first len : Nat) :
    Nat → List α → Nat → Nat → List α × Nat × Nat
  | 0, arr, holeIndex, secondChild => (arr, holeIndex, secondChild)
  | fuel + 1, arr, holeIndex, secondChild =>
    if secondChild < (len - 1) / 2 then
      let secondChild := 2 * (secondChild + 1)
      let secondChild :=
        if compAt lt arr (first + secondChild) (first + (secondChild - 1)) then secondChild - 1
        else secondChild
      adjust_heap_loop lt first len fuel
        (iter_swap arr (first + holeIndex) (first + secondChild)) secondChild secondChild
    else (arr, holeIndex, secondChild)

/-- Function `std::__adjust_heap(first, holeIndex, len, value)`; the array is kept
with `value` stored at the hole. -/
def adjust_heap {α : Type} (lt : α → α → Bool) (arr : List α) (first holeIndex len : Nat) :
    List α :=
  let topIndex := holeIndex
  let s := adjust_heap_loop lt first len len arr holeIndex holeIndex
  let t : List α × Nat :=
    if len % 2 = 0 ∧ s.2.2 = (len - 2) / 2 then
      let secondChild := 2 * (s.2.2 + 1)
      (iter_swap s.1 (first + s.2.1) (first + (secondChild - 1)), secondChild - 1)
    else (s.1, s.2.1)
  push_heap lt first topIndex len t.1 t.2

/-- Function `std::__pop_heap(first, last, result)`. -/
def pop_heap {α : Type} (lt : α → α → Bool) (arr : List α) (first last result : Nat) :
    List α :=
  adjust_heap lt (iter_swap arr result first) first 0 (last - first)

/-- The loop of `std::__make_heap` from `parent` down to 0. -/
def make_heap_loop {α : Type} (lt : α → α → Bool) (first len : Nat) : List α → Nat → List α
  | arr, 0 => adjust_heap lt arr first 0 len
  | arr, parent + 1 => make_heap_loop lt first len (adjust_heap lt arr first (parent + 1) len) parent

/-- Function `std::__make_heap(first, last)`. -/
def make_heap {α : Type} (lt : α → α → Bool) (arr : List α) (first last : Nat) : List α :=
  if last - first < 2 then arr
  else make_heap_loop lt first (last - first) arr ((last - first - 2) / 2)

/-- Function `std::__heap_select(first, middle, last)`. -/
def heap_select {α : Type} (lt : α → α → Bool) (arr : List α) (first middle last : Nat) :
    List α :=
  (List.range' middle (last - middle)).foldl
    (fun arr i => if compAt lt arr i first then pop_heap lt arr first middle i else arr)
    (make_heap lt arr first middle)

/-- Function `std::__sort_heap(first, last)`. -/
def sort_heap {α : Type} (lt : α → α → Bool) (first : Nat) : Nat → List α → Nat → List α
  | 0, arr, _ => arr
  | fuel + 1, arr, last =>
    if 1 < last - first then
      sort_heap lt first fuel (pop_heap lt arr first (last - 1) (last - 1)) (last - 1)
    else arr

/-- Function `std::__partial_sort(first, middle, last)`. -/
def partial_sort {α : Type} (lt : α → α → Bool) (arr : List α) (first middle last : Nat) :
    List α :=
  sort_heap lt first (middle - first) (heap_select lt arr first middle last) middle

/-- Function `std::__introsort_loop(first, last, depth_limit)`, `_S_threshold` = 16.
The recursive call sorts the part from the cut on, the next round of the
`while` loop goes on with the part in front of the cut; both run with the
decremented `depth_limit`. -/
def introsort_loop {α : Type} (lt : α → α → Bool) :
    Nat → List α → Nat → Nat → List α
  | 0, arr, first, last =>
    if 16 < last - first then partial_sort lt arr first last last else arr
  | depth_limit + 1, arr, first, last =>
    if 16 < last - first then
      let p := unguarded_partition_pivot lt arr first last
      let arr := introsort_loop lt depth_limit p.1 p.2 last
      introsort_loop lt depth_limit arr first p.2
    else arr

/-- Function `std::__unguarded_linear_insert(last)` with `val = *last`; `before` holds
the elements in front of `last`, the nearest first. The result is the range up
to `last` in the same reversed order. The loop stops at the front of the
array. -/
def unguarded_linear_insert {α : Type} (lt : α → α → Bool) (val : α) : List α → List α
  | [] => [val]
  | next :: before =>
    if lt val next then next :: unguarded_linear_insert lt val before
    else val :: next :: before

/-- One round of the loop of `std::__insertion_sort`: `val = *i` goes to the
front when it is less than `*first`, else it is inserted from the right.
`before` holds the elements in front of `i`, the nearest first. -/
def insertion_sort_step {α : Type} (lt : α → α → Bool) (before : List α) (val : α) : List α :=
  match before.getLast? with
  | some first =>
    if lt val first then before ++ [val] else unguarded_linear_insert lt val before
  | none => [val]

/-- Function `std::__insertion_sort(first, last)` on the whole of `l`. -/
def insertion_sort {α : Type} (lt : α → α → Bool) (l : List α) : List α :=
  match l with
  | [] => []
  | x :: rest => (rest.foldl (insertion_sort_step lt) [x]).reverse

/-- Function `std::__final_insertion_sort(first, last)` on the whole array. -/
def final_insertion_sort {α : Type} (lt : α → α → Bool) (l : List α) : List α :=
  if 16 < l.length then
    ((l.drop 16).foldl (fun before val => unguarded_linear_insert lt val before)
      (insertion_sort lt (l.take 16)).reverse).reverse
  else insertion_sort lt l

/-- Function `std::__lg(n)`: the floor of the binary logarithm. -/
def lg (n : Nat) : Nat := floorLog2 n

/-- Function `std::sort(first, last)` of libstdc++ (`std::__sort`) on the whole
array: the introsort loop with depth limit `2 * lg(n)`, then the final
insertion sort. -/
def stdSort {α : Type} (lt : α → α → Bool) (l : List α) : List α :=
  if l.length ≠ 0 then
    final_insertion_sort lt (introsort_loop lt (lg l.length * 2) l 0 l.length)
  else l

/-! ## A catalog of seventeen items -/

/-- Seventeen one-dimensional features: item 0 at 0, items 1 to 16 at 1. -/
def seventeenFeatures : List (List ℚ) :=
  [[0], [1], [1], [1], [1], [1], [1], [1], [1], [1], [1], [1], [1], [1], [1], [1], [1]]

/-- The query of the catalog of seventeen items: item 0, the only item of
class 7. -/
def seventeenQuery : ImageInfo := { id := 0, classId := 7, isQuery := true, classCount := 1 }

/-- Item `id` of class 8 in the catalog of seventeen items, at distance `d`. -/
def seventeenItem (id : Int) (d : ℚ) : ImageInfo := scenarioItem id 8 false 16 d

/-- The catalog for `seventeenFeatures`: the ids are the positions 0 to 16. -/
def seventeenCatalog : List ImageInfo :=
  [seventeenQuery, seventeenItem 1 (-1), seventeenItem 2 (-1), seventeenItem 3 (-1),
   seventeenItem 4 (-1), seventeenItem 5 (-1), seventeenItem 6 (-1), seventeenItem 7 (-1),
   seventeenItem 8 (-1), seventeenItem 9 (-1), seventeenItem 10 (-1), seventeenItem 11 (-1),
   seventeenItem 12 (-1), seventeenItem 13 (-1), seventeenItem 14 (-1), seventeenItem 15 (-1),
   seventeenItem 16 (-1)]

/-- The ranking of `seventeenCatalog` for item 0 under the squared Euclidean
distance and `stdSort`: item 0 at distance 0, then the sixteen items at
distance 1 in the id order 8, 16, 15, 14, 13, 12, 11, 10, 9, 7, 6, 5, 4, 3,
2, 1. -/
def seventeenRanking : List ImageInfo :=
  [{ seventeenQuery with distance := Dbl.fin 0 }, seventeenItem 8 1, seventeenItem 16 1,
   seventeenItem 15 1, seventeenItem 14 1, seventeenItem 13 1, seventeenItem 12 1,
   seventeenItem 11 1, seventeenItem 10 1, seventeenItem 9 1, seventeenItem 7 1,
   seventeenItem 6 1, seventeenItem 5 1, seventeenItem 4 1, seventeenItem 3 1,
   seventeenItem 2 1, seventeenItem 1 1]


/-! # Theorems -/

/-! ## Arithmetic of finite doubles -/

namespace Dbl

@[simp] theorem add_fin (a b : ℚ) : (fin a).add (fin b) = fin (a + b) := rfl

@[simp] theorem sub_fin (a b : ℚ) : (fin a).sub (fin b) = fin (a - b) := by
  simp [sub, neg, sub_eq_add_neg]

@[simp] theorem mul_fin (a b : ℚ) : (fin a).mul (fin b) = fin (a * b) := rfl

theorem div_fin (a b : ℚ) (hb : b ≠ 0) : (fin a).div (fin b) = fin (a / b) := by
  simp [div, hb]

@[simp] theorem div_fin_two (a : ℚ) : (fin a).div (fin 2) = fin (a / 2) :=
  div_fin a 2 (by norm_num)

end Dbl

/-! ## The scoring loop: invariants -/

theorem drop_head_getElem {α : Type} (l0 : List α) (i : Nat) (x : α) (rest : List α)
    (h : l0.drop i = x :: rest) : l0[i]? = some x := by
  have h1 := List.getElem?_drop l0 i 0
  simp [h] at h1
  exact h1.symm

theorem drop_succ_of_drop {α : Type} (l0 : List α) (i : Nat) (x : α) (rest : List α)
    (h : l0.drop i = x :: rest) : l0.drop (i + 1) = rest := by
  rw [← List.drop_drop 1 i l0]
  simp [h]

/-- Invariant rule for the scoring loop over the ranking `l0`: a property of
(raw index, state) that is kept by the skip of the query's own entry and by a
scored step holds, at some later index `j`, of the state the loop ends in;
and the loop ends either at the `break` or at the end of the ranking. -/
theorem scoreLoop_invariant (cfg : Config) (query : ImageInfo) (m : Dbl) (n : Int)
    (l0 : List ImageInfo) (P : Nat → LoopState → Prop)
    (hskip : ∀ (i : Nat) (x : ImageInfo) (s : LoopState), P i s → l0[i]? = some x →
      cfg.mExcludeQueryFromDB = true → x.id = query.id →
      P (i + 1) { s with wasQueryExcluded := true })
    (hstep : ∀ (i : Nat) (x : ImageInfo) (s : LoopState), P i s → l0[i]? = some x →
      (s.precisionRecallValues.length : Int) ≠ n →
      ¬ (cfg.mExcludeQueryFromDB = true ∧ x.id = query.id) →
      P (i + 1) (scoreStep query m i x s)) :
    ∀ (l : List ImageInfo) (i : Nat) (s : LoopState), l0.drop i = l → P i s →
      ∃ j, i ≤ j ∧ P j (scoreLoop cfg query m n i l s) ∧
        (((scoreLoop cfg query m n i l s).precisionRecallValues.length : Int) = n ∨
          j = i + l.length) := by
  intro l
  induction l with
  | nil =>
    intro i s _ h
    exact ⟨i, le_refl i, by simpa [scoreLoop] using h, Or.inr (by simp)⟩
  | cons x rest ih =>
    intro i s hl h
    have hx := drop_head_getElem l0 i x rest hl
    have hrest := drop_succ_of_drop l0 i x rest hl
    unfold scoreLoop
    by_cases hb : (s.precisionRecallValues.length : Int) = n
    · rw [if_pos hb]
      exact ⟨i, le_refl i, h, Or.inl hb⟩
    · rw [if_neg hb]
      by_cases hq : cfg.mExcludeQueryFromDB = true ∧ x.id = query.id
      · have hc : (cfg.mExcludeQueryFromDB && decide (x.id = query.id)) = true := by
          simp [hq.1, hq.2]
        rw [if_pos hc]
        obtain ⟨j, hj, hP, hend⟩ := ih (i + 1) _ hrest (hskip i x s h hx hq.1 hq.2)
        refine ⟨j, by omega, hP, ?_⟩
        rcases hend with hend | hend
        · exact Or.inl hend
        · exact Or.inr (by simp only [List.length_cons]; omega)
      · have hc : (cfg.mExcludeQueryFromDB && decide (x.id = query.id)) = false := by
          by_contra hne
          simp only [Bool.not_eq_false, Bool.and_eq_true, decide_eq_true_eq] at hne
          exact hq hne
        rw [hc, if_neg Bool.false_ne_true]
        obtain ⟨j, hj, hP, hend⟩ := ih (i + 1) _ hrest (hstep i x s h hx hb hq)
        refine ⟨j, by omega, hP, ?_⟩
        rcases hend with hend | hend
        · exact Or.inl hend
        · exact Or.inr (by simp only [List.length_cons]; omega)

theorem sameClassCount_append_single (query : ImageInfo) (c : List (Nat × ImageInfo))
    (i : Nat) (x : ImageInfo) :
    sameClassCount query (c ++ [(i, x)]) =
      sameClassCount query c + (if x.classId = query.classId then 1 else 0) := by
  unfold sameClassCount
  by_cases h : x.classId = query.classId <;> simp [List.filter_append, List.filter_cons, h]

theorem sameClassCount_le_length (query : ImageInfo) (c : List (Nat × ImageInfo)) :
    sameClassCount query c ≤ c.length := by
  unfold sameClassCount
  calc _ ≤ (c.map Prod.snd).length := List.length_filter_le _ _
    _ = c.length := by simp

@[simp] theorem scoreStep_consumed (query : ImageInfo) (m : Dbl) (i : Nat) (x : ImageInfo)
    (s : LoopState) : (scoreStep query m i x s).consumed = s.consumed ++ [(i, x)] := rfl

@[simp] theorem scoreStep_wasQueryExcluded (query : ImageInfo) (m : Dbl) (i : Nat)
    (x : ImageInfo) (s : LoopState) :
    (scoreStep query m i x s).wasQueryExcluded = s.wasQueryExcluded := rfl

@[simp] theorem scoreStep_matchCount (query : ImageInfo) (m : Dbl) (i : Nat) (x : ImageInfo)
    (s : LoopState) : (scoreStep query m i x s).matchCount =
      if x.classId = query.classId then s.matchCount.add (Dbl.fin 1) else s.matchCount := rfl

@[simp] theorem scoreStep_length (query : ImageInfo) (m : Dbl) (i : Nat) (x : ImageInfo)
    (s : LoopState) : (scoreStep query m i x s).precisionRecallValues.length =
      s.precisionRecallValues.length + 1 := by
  simp [scoreStep]

theorem bookkeeping_skip (cfg : Config) (query : ImageInfo) (l0 : List ImageInfo) (i : Nat)
    (s : LoopState) (h : Bookkeeping cfg query l0 i s)
    (hex : cfg.mExcludeQueryFromDB = true) :
    Bookkeeping cfg query l0 (i + 1) { s with wasQueryExcluded := true } :=
  ⟨h.count, h.len, by have := h.le_index; simp only; omega,
    fun _ => by have := h.le_index; simp only; omega, fun _ => hex, h.entry, h.notQuery⟩

theorem bookkeeping_step (cfg : Config) (query : ImageInfo) (m : Dbl) (l0 : List ImageInfo)
    (i : Nat) (x : ImageInfo) (s : LoopState) (h : Bookkeeping cfg query l0 i s)
    (hx : l0[i]? = some x) (hq : ¬ (cfg.mExcludeQueryFromDB = true ∧ x.id = query.id)) :
    Bookkeeping cfg query l0 (i + 1) (scoreStep query m i x s) := by
  refine ⟨?_, ?_, ?_, ?_, ?_, ?_, ?_⟩
  · rw [scoreStep_matchCount, scoreStep_consumed, sameClassCount_append_single, h.count]
    by_cases hc : x.classId = query.classId <;> simp [hc]
  · simp [h.len]
  · have := h.le_index; simp; omega
  · intro hw; have := h.lt_index (by simpa using hw); simp; omega
  · intro hw; exact h.excl (by simpa using hw)
  · intro p hp
    simp only [scoreStep_consumed, List.mem_append, List.mem_singleton] at hp
    rcases hp with hp | hp
    · exact h.entry p hp
    · subst hp; exact hx
  · intro hex p hp
    simp only [scoreStep_consumed, List.mem_append, List.mem_singleton] at hp
    rcases hp with hp | hp
    · exact h.notQuery hex p hp
    · subst hp; exact fun hid => hq ⟨hex, hid⟩

/-- The bookkeeping facts are kept by the loop, so they hold of its final
state. -/
theorem scoreLoop_bookkeeping (cfg : Config) (query : ImageInfo) (m : Dbl) (n : Int)
    (l0 : List ImageInfo) (l : List ImageInfo) (i : Nat) (s : LoopState)
    (hl : l0.drop i = l) (h : Bookkeeping cfg query l0 i s) :
    ∃ j, i ≤ j ∧ Bookkeeping cfg query l0 j (scoreLoop cfg query m n i l s) := by
  obtain ⟨j, hj, hP, _⟩ :=
    scoreLoop_invariant cfg query m n l0 (Bookkeeping cfg query l0)
      (fun i x s h _ hex _ => bookkeeping_skip cfg query l0 i s h hex)
      (fun i x s h hx _ hq => bookkeeping_step cfg query m l0 i x s h hx hq) l i s hl h
  exact ⟨j, hj, hP⟩

theorem bookkeeping_init (cfg : Config) (query : ImageInfo) (l0 : List ImageInfo) :
    Bookkeeping cfg query l0 0 {} :=
  ⟨by simp [sameClassCount], rfl, by simp, by simp, by simp, by simp, by simp⟩

/-- The bookkeeping facts hold when the loop of `EvaluateAveragePrecision` has
ended. -/
theorem finalState_bookkeeping (cfg : Config) (query : ImageInfo)
    (sortedResult : List ImageInfo) :
    ∃ j, Bookkeeping cfg query sortedResult j (finalState cfg query sortedResult) := by
  obtain ⟨j, _, hj⟩ := scoreLoop_bookkeeping cfg query
    (adjustedMatches cfg query sortedResult.length) (resultCount cfg sortedResult.length)
    sortedResult sortedResult 0 {} (by simp) (bookkeeping_init cfg query sortedResult)
  exact ⟨j, hj⟩

/-- A scored step on finite values, with a non-zero adjusted match count: all
the new values are finite and given by exact rational arithmetic. -/
theorem scoreStep_fin (query : ImageInfo) (m : ℚ) (i : Nat) (x : ImageInfo) (s : LoopState)
    (c a p r : ℚ) (hm : m ≠ 0) (hc : s.matchCount = Dbl.fin c)
    (ha : s.averagePrecision = Dbl.fin a) (hp : s.oldPrecision = Dbl.fin p)
    (hr : s.oldRecall = Dbl.fin r) (hi : s.wasQueryExcluded = true → 1 ≤ i) :
    scoreStep query (Dbl.fin m) i x s =
      { oldRecall := Dbl.fin (stepCount query x c / m)
        oldPrecision := Dbl.fin (stepCount query x c / stepDivisor s i)
        recall_ := Dbl.fin (stepCount query x c / m)
        precision_ := Dbl.fin (stepCount query x c / stepDivisor s i)
        averagePrecision := Dbl.fin
          (a + (stepCount query x c / m - r) * ((p + stepCount query x c / stepDivisor s i) / 2))
        matchCount := Dbl.fin (stepCount query x c)
        wasQueryExcluded := s.wasQueryExcluded
        precisionRecallValues := s.precisionRecallValues ++
          [(Dbl.fin (stepCount query x c / stepDivisor s i), Dbl.fin (stepCount query x c / m))]
        consumed := s.consumed ++ [(i, x)] } := by
  have hcount : (if x.classId = query.classId then s.matchCount.add (Dbl.fin 1) else s.matchCount)
      = Dbl.fin (stepCount query x c) := by
    unfold stepCount
    by_cases hx : x.classId = query.classId <;> simp [hx, hc]
  have hprec : (if s.wasQueryExcluded = true then (Dbl.fin (stepCount query x c)).div (Dbl.ofInt i)
      else (Dbl.fin (stepCount query x c)).div (Dbl.ofInt (i + 1)))
      = Dbl.fin (stepCount query x c / stepDivisor s i) := by
    unfold stepDivisor
    by_cases hw : s.wasQueryExcluded = true
    · have h1 : ((i : ℤ) : ℚ) ≠ 0 := by
        have := hi hw
        have h2 : (0 : ℚ) < ((i : ℤ) : ℚ) := by exact_mod_cast this
        exact ne_of_gt h2
      simp only [hw, if_true, Dbl.ofInt]
      rw [Dbl.div_fin _ _ h1]
      simp
    · have h1 : (((i : ℤ) + 1 : ℤ) : ℚ) ≠ 0 := by
        have h2 : (0 : ℚ) < (((i : ℤ) + 1 : ℤ) : ℚ) := by exact_mod_cast Nat.succ_pos i
        exact ne_of_gt h2
      simp only [hw, if_false, Dbl.ofInt]
      rw [Dbl.div_fin _ _ h1]
      simp
  unfold scoreStep
  simp only [hcount, hprec, Dbl.div_fin _ _ hm, ha, hp, hr, Dbl.add_fin, Dbl.sub_fin,
    Dbl.mul_fin, Dbl.div_fin_two]

theorem stepCount_sameClassCount (query : ImageInfo) (c : List (Nat × ImageInfo)) (i : Nat)
    (x : ImageInfo) :
    ((sameClassCount query (c ++ [(i, x)]) : ℕ) : ℚ) = stepCount query x (sameClassCount query c) := by
  rw [sameClassCount_append_single]
  unfold stepCount
  by_cases h : x.classId = query.classId <;> simp [h]

theorem stepCount_bounds (query : ImageInfo) (x : ImageInfo) (c : ℚ) :
    c ≤ stepCount query x c ∧ stepCount query x c ≤ c + 1 := by
  unfold stepCount
  by_cases h : x.classId = query.classId <;> simp [h]

/-- With the bookkeeping facts, the divisor of the precision is at least the
number of positions consumed so far, the current one included. -/
theorem stepDivisor_ge (cfg : Config) (query : ImageInfo) (l0 : List ImageInfo) (i : Nat)
    (s : LoopState) (h : Bookkeeping cfg query l0 i s) :
    (s.consumed.length : ℚ) + 1 ≤ stepDivisor s i := by
  unfold stepDivisor
  by_cases hw : s.wasQueryExcluded = true
  · have := h.lt_index hw
    rw [if_pos hw]
    exact_mod_cast this
  · have := h.le_index
    rw [if_neg hw]
    have h2 : (s.consumed.length : ℚ) ≤ (i : ℚ) := by exact_mod_cast this
    linarith

theorem bounded_step (cfg : Config) (query : ImageInfo) (m : ℚ) (hm : 0 < m)
    (l0 : List ImageInfo) (i : Nat) (x : ImageInfo) (s : LoopState)
    (hb : Bookkeeping cfg query l0 i s) (h : Bounded query m s) :
    Bounded query m (scoreStep query (Dbl.fin m) i x s) := by
  obtain ⟨a, p, ha, hp, hr, hp0, hp1, ha0, ha1⟩ := h
  have hi : s.wasQueryExcluded = true → 1 ≤ i := fun hw => by
    have := hb.lt_index hw; omega
  rw [scoreStep_fin query m i x s _ a p _ (ne_of_gt hm) hb.count ha hp hr hi]
  have hd := stepDivisor_ge cfg query l0 i s hb
  have hcl : ((sameClassCount query s.consumed : ℕ) : ℚ) ≤ (s.consumed.length : ℚ) := by
    exact_mod_cast sameClassCount_le_length query s.consumed
  have hc0 : (0 : ℚ) ≤ (sameClassCount query s.consumed : ℚ) := by positivity
  obtain ⟨hs1, hs2⟩ := stepCount_bounds query x (sameClassCount query s.consumed : ℚ)
  set c : ℚ := (sameClassCount query s.consumed : ℚ) with hcdef
  set c1 : ℚ := stepCount query x c with hc1def
  set d : ℚ := stepDivisor s i with hddef
  have hdpos : 0 < d := by linarith
  have hq0 : 0 ≤ c1 / d := div_nonneg (by linarith) (le_of_lt hdpos)
  have hq1 : c1 / d ≤ 1 := by
    rw [div_le_one hdpos]; linarith
  have hinc : 0 ≤ c1 / m - c / m := by
    rw [← sub_div]; exact div_nonneg (by linarith) (le_of_lt hm)
  have hmid0 : 0 ≤ (p + c1 / d) / 2 := by linarith
  have hmid1 : (p + c1 / d) / 2 ≤ 1 := by linarith
  refine ⟨a + (c1 / m - c / m) * ((p + c1 / d) / 2), c1 / d, rfl, rfl, ?_, hq0, hq1, ?_, ?_⟩
  · simp only [stepCount_sameClassCount]
  · have := mul_nonneg hinc hmid0
    linarith
  · simp only [stepCount_sameClassCount]
    have := mul_le_of_le_one_right hinc hmid1
    linarith

/-- For a positive adjusted match count the loop ends with a finite average
precision between 0 and the last recall. -/
theorem finalState_bounded (cfg : Config) (query : ImageInfo) (sortedResult : List ImageInfo)
    (m : ℚ) (hm : adjustedMatches cfg query sortedResult.length = Dbl.fin m) (hpos : 0 < m) :
    Bounded query m (finalState cfg query sortedResult) := by
  unfold finalState
  rw [hm]
  obtain ⟨j, _, hj⟩ := scoreLoop_invariant cfg query (Dbl.fin m)
    (resultCount cfg sortedResult.length) sortedResult
    (fun i s => Bookkeeping cfg query sortedResult i s ∧ Bounded query m s)
    (fun i x s h _ hex _ => ⟨bookkeeping_skip cfg query sortedResult i s h.1 hex, h.2⟩)
    (fun i x s h hx _ hq => ⟨bookkeeping_step cfg query (Dbl.fin m) sortedResult i x s h.1 hx hq,
      bounded_step cfg query m hpos sortedResult i x s h.1 h.2⟩)
    sortedResult 0 {} (by simp)
    ⟨bookkeeping_init cfg query sortedResult,
      ⟨0, 1, rfl, rfl, by simp [sameClassCount], by norm_num, by norm_num, le_refl 0,
        by simp [sameClassCount]⟩⟩
  exact hj.1.2

/-- Outcome of `EvaluateAveragePrecision`: it throws exactly when `nResults`
is negative, and otherwise returns the values of the final loop state. -/
theorem EvaluateAveragePrecision_ok (cfg : Config) (query : ImageInfo)
    (sortedResult : List ImageInfo) (h : 0 ≤ resultCount cfg sortedResult.length) :
    EvaluateAveragePrecision cfg query sortedResult = Except.ok
      { averagePrecision := (finalState cfg query sortedResult).averagePrecision
        precisionRecallValues := (finalState cfg query sortedResult).precisionRecallValues
        warning := Dbl.lt (matchesBeforeTopK cfg query) (Dbl.ofInt cfg.mTopK) } := by
  unfold EvaluateAveragePrecision
  simp [not_lt.mpr h]

theorem EvaluateAveragePrecision_ok_inv (cfg : Config) (query : ImageInfo)
    (sortedResult : List ImageInfo) (r : APResult)
    (h : EvaluateAveragePrecision cfg query sortedResult = Except.ok r) :
    r.averagePrecision = (finalState cfg query sortedResult).averagePrecision ∧
    r.precisionRecallValues = (finalState cfg query sortedResult).precisionRecallValues := by
  unfold EvaluateAveragePrecision at h
  by_cases hn : resultCount cfg sortedResult.length < 0
  · simp [hn] at h
  · simp only [hn, if_false, Except.ok.injEq] at h
    subst h
    exact ⟨rfl, rfl⟩

/-- The value `nResults` is negative exactly for an empty ranking with the exclusion on. -/
theorem resultCount_neg_iff (cfg : Config) (size : Nat) :
    resultCount cfg size < 0 ↔ (size = 0 ∧ cfg.mExcludeQueryFromDB = true) := by
  unfold resultCount
  by_cases hex : cfg.mExcludeQueryFromDB = true <;> by_cases hk : cfg.mTopK > 0 <;>
    simp [hex, hk] <;> omega

theorem zeroUntilMatch_step (cfg : Config) (query : ImageInfo) (m : ℚ) (hm : m ≠ 0)
    (l0 : List ImageInfo) (i : Nat) (x : ImageInfo) (s : LoopState)
    (hb : Bookkeeping cfg query l0 i s) (h : ZeroUntilMatch query m s) :
    ZeroUntilMatch query m (scoreStep query (Dbl.fin m) i x s) := by
  obtain ⟨a, p, ha, hp, hr, hz⟩ := h
  have hi : s.wasQueryExcluded = true → 1 ≤ i := fun hw => by
    have := hb.lt_index hw; omega
  rw [scoreStep_fin query m i x s _ a p _ hm hb.count ha hp hr hi]
  refine ⟨_, _, rfl, rfl, ?_, ?_⟩
  · simp only [stepCount_sameClassCount]
  · intro hzero
    simp only [sameClassCount_append_single] at hzero
    have hx : ¬ x.classId = query.classId := by
      intro hx; simp [hx] at hzero
    have hc0 : sameClassCount query s.consumed = 0 := by omega
    simp [stepCount, hx, hz hc0]

/-- For a non-zero adjusted match count the loop ends with finite values, and
with average precision zero when no consumed entry is of the query's class. -/
theorem finalState_zeroUntilMatch (cfg : Config) (query : ImageInfo)
    (sortedResult : List ImageInfo) (m : ℚ)
    (hm : adjustedMatches cfg query sortedResult.length = Dbl.fin m) (hne : m ≠ 0) :
    ZeroUntilMatch query m (finalState cfg query sortedResult) := by
  unfold finalState
  rw [hm]
  obtain ⟨j, _, hj⟩ := scoreLoop_invariant cfg query (Dbl.fin m)
    (resultCount cfg sortedResult.length) sortedResult
    (fun i s => Bookkeeping cfg query sortedResult i s ∧ ZeroUntilMatch query m s)
    (fun i x s h _ hex _ => ⟨bookkeeping_skip cfg query sortedResult i s h.1 hex, h.2⟩)
    (fun i x s h hx _ hq => ⟨bookkeeping_step cfg query (Dbl.fin m) sortedResult i x s h.1 hx hq,
      zeroUntilMatch_step cfg query m hne sortedResult i x s h.1 h.2⟩)
    sortedResult 0 {} (by simp)
    ⟨bookkeeping_init cfg query sortedResult,
      ⟨0, 1, rfl, rfl, by simp [sameClassCount], fun _ => rfl⟩⟩
  exact hj.1.2

/-! ## The worked scenario, evaluated -/

theorem scenario_finalState :
    finalState scenarioConfig scenarioQuery scenarioRanking =
      { oldRecall := Dbl.fin 1
        oldPrecision := Dbl.fin (1 / 3)
        recall_ := Dbl.fin 1
        precision_ := Dbl.fin (1 / 3)
        averagePrecision := Dbl.fin 1
        matchCount := Dbl.fin 1
        wasQueryExcluded := true
        precisionRecallValues :=
          [(Dbl.fin 1, Dbl.fin 1), (Dbl.fin (1 / 2), Dbl.fin 1), (Dbl.fin (1 / 3), Dbl.fin 1)]
        consumed := [(1, scenarioItem 1 7 false 2 1), (2, scenarioItem 3 8 false 2 2),
          (3, scenarioItem 2 8 false 2 3)] } := by
  simp [finalState, scenarioConfig, scenarioQuery, scenarioRanking, scenarioItem, resultCount,
    scoreLoop, scoreStep, adjustedMatches, matchesBeforeTopK, Dbl.ofInt, Dbl.div]
  norm_num

theorem lone_finalState :
    finalState scenarioConfig loneQuery loneRanking =
      { oldRecall := Dbl.nan
        oldPrecision := Dbl.fin 0
        recall_ := Dbl.nan
        precision_ := Dbl.fin 0
        averagePrecision := Dbl.nan
        matchCount := Dbl.fin 0
        wasQueryExcluded := true
        precisionRecallValues := [(Dbl.fin 0, Dbl.nan)]
        consumed := [(1, scenarioItem 1 8 false 1 1)] } := by
  simp [finalState, scenarioConfig, loneQuery, loneRanking, scenarioItem, resultCount,
    scoreLoop, scoreStep, adjustedMatches, matchesBeforeTopK, Dbl.ofInt, Dbl.div, Dbl.sub,
    Dbl.add, Dbl.neg, Dbl.mul, Dbl.sign, Dbl.infOfSign]

/-! ## Number of consumed positions -/

/-- Length of the recorded precision-recall sequence when the loop ends: the
limit `n`, or all the entries that are not skipped when these are fewer. -/
theorem scoreLoop_length (cfg : Config) (query : ImageInfo) (m : Dbl) (n : Int) :
    ∀ (l : List ImageInfo) (i : Nat) (s : LoopState),
      (s.precisionRecallValues.length : Int) ≤ n →
      ((scoreLoop cfg query m n i l s).precisionRecallValues.length : Int) =
        min n (s.precisionRecallValues.length +
          l.countP (fun x => !(cfg.mExcludeQueryFromDB && decide (x.id = query.id)))) := by
  intro l
  induction l with
  | nil => intro i s h; simp [scoreLoop, h]
  | cons x rest ih =>
    intro i s h
    unfold scoreLoop
    by_cases hb : (s.precisionRecallValues.length : Int) = n
    · rw [if_pos hb, min_eq_left]
      · exact hb
      · omega
    · rw [if_neg hb]
      by_cases hc : (cfg.mExcludeQueryFromDB && decide (x.id = query.id)) = true
      · rw [if_pos hc, List.countP_cons_of_neg _ _ (by simp [hc])]
        exact ih (i + 1) { s with wasQueryExcluded := true } h
      · rw [if_neg hc, List.countP_cons_of_pos _ _ (by
          simp only [Bool.not_eq_true] at hc; simp [hc])]
        have h1 := ih (i + 1) (scoreStep query m i x s) (by rw [scoreStep_length]; omega)
        rw [h1, scoreStep_length]
        push_cast
        ring_nf

theorem countP_not_skipped (cfg : Config) (query : ImageInfo) (l : List ImageInfo) :
    l.countP (fun x => !(cfg.mExcludeQueryFromDB && decide (x.id = query.id))) =
      if cfg.mExcludeQueryFromDB then l.length - l.countP (fun x => decide (x.id = query.id))
      else l.length := by
  by_cases hex : cfg.mExcludeQueryFromDB = true
  · have h1 := List.length_eq_countP_add_countP (fun x : ImageInfo => decide (x.id = query.id)) l
    have h2 : l.countP (fun x => !(cfg.mExcludeQueryFromDB && decide (x.id = query.id))) =
        l.countP (fun a => decide ¬ (decide (a.id = query.id) = true)) := by
      apply List.countP_congr
      intro x _
      simp [hex]
    rw [h2, if_pos hex]
    omega
  · simp [hex]

theorem scenario_result :
    EvaluateAveragePrecision scenarioConfig scenarioQuery scenarioRanking =
      Except.ok scenarioResult := by
  rw [EvaluateAveragePrecision_ok _ _ _ (by decide), scenario_finalState]
  simp [scenarioResult, scenarioConfig, scenarioQuery, scenarioItem, matchesBeforeTopK,
    Dbl.ofInt, Dbl.lt]

theorem scenario_adjustedMatches :
    adjustedMatches scenarioConfig scenarioQuery scenarioRanking.length = Dbl.fin 1 := by
  simp [adjustedMatches, matchesBeforeTopK, scenarioConfig, scenarioQuery, scenarioItem,
    Dbl.ofInt]
  norm_num

theorem scenario_sameClassConsumed :
    sameClassConsumed scenarioConfig scenarioQuery scenarioRanking = 1 := by
  rw [sameClassConsumed, scenario_finalState]
  simp [sameClassCount, scenarioQuery, scenarioItem]

theorem noMatch_finalState :
    finalState scenarioConfig scenarioQuery noMatchRanking =
      { oldRecall := Dbl.fin 0
        oldPrecision := Dbl.fin 0
        recall_ := Dbl.fin 0
        precision_ := Dbl.fin 0
        averagePrecision := Dbl.fin 0
        matchCount := Dbl.fin 0
        wasQueryExcluded := true
        precisionRecallValues := [(Dbl.fin 0, Dbl.fin 0), (Dbl.fin 0, Dbl.fin 0)]
        consumed := [(1, scenarioItem 3 8 false 2 2), (2, scenarioItem 2 8 false 2 3)] } := by
  simp [finalState, scenarioConfig, scenarioQuery, noMatchRanking, scenarioItem, resultCount,
    scoreLoop, scoreStep, adjustedMatches, matchesBeforeTopK, Dbl.ofInt, Dbl.div]
  norm_num

/-! ## Perfect rankings -/

theorem perfect_skip (cfg : Config) (query : ImageInfo) (M pos : Nat) (l0 : List ImageInfo)
    (huniq : ∀ (i : Nat) (x : ImageInfo), l0[i]? = some x → x.id = query.id → i = pos)
    (i : Nat) (x : ImageInfo) (s : LoopState) (h : PerfectInv cfg query M pos i s)
    (hx : l0[i]? = some x) (hid : x.id = query.id) :
    PerfectInv cfg query M pos (i + 1) { s with wasQueryExcluded := true } := by
  obtain ⟨hlen, hwp, _, hcnt, hrest⟩ := h
  have hipos : i = pos := huniq i x hx hid
  have hnot : ¬ s.wasQueryExcluded = true := fun hw => by have := hwp hw; omega
  refine ⟨?_, ?_, ?_, hcnt, hrest⟩
  · rw [if_neg hnot] at hlen
    simp only [if_true]
    omega
  · intro _; omega
  · intro _ _; rfl

theorem perfect_step (cfg : Config) (query : ImageInfo) (M pos c : Nat) (l0 : List ImageInfo)
    (hM : 1 ≤ M) (hc : c = if cfg.mExcludeQueryFromDB then M + 1 else M)
    (hclass : ∀ (i : Nat) (x : ImageInfo), l0[i]? = some x →
      (x.classId = query.classId ↔ i < c))
    (own : ImageInfo) (hown : l0[pos]? = some own) (hownid : own.id = query.id)
    (hpos : pos < c)
    (i : Nat) (x : ImageInfo) (s : LoopState) (hb : Bookkeeping cfg query l0 i s)
    (h : PerfectInv cfg query M pos i s) (hx : l0[i]? = some x)
    (hq : ¬ (cfg.mExcludeQueryFromDB = true ∧ x.id = query.id)) :
    PerfectInv cfg query M pos (i + 1) (scoreStep query (Dbl.fin M) i x s) := by
  obtain ⟨hlen, hwp, hpw, hcnt, p, ha, hr, hp, hp1⟩ := h
  have hi : s.wasQueryExcluded = true → 1 ≤ i := fun hw => by have := hwp hw; omega
  have hMq : (M : ℚ) ≠ 0 := by
    have : M ≠ 0 := by omega
    exact_mod_cast this
  have hmc : s.matchCount = Dbl.fin ((min s.consumed.length M : ℕ) : ℚ) := by
    rw [hb.count, hcnt]
  have hne : cfg.mExcludeQueryFromDB = true → i ≠ pos := by
    intro hex hip
    rw [hip, hown] at hx
    have : own = x := Option.some.inj hx
    exact hq ⟨hex, by rw [← this]; exact hownid⟩
  have hmatch := hclass i x hx
  -- the consumed count `k`, related to the raw index
  have hk1 : s.wasQueryExcluded = true → s.consumed.length + 1 = i ∧ c = M + 1 := by
    intro hw
    rw [if_pos hw] at hlen
    have := hi hw
    have hex := hb.excl hw
    rw [if_pos hex] at hc
    omega
  have hk2 : ¬ s.wasQueryExcluded = true → s.consumed.length = i := by
    intro hw
    rw [if_neg hw] at hlen
    exact hlen
  have hk3 : ¬ s.wasQueryExcluded = true → cfg.mExcludeQueryFromDB = true → i < pos := by
    intro hw hex
    have h1 := hne hex
    have h2 : ¬ pos < i := fun hlt => hw (hpw hex hlt)
    omega
  have hk4 : cfg.mExcludeQueryFromDB = true → c = M + 1 := fun hex => by
    rw [if_pos hex] at hc; exact hc
  have hk5 : ¬ cfg.mExcludeQueryFromDB = true → c = M := fun hex => by
    rw [if_neg hex] at hc; exact hc
  have hdiv : stepDivisor s i = (s.consumed.length : ℚ) + 1 := by
    unfold stepDivisor
    by_cases hw : s.wasQueryExcluded = true
    · rw [if_pos hw]
      have := (hk1 hw).1
      exact_mod_cast this.symm
    · rw [if_neg hw]
      have := hk2 hw
      exact_mod_cast congrArg (fun n : ℕ => (n : ℚ) + 1) this.symm
  have hcase : (i < c ∧ s.consumed.length < M) ∨ (¬ i < c ∧ M ≤ s.consumed.length) := by
    by_cases hw : s.wasQueryExcluded = true
    · have := hk1 hw
      omega
    · have h2 := hk2 hw
      by_cases hex : cfg.mExcludeQueryFromDB = true
      · have := hk3 hw hex
        have := hk4 hex
        omega
      · have := hk5 hex
        omega
  rw [scoreStep_fin query M i x s _ _ p _ hMq hmc ha hp hr hi]
  refine ⟨?_, ?_, ?_, ?_, ?_⟩
  · simp only [List.length_append, List.length_singleton]
    by_cases hw : s.wasQueryExcluded = true
    · rw [if_pos hw]; have := hk1 hw; omega
    · rw [if_neg hw]; have := hk2 hw; omega
  · intro hw
    have := hwp hw
    omega
  · intro hex hlt
    have h1 := hne hex
    exact hpw hex (by omega)
  · simp only [sameClassCount_append_single, List.length_append, List.length_singleton, hcnt]
    rcases hcase with ⟨h1, h2⟩ | ⟨h1, h2⟩
    · rw [if_pos (hmatch.mpr h1)]; omega
    · rw [if_neg (fun hcl => h1 (hmatch.mp hcl))]; omega
  · simp only [List.length_append, List.length_singleton, hdiv]
    rcases hcase with ⟨h1, h2⟩ | ⟨h1, h2⟩
    · have hs : stepCount query x ((min s.consumed.length M : ℕ) : ℚ)
          = (s.consumed.length : ℚ) + 1 := by
        unfold stepCount
        rw [if_pos (hmatch.mpr h1), min_eq_left (le_of_lt h2)]
      have hmin1 : min (s.consumed.length + 1) M = s.consumed.length + 1 := by omega
      have hmin0 : min s.consumed.length M = s.consumed.length := by omega
      have hp1v : p = 1 := hp1 (le_of_lt h2)
      have hkq : (s.consumed.length : ℚ) + 1 ≠ 0 := by positivity
      refine ⟨1, ?_, ?_, ?_, fun _ => rfl⟩
      · rw [hs, hmin1, hmin0, hp1v, div_self hkq]
        congr 1
        push_cast
        field_simp
      · rw [hs, hmin1]
        push_cast
        rfl
      · rw [hs, div_self hkq]
    · have hs : stepCount query x ((min s.consumed.length M : ℕ) : ℚ) = (M : ℚ) := by
        unfold stepCount
        rw [if_neg (fun hcl => h1 (hmatch.mp hcl)), min_eq_right h2]
      have hmin1 : min (s.consumed.length + 1) M = M := by omega
      have hmin0 : min s.consumed.length M = M := by omega
      refine ⟨_, ?_, ?_, rfl, fun hle => by omega⟩
      · rw [hs, hmin1, hmin0]
        congr 1
        ring
      · rw [hs, hmin1]

/-- A perfect ranking scores 1: stated with the number `M ≥ 1` of entries to
retrieve (the adjusted match count) and the number `c` of entries of the
query's class, which stand first in the ranking. -/
theorem finalState_perfect (cfg : Config) (query : ImageInfo) (sortedResult : List ImageInfo)
    (M pos c : Nat) (own : ImageInfo)
    (hm : adjustedMatches cfg query sortedResult.length = Dbl.fin (M : ℚ))
    (hn : resultCount cfg sortedResult.length =
      if cfg.mExcludeQueryFromDB then (sortedResult.length : Int) - 1 else sortedResult.length)
    (hM : 1 ≤ M) (hc : c = if cfg.mExcludeQueryFromDB then M + 1 else M)
    (hlen : c ≤ sortedResult.length)
    (hclass : ∀ (i : Nat) (x : ImageInfo), sortedResult[i]? = some x →
      (x.classId = query.classId ↔ i < c))
    (hown : sortedResult[pos]? = some own) (hownid : own.id = query.id) (hpos : pos < c)
    (huniq : ∀ (i : Nat) (x : ImageInfo), sortedResult[i]? = some x → x.id = query.id →
      i = pos) :
    (finalState cfg query sortedResult).averagePrecision = Dbl.fin 1 := by
  unfold finalState
  rw [hm]
  obtain ⟨j, _, ⟨hb, hP⟩, hend⟩ := scoreLoop_invariant cfg query (Dbl.fin (M : ℚ))
    (resultCount cfg sortedResult.length) sortedResult
    (fun i s => Bookkeeping cfg query sortedResult i s ∧ PerfectInv cfg query M pos i s)
    (fun i x s h hx hex hid => ⟨bookkeeping_skip cfg query sortedResult i s h.1 hex,
      perfect_skip cfg query M pos sortedResult huniq i x s h.2 hx hid⟩)
    (fun i x s h hx _ hq =>
      ⟨bookkeeping_step cfg query (Dbl.fin (M : ℚ)) sortedResult i x s h.1 hx hq,
        perfect_step cfg query M pos c sortedResult hM hc hclass own hown hownid hpos i x s
          h.1 h.2 hx hq⟩)
    sortedResult 0 {} (by simp)
    ⟨bookkeeping_init cfg query sortedResult,
      ⟨by simp, by simp, fun _ h => absurd h (Nat.not_lt_zero pos), by simp [sameClassCount],
        1, by simp, by simp, rfl, fun _ => rfl⟩⟩
  obtain ⟨hlenj, hwp, hpw, _, p, ha, _, _, _⟩ := hP
  set sf := scoreLoop cfg query (Dbl.fin (M : ℚ)) (resultCount cfg sortedResult.length) 0
    sortedResult {} with hsf
  have hge : M ≤ sf.consumed.length := by
    rcases hend with hend | hend
    · rw [← hb.len, hn] at hend
      by_cases hex : cfg.mExcludeQueryFromDB = true
      · rw [if_pos hex] at hend hc; omega
      · rw [if_neg hex] at hend hc; omega
    · simp only [Nat.zero_add] at hend
      by_cases hw : sf.wasQueryExcluded = true
      · rw [if_pos hw] at hlenj
        rw [if_pos (hb.excl hw)] at hc
        omega
      · rw [if_neg hw] at hlenj
        by_cases hex : cfg.mExcludeQueryFromDB = true
        · exact absurd (hpw hex (by omega)) hw
        · rw [if_neg hex] at hc; omega
  rw [ha, min_eq_right hge]
  have hMq : (M : ℚ) ≠ 0 := by
    have : M ≠ 0 := by omega
    exact_mod_cast this
  rw [div_self hMq]

/-! ## The query loop of `Evaluate` -/

theorem dbl_add_comm (a b : Dbl) : a.add b = b.add a := by
  cases a <;> cases b <;> simp [Dbl.add, add_comm]

theorem dbl_add_assoc (a b c : Dbl) : (a.add b).add c = a.add (b.add c) := by
  cases a <;> cases b <;> cases c <;> simp [Dbl.add, add_assoc]

theorem dbl_add_right_comm (z x y : Dbl) : (z.add x).add y = (z.add y).add x := by
  rw [dbl_add_assoc, dbl_add_comm x y, ← dbl_add_assoc]

/-- The accumulated sum does not depend on the order of the summands. -/
theorem foldl_add_perm (l1 l2 : List Dbl) (h : l1.Perm l2) (init : Dbl) :
    l1.foldl Dbl.add init = l2.foldl Dbl.add init :=
  h.foldl_eq' (fun x _ y _ z => dbl_add_right_comm z x y) init

theorem computeDistances_erase {Mat : Type}
    (ComputeFeatureDistance : Mat → Mat → Except EvalError Dbl) (mFeatures : List Mat)
    (queryFeature : Mat) :
    ∀ (l : List ImageInfo) (i : Nat),
      computeDistances ComputeFeatureDistance mFeatures queryFeature i (eraseDistance l) =
        computeDistances ComputeFeatureDistance mFeatures queryFeature i l := by
  intro l
  induction l with
  | nil => intro i; rfl
  | cons x rest ih =>
    intro i
    have ih1 := ih (i + 1)
    unfold eraseDistance at ih1 ⊢
    simp only [List.map_cons, computeDistances, ih1]

theorem computeDistances_ok_erase {Mat : Type}
    (ComputeFeatureDistance : Mat → Mat → Except EvalError Dbl) (mFeatures : List Mat)
    (queryFeature : Mat) :
    ∀ (l : List ImageInfo) (i : Nat) (l1 : List ImageInfo),
      computeDistances ComputeFeatureDistance mFeatures queryFeature i l = Except.ok l1 →
        eraseDistance l1 = eraseDistance l := by
  intro l
  induction l with
  | nil =>
    intro i l1 h
    simp only [computeDistances, Except.ok.injEq] at h
    rw [← h]
  | cons x rest ih =>
    intro i l1 h
    unfold computeDistances at h
    cases hrow : featureRow mFeatures (i : Int) with
    | error e => rw [hrow] at h; exact Except.noConfusion h
    | ok v =>
      rw [hrow] at h
      simp only at h
      cases hd : ComputeFeatureDistance queryFeature v with
      | error e => rw [hd] at h; exact Except.noConfusion h
      | ok d =>
        rw [hd] at h
        simp only at h
        cases hr : computeDistances ComputeFeatureDistance mFeatures queryFeature (i + 1) rest with
        | error e => rw [hr] at h; exact Except.noConfusion h
        | ok rest1 =>
          rw [hr] at h
          simp only [Except.ok.injEq] at h
          rw [← h]
          have := ih (i + 1) rest1 hr
          unfold eraseDistance at this ⊢
          simp only [List.map_cons, this]

/-- The distance pass reads no distance: catalogs that differ in the distance
fields only give the same outcome. -/
theorem distancePass_congr {Mat : Type}
    (ComputeFeatureDistance : Mat → Mat → Except EvalError Dbl) (mFeatures : List Mat)
    (l l1 : List ImageInfo) (query : ImageInfo) (h : eraseDistance l = eraseDistance l1) :
    distancePass ComputeFeatureDistance mFeatures l query =
      distancePass ComputeFeatureDistance mFeatures l1 query := by
  unfold distancePass
  cases featureRow mFeatures query.id with
  | error e => rfl
  | ok v =>
    simp only
    rw [← computeDistances_erase ComputeFeatureDistance mFeatures v l 0, h,
      computeDistances_erase]

theorem distancePass_ok_erase {Mat : Type}
    (ComputeFeatureDistance : Mat → Mat → Except EvalError Dbl) (mFeatures : List Mat)
    (l l1 : List ImageInfo) (query : ImageInfo)
    (h : distancePass ComputeFeatureDistance mFeatures l query = Except.ok l1) :
    eraseDistance l1 = eraseDistance l := by
  unfold distancePass at h
  cases hrow : featureRow mFeatures query.id with
  | error e => rw [hrow] at h; exact Except.noConfusion h
  | ok v =>
    rw [hrow] at h
    exact computeDistances_ok_erase ComputeFeatureDistance mFeatures v l 0 l1 h

/-- One turn of the query loop, from any catalog that differs from `infos0` in
the distance fields only: the average precision added is the one computed from
`infos0`. -/
theorem evaluateQuery_ok {Mat : Type}
    (ComputeFeatureDistance : Mat → Mat → Except EvalError Dbl)
    (sort : List ImageInfo → List ImageInfo) (cfg : Config) (mFeatures : List Mat)
    (infos0 : List ImageInfo) (query : ImageInfo) (a : Dbl)
    (ha : queryAveragePrecision ComputeFeatureDistance sort cfg mFeatures infos0 query =
      Except.ok a)
    (acc : Dbl) (infos : List ImageInfo) (he : eraseDistance infos = eraseDistance infos0) :
    ∃ infos1, evaluateQuery ComputeFeatureDistance sort cfg mFeatures query (acc, infos) =
        Except.ok (acc.add a, infos1) ∧ eraseDistance infos1 = eraseDistance infos0 := by
  unfold queryAveragePrecision at ha
  unfold evaluateQuery
  simp only
  rw [distancePass_congr ComputeFeatureDistance mFeatures infos infos0 query he]
  cases hp : distancePass ComputeFeatureDistance mFeatures infos0 query with
  | error e => rw [hp] at ha; exact Except.noConfusion ha
  | ok l1 =>
    rw [hp] at ha
    simp only at ha ⊢
    rw [ha]
    exact ⟨l1, rfl, distancePass_ok_erase ComputeFeatureDistance mFeatures infos0 l1 query hp⟩

/-- The query loop, when every query's average precision is computed without a
fatal error: the sum grows by the average precisions `f q`, in order. -/
theorem evaluateLoop_ok {Mat : Type}
    (ComputeFeatureDistance : Mat → Mat → Except EvalError Dbl)
    (sort : List ImageInfo → List ImageInfo) (cfg : Config) (mFeatures : List Mat)
    (infos0 : List ImageInfo) (f : ImageInfo → Dbl) :
    ∀ (qs : List ImageInfo),
      (∀ q ∈ qs, queryAveragePrecision ComputeFeatureDistance sort cfg mFeatures infos0 q =
        Except.ok (f q)) →
      ∀ (acc : Dbl) (infos : List ImageInfo), eraseDistance infos = eraseDistance infos0 →
        ∃ infos1, evaluateLoop ComputeFeatureDistance sort cfg mFeatures qs (acc, infos) =
          Except.ok ((qs.map f).foldl Dbl.add acc, infos1) ∧
          eraseDistance infos1 = eraseDistance infos0 := by
  intro qs
  induction qs with
  | nil => intro _ acc infos he; exact ⟨infos, rfl, he⟩
  | cons q rest ih =>
    intro hf acc infos he
    obtain ⟨infos1, h1, he1⟩ := evaluateQuery_ok ComputeFeatureDistance sort cfg mFeatures
      infos0 q (f q) (hf q (List.mem_cons_self q rest)) acc infos he
    obtain ⟨infos2, h2, he2⟩ := ih (fun q1 hq1 => hf q1 (List.mem_cons_of_mem q hq1))
      (acc.add (f q)) infos1 he1
    refine ⟨infos2, ?_, he2⟩
    unfold evaluateLoop
    rw [h1]
    simpa using h2

/-- Method `Evaluate`, when every query's average precision is computed
without a fatal error: the sum of the average precisions `f q` divided by the
number of queries. -/
theorem Evaluate_ok {Mat : Type} (ComputeFeatureDistance : Mat → Mat → Except EvalError Dbl)
    (sort : List ImageInfo → List ImageInfo) (ev : Evaluator Mat) (f : ImageInfo → Dbl)
    (hf : ∀ q ∈ ev.mQueryInfos, queryAveragePrecision ComputeFeatureDistance sort ev.toConfig
      ev.mFeatures ev.mImageInfos q = Except.ok (f q)) :
    ∃ infos1, Evaluate ComputeFeatureDistance sort ev =
      Except.ok ((Dbl.sum (ev.mQueryInfos.map f)).div (Dbl.ofInt ev.mQueryInfos.length),
        { ev with mImageInfos := infos1 }) := by
  obtain ⟨infos1, h1, _⟩ := evaluateLoop_ok ComputeFeatureDistance sort ev.toConfig ev.mFeatures
    ev.mImageInfos f ev.mQueryInfos hf (Dbl.fin 0) ev.mImageInfos rfl
  refine ⟨infos1, ?_⟩
  unfold Evaluate
  rw [h1]
  rfl

/-! ## The insertion sort meets the contract -/

theorem leTotal_total (a b : Dbl) : Dbl.leTotal a b = true ∨ Dbl.leTotal b a = true := by
  cases a <;> cases b <;> simp [Dbl.leTotal]
  exact le_total _ _

theorem leTotal_trans (a b c : Dbl) (h1 : Dbl.leTotal a b = true)
    (h2 : Dbl.leTotal b c = true) : Dbl.leTotal a c = true := by
  cases a <;> cases b <;> cases c <;> simp [Dbl.leTotal] at h1 h2 ⊢
  exact le_trans h1 h2

theorem leTotal_not_lt (a b : Dbl) (ha : a ≠ Dbl.nan) (hb : b ≠ Dbl.nan)
    (h : Dbl.leTotal a b = true) : Dbl.lt b a = false := by
  cases a <;> cases b <;> simp [Dbl.leTotal, Dbl.lt] at h ha hb ⊢
  exact h

theorem sorted_insertionSort_leTotal (l : List ImageInfo) :
    (l.insertionSort (fun a b => Dbl.leTotal a.distance b.distance = true)).Pairwise
      (fun a b => Dbl.leTotal a.distance b.distance = true) :=
  @List.sorted_insertionSort ImageInfo
    (fun a b => Dbl.leTotal a.distance b.distance = true) _
    ⟨fun a b => leTotal_total a.distance b.distance⟩
    ⟨fun a b c => leTotal_trans a.distance b.distance c.distance⟩ l

theorem pairwise_not_lt_of_leTotal (l : List ImageInfo)
    (hnan : ∀ x ∈ l, x.distance ≠ Dbl.nan)
    (h : l.Pairwise (fun a b => Dbl.leTotal a.distance b.distance = true)) :
    l.Pairwise (fun a b => ImageInfo.lt b a = false) :=
  h.imp_of_mem (fun ha hb hab => leTotal_not_lt _ _ (hnan _ ha) (hnan _ hb) hab)

theorem insertionSortByDistance_contract : StdSortContract insertionSortByDistance := by
  intro l hnan
  have hperm : (insertionSortByDistance l).Perm l := List.perm_insertionSort _ l
  exact ⟨hperm, pairwise_not_lt_of_leTotal _ (fun x hx => hnan x (hperm.mem_iff.mp hx))
    (sorted_insertionSort_leTotal l)⟩

/-- After the distance pass from index `i`, the distance of every item is the
configured distance between the query's feature row and the item's own row. -/
theorem computeDistances_distance {Mat : Type}
    (ComputeFeatureDistance : Mat → Mat → Except EvalError Dbl) (mFeatures : List Mat)
    (queryFeature : Mat) :
    ∀ (l : List ImageInfo) (i : Nat) (l1 : List ImageInfo),
      computeDistances ComputeFeatureDistance mFeatures queryFeature i l = Except.ok l1 →
      ∀ (j : Nat) (x : ImageInfo), l1[j]? = some x →
        ∃ v, featureRow mFeatures ((i + j : Nat) : Int) = Except.ok v ∧
          ComputeFeatureDistance queryFeature v = Except.ok x.distance := by
  intro l
  induction l with
  | nil =>
    intro i l1 h j x hx
    simp only [computeDistances, Except.ok.injEq] at h
    rw [← h] at hx
    simp at hx
  | cons y rest ih =>
    intro i l1 h j x hx
    unfold computeDistances at h
    cases hrow : featureRow mFeatures (i : Int) with
    | error e => rw [hrow] at h; exact Except.noConfusion h
    | ok v =>
      rw [hrow] at h
      simp only at h
      cases hd : ComputeFeatureDistance queryFeature v with
      | error e => rw [hd] at h; exact Except.noConfusion h
      | ok d =>
        rw [hd] at h
        simp only at h
        cases hr : computeDistances ComputeFeatureDistance mFeatures queryFeature (i + 1) rest with
        | error e => rw [hr] at h; exact Except.noConfusion h
        | ok rest1 =>
          rw [hr] at h
          simp only [Except.ok.injEq] at h
          rw [← h] at hx
          cases j with
          | zero =>
            simp only [List.getElem?_cons_zero, Option.some.injEq] at hx
            rw [← hx]
            exact ⟨v, by simpa using hrow, hd⟩
          | succ j =>
            simp only [List.getElem?_cons_succ] at hx
            obtain ⟨v1, hv1, hd1⟩ := ih (i + 1) rest1 hr j x hx
            refine ⟨v1, ?_, hd1⟩
            rw [← hv1]
            congr 1
            push_cast
            ring

/-! ## The small evaluator, evaluated -/

theorem tie_distancePass0 :
    distancePass absDistance tieEvaluator.mFeatures tieEvaluator.mImageInfos tieQuery0 =
      Except.ok tieDistances0 := by
  simp [distancePass, featureRow, tieEvaluator, tieQuery0, computeDistances, absDistance,
    tieDistances0]

theorem tie_averagePrecision0 :
    queryAveragePrecision absDistance insertionSortByDistance tieEvaluator.toConfig
      tieEvaluator.mFeatures tieEvaluator.mImageInfos tieQuery0 = Except.ok (Dbl.fin 1) := by
  unfold queryAveragePrecision
  rw [tie_distancePass0]
  simp [scoreQuery, tieDistances0, insertionSortByDistance, Dbl.leTotal, tieEvaluator,
    EvaluateAveragePrecision, resultCount, finalState, scoreLoop, scoreStep, adjustedMatches,
    matchesBeforeTopK, tieQuery0, Dbl.ofInt, Dbl.div]
  norm_num

theorem tie_averagePrecision1 :
    queryAveragePrecision absDistance insertionSortByDistance tieEvaluator.toConfig
      tieEvaluator.mFeatures tieEvaluator.mImageInfos tieQuery1 =
      Except.ok (Dbl.fin (1 / 4)) := by
  simp [queryAveragePrecision, distancePass, featureRow, tieEvaluator, tieQuery1,
    computeDistances, absDistance, scoreQuery, insertionSortByDistance, Dbl.leTotal,
    EvaluateAveragePrecision, resultCount, finalState, scoreLoop, scoreStep, adjustedMatches,
    matchesBeforeTopK, Dbl.ofInt, Dbl.div]
  norm_num
  simp

/-! ## A zero adjusted match count -/

theorem infOfSign_not_finite (t : Int) : (Dbl.infOfSign t).isFinite = false := by
  unfold Dbl.infOfSign
  split_ifs <;> rfl

theorem div_zero_not_finite (a : Dbl) : (a.div (Dbl.fin 0)).isFinite = false := by
  cases a with
  | fin q =>
    simp only [Dbl.div, if_true]
    split_ifs <;> rfl
  | pinf => simp [Dbl.div, Dbl.isFinite]
  | ninf => simp [Dbl.div, Dbl.isFinite]
  | nan => simp [Dbl.div, Dbl.isFinite]

theorem add_not_finite (a b : Dbl) (h : b.isFinite = false) : (a.add b).isFinite = false := by
  cases a <;> cases b <;> simp [Dbl.add, Dbl.isFinite] at h ⊢

theorem sub_not_finite (a b : Dbl) (h : a.isFinite = false) : (a.sub b).isFinite = false := by
  cases a <;> cases b <;> simp [Dbl.sub, Dbl.neg, Dbl.add, Dbl.isFinite] at h ⊢

theorem mul_not_finite (a b : Dbl) (h : a.isFinite = false) : (a.mul b).isFinite = false := by
  cases a with
  | fin q => simp [Dbl.isFinite] at h
  | pinf =>
    cases b <;> simp only [Dbl.mul, Dbl.sign] <;> first | exact infOfSign_not_finite _ | rfl
  | ninf =>
    cases b <;> simp only [Dbl.mul, Dbl.sign] <;> first | exact infOfSign_not_finite _ | rfl
  | nan => cases b <;> rfl

/-- With a zero adjusted match count every recorded recall, and from the first
sample on the accumulated average precision, is NaN or infinite. -/
theorem scoreLoop_zero_matches (cfg : Config) (query : ImageInfo) (n : Int)
    (l0 : List ImageInfo) :
    (∀ pr ∈ (scoreLoop cfg query (Dbl.fin 0) n 0 l0 {}).precisionRecallValues,
      pr.2.isFinite = false) ∧
    ((scoreLoop cfg query (Dbl.fin 0) n 0 l0 {}).precisionRecallValues ≠ [] →
      (scoreLoop cfg query (Dbl.fin 0) n 0 l0 {}).averagePrecision.isFinite = false) := by
  obtain ⟨j, _, hP, _⟩ := scoreLoop_invariant cfg query (Dbl.fin 0) n l0
    (fun _ s => (∀ pr ∈ s.precisionRecallValues, pr.2.isFinite = false) ∧
      (s.precisionRecallValues ≠ [] → s.averagePrecision.isFinite = false))
    (fun i x s h _ _ _ => h)
    (fun i x s h _ _ _ => by
      have hrec : ∀ c : Dbl, (c.div (Dbl.fin 0)).isFinite = false := div_zero_not_finite
      constructor
      · intro pr hpr
        simp only [scoreStep, List.mem_append, List.mem_singleton] at hpr
        rcases hpr with hpr | hpr
        · exact h.1 pr hpr
        · rw [hpr]; exact hrec _
      · intro _
        simp only [scoreStep]
        exact add_not_finite _ _ (mul_not_finite _ _ (sub_not_finite _ _ (hrec _))))
    l0 0 {} (by simp) ⟨by simp, by simp⟩
  exact hP

/-! ## The distance functions -/

theorem hamming_mask_sum :
    ∀ (a b : List ℚ), a.length = b.length →
      (List.zipWith (fun u v : Nat => if u ≠ v then 255 else 0) (cvNeScalar a 0)
        (cvNeScalar b 0)).sum = 255 * differingSupport a b := by
  intro a
  induction a with
  | nil => intro b _; simp [cvNeScalar, differingSupport]
  | cons x a ih =>
    intro b hb
    cases b with
    | nil => simp at hb
    | cons y b =>
      have hlen : a.length = b.length := by simpa using hb
      have h := ih b hlen
      unfold cvNeScalar differingSupport at h ⊢
      simp only [List.map_cons, List.zipWith_cons_cons, List.sum_cons, List.zip_cons_cons,
        List.countP_cons, h]
      by_cases hx : x = 0 <;> by_cases hy : y = 0 <;> simp [hx, hy] <;> ring

theorem differingSupport_le (a b : List ℚ) : differingSupport a b ≤ a.length := by
  unfold differingSupport
  calc _ ≤ (List.zip a b).length := List.countP_le_length _
    _ ≤ a.length := by simp [List.length_zip]

/-- Function `hamming` on vectors of the same length: the plain count. -/
theorem hamming_eq_count (a b : List ℚ) (h : a.length = b.length) :
    hamming a b = Except.ok (Dbl.fin (differingSupport a b)) := by
  unfold hamming cvNe
  have hl : (cvNeScalar a 0).length = (cvNeScalar b 0).length := by
    simp [cvNeScalar, h]
  simp only [hl, if_true, hamming_mask_sum a b h]
  rw [Dbl.div_fin _ _ (by norm_num)]
  congr 2
  push_cast
  field_simp

/-- The scan for the maximum ends at the first index of the greatest element. -/
theorem maxLocFrom_spec (l0 : List ℚ) :
    ∀ (rest : List ℚ) (maxVal : ℚ) (maxIdx i : Nat), l0.drop i = rest → maxIdx < i →
      l0[maxIdx]? = some maxVal →
      (∀ (j : Nat) (v : ℚ), j < i → l0[j]? = some v → v ≤ maxVal) →
      (∀ (j : Nat) (v : ℚ), j < maxIdx → l0[j]? = some v → v < maxVal) →
      ∃ m, l0[maxLocFrom maxVal maxIdx i rest]? = some m ∧
        (∀ (j : Nat) (v : ℚ), l0[j]? = some v → v ≤ m) ∧
        (∀ (j : Nat) (v : ℚ), j < maxLocFrom maxVal maxIdx i rest → l0[j]? = some v → v < m) := by
  intro rest
  induction rest with
  | nil =>
    intro maxVal maxIdx i hd _ hval hle hlt
    refine ⟨maxVal, by simpa [maxLocFrom] using hval, ?_, by simpa [maxLocFrom] using hlt⟩
    intro j v hj
    have hlen : l0.length ≤ i := by
      have := congrArg List.length hd
      simp at this
      omega
    have hjl : j < l0.length := by
      by_contra hge
      rw [List.getElem?_eq_none (by omega)] at hj
      exact Option.noConfusion hj
    exact hle j v (by omega) hj
  | cons x rest ih =>
    intro maxVal maxIdx i hd hidx hval hle hlt
    have hx := drop_head_getElem l0 i x rest hd
    have hrest := drop_succ_of_drop l0 i x rest hd
    unfold maxLocFrom
    by_cases hgt : maxVal < x
    · rw [if_pos hgt]
      apply ih x i (i + 1) hrest (by omega) hx
      · intro j v hj hv
        by_cases hji : j = i
        · rw [hji, hx] at hv
          exact le_of_eq (Option.some.inj hv).symm
        · exact le_of_lt (lt_of_le_of_lt (hle j v (by omega) hv) hgt)
      · intro j v hj hv
        exact lt_of_le_of_lt (hle j v hj hv) hgt
    · rw [if_neg hgt]
      apply ih maxVal maxIdx (i + 1) hrest (by omega) hval
      · intro j v hj hv
        by_cases hji : j = i
        · rw [hji, hx] at hv
          rw [← Option.some.inj hv]
          exact not_lt.mp hgt
        · exact hle j v (by omega) hv
      · exact hlt

/-- The index `cvMaxLoc` returns for a non-empty row: the first index at which
the row attains its maximum. -/
theorem cvMaxLoc_spec (a : List ℚ) (ha : a ≠ []) :
    ∃ k m, cvMaxLoc a = some k ∧ a[k]? = some m ∧
      (∀ (j : Nat) (v : ℚ), a[j]? = some v → v ≤ m) ∧
      (∀ (j : Nat) (v : ℚ), j < k → a[j]? = some v → v < m) := by
  cases a with
  | nil => exact absurd rfl ha
  | cons x rest =>
    obtain ⟨m, h1, h2, h3⟩ := maxLocFrom_spec (x :: rest) rest x 0 1 (by simp) (by omega)
      (by simp)
      (fun j v hj hv => by
        have : j = 0 := by omega
        rw [this] at hv
        simp at hv
        exact le_of_eq hv.symm)
      (fun j v hj _ => absurd hj (Nat.not_lt_zero j))
    exact ⟨_, m, rfl, h1, h2, h3⟩

theorem zipWith_sub_self (a : List ℚ) :
    List.zipWith (fun x y => x - y) a a = List.replicate a.length 0 := by
  induction a with
  | nil => rfl
  | cons x a ih => simp [List.replicate_succ, ih]

theorem foldl_max_replicate_zero (n : Nat) :
    (List.replicate n (0 : ℚ)).foldl max 0 = 0 := by
  induction n with
  | zero => rfl
  | succ n ih => simp [List.replicate_succ, ih]

theorem differingSupport_self (a : List ℚ) : differingSupport a a = 0 := by
  unfold differingSupport
  induction a with
  | nil => rfl
  | cons x a ih =>
    rw [List.zip_cons_cons, List.countP_cons, ih]
    simp

/-- Function `cosineDistance` on vectors of the same length: the value
computed, whatever the norms are. -/
theorem cosineDistance_eq (sqrt : ℚ → ℚ) (a b : List ℚ) (h : a.length = b.length) :
    cosineDistance sqrt a b = Except.ok ((Dbl.fin 1).sub
      ((Dbl.fin (cvSum (List.zipWith (fun x y => x * y) a b))).div
        (Dbl.fin (cvNorm sqrt a * cvNorm sqrt b)))) := by
  simp [cosineDistance, cvMul, h]

theorem exactSqrt_zero : exactSqrt 0 = 0 := by
  simp [exactSqrt]

theorem exactSqrt_25 : exactSqrt 25 = 5 := by
  have h : Nat.sqrt 25 = 5 := Nat.sqrt_eq 5
  have hn : ((25 : ℚ).num).toNat = 25 := by
    rw [show (25 : ℚ) = ((25 : ℕ) : ℚ) by norm_num, Rat.num_natCast]
    rfl
  have hd : (25 : ℚ).den = 1 := by
    rw [show (25 : ℚ) = ((25 : ℕ) : ℚ) by norm_num, Rat.den_natCast]
  simp [exactSqrt, hn, hd, h]

theorem cvNorm_34 : cvNorm exactSqrt [3, 4] = 5 := by
  have h : cvSum (List.map (fun x : ℚ => x * x) [3, 4]) = 25 := by
    simp [cvSum]; norm_num
  rw [cvNorm, h, exactSqrt_25]

theorem cvNorm_00 : cvNorm exactSqrt [0, 0] = 0 := by
  have h : cvSum (List.map (fun x : ℚ => x * x) [0, 0]) = 0 := by
    simp [cvSum]
  rw [cvNorm, h, exactSqrt_zero]

theorem metric_distancePass :
    distancePass (ComputeFeatureDistance exactSqrt DistanceFunction.MaximalDimensionDifference)
      metricFeatures metricCatalog { id := 0, classId := 7, isQuery := true, classCount := 2 } =
      Except.ok metricDistances := by
  simp [distancePass, featureRow, metricFeatures, metricCatalog, computeDistances,
    ComputeFeatureDistance, maximalDimensionDifference, cvMaxLoc, maxLocFrom, metricDistances]
  norm_num

/-! ## Parsing -/

theorem sample_parse :
    ParseAnnotationFile (some sampleAnnotation) = Except.ok (sampleCatalog, sampleQueries) := by
  rfl

/-- What `parseLine` returns when it returns an item: the id is the counter
value, and the distance is the initial -1. -/
theorem parseLine_ok (id : Int) (line : List Char) (x : ImageInfo)
    (h : parseLine id line = Except.ok x) : x.id = id ∧ x.distance = Dbl.fin (-1) := by
  unfold parseLine at h
  simp only at h
  split at h
  · exact Except.noConfusion h
  · split at h
    · exact Except.noConfusion h
    · split at h
      · exact Except.noConfusion h
      · split at h
        · exact Except.noConfusion h
        · simp only [Except.ok.injEq] at h
          rw [← h]
          exact ⟨rfl, rfl⟩

/-- Every fatal error of `parseLine` at the counter value `id` is a parse error
that reports the line number `id + 2`. -/
theorem parseLine_error (id : Int) (line : List Char) (e : ConstructError)
    (h : parseLine id line = Except.error e) :
    ∃ column, e = ConstructError.parseError column (id + 2) := by
  unfold parseLine at h
  simp only at h
  have h2 : id + 1 + 1 = id + 2 := by ring
  split at h
  · simp only [Except.error.injEq] at h
    exact ⟨Column.class_id, by rw [← h, h2]⟩
  · split at h
    · simp only [Except.error.injEq] at h
      exact ⟨Column.is_query, by rw [← h, h2]⟩
    · split at h
      · rename_i hc
        exact absurd (Or.inl trivial) hc
      · split at h
        · simp only [Except.error.injEq] at h
          exact ⟨Column.class_count, by rw [← h, h2]⟩
        · exact Except.noConfusion h

/-- The loop over the lines, when it ends without a fatal error: one item is
appended per line, the n-th of them with the id `id + n`, and the items
flagged as queries are appended to the query set, in the same order. -/
theorem parseLines_ok :
    ∀ (lines : List (List Char)) (id : Int) (st res : List ImageInfo × List ImageInfo),
      parseLines id lines st = Except.ok res →
      ∃ added : List ImageInfo, res.1 = st.1 ++ added ∧
        res.2 = st.2 ++ added.filter (fun x => x.isQuery) ∧
        added.length = lines.length ∧
        (∀ (n : Nat) (x : ImageInfo), added[n]? = some x →
          x.id = id + n ∧ ∃ line, lines[n]? = some line ∧ parseLine (id + n) line = Except.ok x) := by
  intro lines
  induction lines with
  | nil =>
    intro id st res h
    simp only [parseLines, Except.ok.injEq] at h
    exact ⟨[], by simp [h], by simp [h], rfl, fun n x hx => by simp at hx⟩
  | cons line rest ih =>
    intro id st res h
    unfold parseLines at h
    cases hp : parseLine id line with
    | error e => rw [hp] at h; exact Except.noConfusion h
    | ok info =>
      rw [hp] at h
      simp only at h
      obtain ⟨added, h1, h2, h3, h4⟩ := ih (id + 1) _ res h
      refine ⟨info :: added, ?_, ?_, ?_, ?_⟩
      · rw [h1]; simp
      · rw [h2]
        by_cases hq : info.isQuery = true <;> simp [hq, List.filter_cons]
      · simp [h3]
      · intro n x hx
        cases n with
        | zero =>
          simp only [List.getElem?_cons_zero, Option.some.injEq] at hx
          rw [← hx]
          refine ⟨by simp [(parseLine_ok id line info hp).1], line, by simp, ?_⟩
          simpa using hp
        | succ n =>
          simp only [List.getElem?_cons_succ] at hx
          obtain ⟨hid, l1, hl1, hpl⟩ := h4 n x hx
          have he : id + ((n + 1 : Nat) : Int) = id + 1 + (n : Int) := by push_cast; ring
          refine ⟨by rw [hid, he], l1, by simpa using hl1, by rw [he]; exact hpl⟩

/-- A successful `ParseAnnotationFile`: the catalog has one item per line, the
n-th with id n, and the query set is the catalog filtered by the query flag. -/
theorem ParseAnnotationFile_ok (lines : List (List Char))
    (infos queries : List ImageInfo)
    (h : ParseAnnotationFile (some lines) = Except.ok (infos, queries)) :
    infos.length = lines.length ∧
    queries = infos.filter (fun x => x.isQuery) ∧
    (∀ (n : Nat) (x : ImageInfo), infos[n]? = some x →
      x.id = n ∧ ∃ line, lines[n]? = some line ∧ parseLine n line = Except.ok x) := by
  obtain ⟨added, h1, h2, h3, h4⟩ := parseLines_ok lines 0 ([], []) (infos, queries) h
  simp only [List.nil_append] at h1 h2
  rw [h1, h2]
  refine ⟨h3, rfl, fun n x hx => ?_⟩
  obtain ⟨hid, line, hl, hp⟩ := h4 n x hx
  simp only [zero_add] at hid hp
  exact ⟨hid, line, hl, hp⟩

/-- The outcome of the loop over the lines when it fails: the first line that
does not parse is some line `n` (0-based), and the number reported is `n + 2`
past the starting counter value. -/
theorem parseLines_error :
    ∀ (lines : List (List Char)) (id : Int) (st : List ImageInfo × List ImageInfo)
      (e : ConstructError), parseLines id lines st = Except.error e →
      ∃ (n : Nat) (line : List Char) (column : Column), lines[n]? = some line ∧
        parseLine (id + n) line = Except.error e ∧
        (∀ (m : Nat) (l : List Char), m < n → lines[m]? = some l →
          ∃ x, parseLine (id + m) l = Except.ok x) ∧
        e = ConstructError.parseError column (id + n + 2) := by
  intro lines
  induction lines with
  | nil => intro id st e h; exact Except.noConfusion h
  | cons line rest ih =>
    intro id st e h
    unfold parseLines at h
    cases hp : parseLine id line with
    | error e1 =>
      rw [hp] at h
      simp only [Except.error.injEq] at h
      obtain ⟨column, hc⟩ := parseLine_error id line e1 hp
      refine ⟨0, line, column, by simp, by simpa [h] using hp, ?_, by simp [← h, hc]⟩
      intro m l hm
      exact absurd hm (Nat.not_lt_zero m)
    | ok info =>
      rw [hp] at h
      simp only at h
      obtain ⟨n, l1, column, hl1, hpl, hbefore, he⟩ := ih (id + 1) _ e h
      have hcast : id + ((n + 1 : Nat) : Int) = id + 1 + (n : Int) := by push_cast; ring
      refine ⟨n + 1, l1, column, by simpa using hl1, by rw [hcast]; exact hpl, ?_, ?_⟩
      · intro m l hm hl
        cases m with
        | zero =>
          simp only [List.getElem?_cons_zero, Option.some.injEq] at hl
          rw [← hl]
          exact ⟨info, by simpa using hp⟩
        | succ m =>
          simp only [List.getElem?_cons_succ] at hl
          obtain ⟨x, hx⟩ := hbefore m l (by omega) hl
          have hc2 : id + ((m + 1 : Nat) : Int) = id + 1 + (m : Int) := by push_cast; ring
          exact ⟨x, by rw [hc2]; exact hx⟩
      · rw [he]; push_cast; ring_nf

theorem splitAtDelimiter_append (d : Char) :
    ∀ (f rest : List Char), d ∉ f →
      splitAtDelimiter d (f ++ d :: rest) = (f, some rest) := by
  intro f
  induction f with
  | nil => intro rest _; simp [splitAtDelimiter]
  | cons c f ih =>
    intro rest hd
    have hc : c ≠ d := fun h => hd (by simp [h])
    have hf : d ∉ f := fun h => hd (List.mem_cons_of_mem c h)
    simp [splitAtDelimiter, hc, ih rest hf]

theorem splitAtDelimiter_none (d : Char) :
    ∀ (f : List Char), d ∉ f → splitAtDelimiter d f = (f, none) := by
  intro f
  induction f with
  | nil => intro _; rfl
  | cons c f ih =>
    intro hd
    have hc : c ≠ d := fun h => hd (by simp [h])
    have hf : d ∉ f := fun h => hd (List.mem_cons_of_mem c h)
    simp [splitAtDelimiter, hc, ih hf]

theorem takeWhile_append_all {α : Type} (p : α → Bool) :
    ∀ (ds r : List α), (∀ x ∈ ds, p x = true) →
      (ds ++ r).takeWhile p = ds ++ r.takeWhile p := by
  intro ds
  induction ds with
  | nil => intro r _; rfl
  | cons x ds ih =>
    intro r h
    have hx : p x = true := h x (List.mem_cons_self x ds)
    simp [List.takeWhile_cons, hx, ih r (fun y hy => h y (List.mem_cons_of_mem x hy))]

theorem isDigit_facts (c : Char) (h : isDigit c = true) :
    c.toNat ≠ 0 ∧ isSpace c = false ∧ c ≠ '-' ∧ c ≠ '+' := by
  simp only [isDigit, Bool.and_eq_true, decide_eq_true_eq] at h
  refine ⟨by omega, ?_, ?_, ?_⟩
  · simp only [isSpace, Bool.or_eq_false_iff, decide_eq_false_iff_not, Bool.and_eq_false_iff]
    constructor
    · omega
    · right; omega
  · intro hc
    rw [hc] at h
    exact absurd h.1 (by decide)
  · intro hc
    rw [hc] at h
    exact absurd h.1 (by decide)

/-- What is left of the junk after a run of digits once the string is cut at
the first NUL: nothing, or something that starts with a non-digit. -/
theorem junk_cut (junk : List Char)
    (hj : junk = [] ∨ ∃ j js, junk = j :: js ∧ isDigit j = false) :
    (junk.takeWhile (fun c => decide (c.toNat ≠ 0))).takeWhile isDigit = [] := by
  rcases hj with hj | ⟨j, js, hj, hd⟩
  · rw [hj]; rfl
  · rw [hj]
    by_cases h0 : j.toNat = 0
    · simp [List.takeWhile_cons, h0]
    · simp [List.takeWhile_cons, h0, hd]

/-- Function `stoi` on a run of digits followed by something that does not
start with a digit: the decimal value of the run, when it fits an `int`. -/
theorem stoi_digits (ds junk : List Char) (hne : ds ≠ []) (hds : ∀ c ∈ ds, isDigit c = true)
    (hj : junk = [] ∨ ∃ j js, junk = j :: js ∧ isDigit j = false)
    (hrange : digitsValue ds ≤ 2147483647) :
    stoi (ds ++ junk) = some (digitsValue ds : Int) := by
  obtain ⟨d, ds1, hcons⟩ := List.exists_cons_of_ne_nil hne
  have hd := isDigit_facts d (hds d (by rw [hcons]; exact List.mem_cons_self d ds1))
  have hnul : ∀ c ∈ ds, decide (c.toNat ≠ 0) = true := fun c hc => by
    simpa using (isDigit_facts c (hds c hc)).1
  unfold stoi
  simp only
  rw [takeWhile_append_all _ ds junk hnul]
  have hdrop : (ds ++ junk.takeWhile (fun c => decide (c.toNat ≠ 0))).dropWhile isSpace =
      ds ++ junk.takeWhile (fun c => decide (c.toNat ≠ 0)) := by
    rw [hcons]
    simp [List.dropWhile_cons, hd.2.1]
  rw [hdrop]
  have hhead : (ds ++ junk.takeWhile (fun c => decide (c.toNat ≠ 0))).head? = some d := by
    rw [hcons]; rfl
  have hsign : (match ds ++ junk.takeWhile (fun c => decide (c.toNat ≠ 0)) with
      | c :: r => if c = '-' ∨ c = '+' then r
        else ds ++ junk.takeWhile (fun c => decide (c.toNat ≠ 0))
      | [] => ds ++ junk.takeWhile (fun c => decide (c.toNat ≠ 0))) =
      ds ++ junk.takeWhile (fun c => decide (c.toNat ≠ 0)) := by
    rw [hcons]
    simp [hd.2.2.1, hd.2.2.2]
  rw [hsign, takeWhile_append_all _ ds _ hds, junk_cut junk hj, List.append_nil, hhead]
  have hneg : (some d = some '-') = False := by
    simp [hd.2.2.1]
  simp only [hneg, decide_False, Bool.false_eq_true, if_false, hne]
  have h1 : (-2147483648 : Int) ≤ (digitsValue ds : Int) ∧
      (digitsValue ds : Int) ≤ 2147483647 := by
    constructor <;> omega
  simp [h1]

/-- Function `stoi` on the empty token, and on a token that starts with a
character that is neither white space, nor a sign, nor a digit: the exception. -/
theorem stoi_no_digits :
    stoi [] = none ∧
    ∀ (c : Char) (cs : List Char), isSpace c = false → c ≠ '-' → c ≠ '+' →
      isDigit c = false → stoi (c :: cs) = none := by
  refine ⟨rfl, fun c cs hs hm hp hd => ?_⟩
  unfold stoi
  by_cases h0 : c.toNat = 0
  · simp [List.takeWhile_cons, h0]
  · simp [List.takeWhile_cons, h0, List.dropWhile_cons, hs, hm, hp, hd]

/-- Function `parseLine` on a line of at least four fields: the outcome is
decided by `stoi` on the second, third and fourth field, whatever the first
field and the further columns are. -/
theorem parseLine_four_fields (id : Int) (f0 f1 f2 f3 rest : List Char)
    (h0 : ';' ∉ f0) (h1 : ';' ∉ f1) (h2 : ';' ∉ f2) (h3 : ';' ∉ f3)
    (hrest : rest = [] ∨ ∃ more, rest = ';' :: more) :
    parseLine id (f0 ++ ';' :: (f1 ++ ';' :: (f2 ++ ';' :: (f3 ++ rest)))) =
      match stoi f1 with
      | none => Except.error (ConstructError.parseError Column.class_id (id + 2))
      | some classId =>
        match stoi f2 with
        | none => Except.error (ConstructError.parseError Column.is_query (id + 2))
        | some isQuery =>
          match stoi f3 with
          | none => Except.error (ConstructError.parseError Column.class_count (id + 2))
          | some classCount =>
            Except.ok
              { id := id
                classId := classId
                isQuery := decide (isQuery ≠ 0)
                classCount := classCount } := by
  have hlast : (splitAtDelimiter ';' (f3 ++ rest)).1 = f3 := by
    rcases hrest with hr | ⟨more, hr⟩
    · rw [hr, List.append_nil, splitAtDelimiter_none ';' f3 h3]
    · rw [hr, splitAtDelimiter_append ';' f3 more h3]
  have h2id : id + 1 + 1 = id + 2 := by ring
  unfold parseLine getline
  simp only [splitAtDelimiter_append ';' f0 _ h0, splitAtDelimiter_append ';' f1 _ h1,
    splitAtDelimiter_append ';' f2 _ h2, hlast, h2id]
  cases stoi f1 with
  | none => rfl
  | some c =>
    cases stoi f2 with
    | none => rfl
    | some q =>
      cases stoi f3 with
      | none => simp
      | some n => simp

/-- Function `parseLine` on a line of two fields only: the stream is at its end
after the second field, so the two further `getline` calls leave the token as
it is, and `stoi` converts the second field three times. -/
theorem parseLine_two_fields (id : Int) (f0 f1 : List Char) (h0 : ';' ∉ f0) (h1 : ';' ∉ f1) :
    parseLine id (f0 ++ ';' :: f1) =
      match stoi f1 with
      | none => Except.error (ConstructError.parseError Column.class_id (id + 2))
      | some v =>
        Except.ok { id := id, classId := v, isQuery := decide (v ≠ 0), classCount := v } := by
  have h2id : id + 1 + 1 = id + 2 := by ring
  unfold parseLine getline
  simp only [splitAtDelimiter_append ';' f0 _ h0, splitAtDelimiter_none ';' f1 h1, h2id]
  cases stoi f1 with
  | none => rfl
  | some c => simp

/-- Function `parseLine` on a line of three fields: the third field is
converted for the columns `is query` and `class count`. -/
theorem parseLine_three_fields (id : Int) (f0 f1 f2 : List Char) (h0 : ';' ∉ f0)
    (h1 : ';' ∉ f1) (h2 : ';' ∉ f2) :
    parseLine id (f0 ++ ';' :: (f1 ++ ';' :: f2)) =
      match stoi f1 with
      | none => Except.error (ConstructError.parseError Column.class_id (id + 2))
      | some classId =>
        match stoi f2 with
        | none => Except.error (ConstructError.parseError Column.is_query (id + 2))
        | some v =>
          Except.ok
            { id := id, classId := classId, isQuery := decide (v ≠ 0), classCount := v } := by
  have h2id : id + 1 + 1 = id + 2 := by ring
  unfold parseLine getline
  simp only [splitAtDelimiter_append ';' f0 _ h0, splitAtDelimiter_append ';' f1 _ h1,
    splitAtDelimiter_none ';' f2 h2, h2id]
  cases stoi f1 with
  | none => rfl
  | some c =>
    cases stoi f2 with
    | none => rfl
    | some q => simp

/-- Function `parseLine` on a line without a delimiter: the whole line is the
token converted for all three columns. -/
theorem parseLine_one_field (id : Int) (f0 : List Char) (h0 : ';' ∉ f0) :
    parseLine id f0 =
      match stoi f0 with
      | none => Except.error (ConstructError.parseError Column.class_id (id + 2))
      | some v =>
        Except.ok { id := id, classId := v, isQuery := decide (v ≠ 0), classCount := v } := by
  have h2id : id + 1 + 1 = id + 2 := by ring
  unfold parseLine getline
  simp only [splitAtDelimiter_none ';' f0 h0, h2id]
  cases stoi f0 with
  | none => rfl
  | some c => simp

/-- The first column is not read: two lines that differ in the first field
only give the same outcome. -/
theorem parseLine_first_field (id : Int) (f0 g0 rest : List Char) (hf : ';' ∉ f0)
    (hg : ';' ∉ g0) : parseLine id (f0 ++ ';' :: rest) = parseLine id (g0 ++ ';' :: rest) := by
  unfold parseLine getline
  simp only [splitAtDelimiter_append ';' f0 _ hf, splitAtDelimiter_append ';' g0 _ hg]

/-- The constructor, when the annotation file parses. -/
theorem construct_of_parse (features : List (List ℚ)) (lines : List (List Char))
    (infos queries : List ImageInfo)
    (h : ParseAnnotationFile (some lines) = Except.ok (infos, queries)) :
    MapEvaluatorObject.construct features (some lines) =
      if features.length = infos.length then
        Except.ok
          { mExcludeQueryFromDB := true
            mTopK := 0
            mFeatures := features
            mImageInfos := infos
            mQueryInfos := queries
            mDistanceFunction := DistanceFunction.L2
            mDistanceFunctionParameter := Dbl.fin 0 }
      else Except.error ConstructError.rowCountMismatch := by
  unfold MapEvaluatorObject.construct
  rw [h]
  by_cases hl : features.length = infos.length
  · simp [hl]
  · have hl2 : ¬ ((features.length : Int) = (infos.length : Int)) := by omega
    simp [hl, hl2]

/-! ## Symmetry of the norms of a difference -/

theorem zipWith_sub_sq_comm (a : List ℚ) :
    ∀ b : List ℚ, (List.zipWith (fun x y => x - y) a b).map (fun d => d * d) =
      (List.zipWith (fun x y => x - y) b a).map (fun d => d * d) := by
  induction a with
  | nil => intro b; cases b <;> rfl
  | cons x a ih =>
    intro b
    cases b with
    | nil => rfl
    | cons y b =>
      simp only [List.zipWith_cons_cons, List.map_cons, ih b]
      congr 1
      ring

theorem zipWith_sub_abs_comm (a : List ℚ) :
    ∀ b : List ℚ, (List.zipWith (fun x y => x - y) a b).map (fun d => |d|) =
      (List.zipWith (fun x y => x - y) b a).map (fun d => |d|) := by
  induction a with
  | nil => intro b; cases b <;> rfl
  | cons x a ih =>
    intro b
    cases b with
    | nil => rfl
    | cons y b =>
      simp only [List.zipWith_cons_cons, List.map_cons, ih b]
      congr 1
      exact abs_sub_comm x y

theorem differingSupport_comm (a : List ℚ) :
    ∀ b : List ℚ, differingSupport a b = differingSupport b a := by
  induction a with
  | nil => intro b; cases b <;> rfl
  | cons x a ih =>
    intro b
    cases b with
    | nil => rfl
    | cons y b =>
      have h := ih b
      unfold differingSupport at h ⊢
      rw [List.zip_cons_cons, List.zip_cons_cons, List.countP_cons, List.countP_cons, h]
      congr 1
      by_cases hx : x = 0 <;> by_cases hy : y = 0 <;> simp [hx, hy]

/-- The norm of a difference, where `cv::norm(a, b, normType)` returns, is the
same for `(a, b)` and `(b, a)`. -/
theorem cvNormDiff_comm (sqrt : ℚ → ℚ) (a b : List ℚ) (normType : NormType)
    (h : a.length = b.length) :
    ∃ d : ℚ, cvNormDiff sqrt a b normType = Except.ok (Dbl.fin d) ∧
      cvNormDiff sqrt b a normType = Except.ok (Dbl.fin d) := by
  unfold cvNormDiff
  rw [if_pos h, if_pos h.symm]
  cases normType with
  | NORM_L2 => exact ⟨_, rfl, by simp only [zipWith_sub_sq_comm b a]⟩
  | NORM_L2SQR => exact ⟨_, rfl, by simp only [zipWith_sub_sq_comm b a]⟩
  | NORM_L1 => exact ⟨_, rfl, by simp only [zipWith_sub_abs_comm b a]⟩
  | NORM_INF => exact ⟨_, rfl, by simp only [zipWith_sub_abs_comm b a]⟩


/-! ## The catalog after `Evaluate` -/

/-- One turn of the query loop that raises no error leaves the catalog as the
distance pass of its query made it. -/
theorem evaluateQuery_catalog {Mat : Type}
    (ComputeFeatureDistance : Mat → Mat → Except EvalError Dbl)
    (sort : List ImageInfo → List ImageInfo) (cfg : Config) (mFeatures : List Mat)
    (query : ImageInfo) (st st1 : Dbl × List ImageInfo)
    (h : evaluateQuery ComputeFeatureDistance sort cfg mFeatures query st = Except.ok st1) :
    distancePass ComputeFeatureDistance mFeatures st.2 query = Except.ok st1.2 := by
  unfold evaluateQuery at h
  cases hp : distancePass ComputeFeatureDistance mFeatures st.2 query with
  | error e => rw [hp] at h; exact Except.noConfusion h
  | ok infos =>
    rw [hp] at h
    simp only at h
    cases hs : scoreQuery sort cfg infos query with
    | error e => rw [hs] at h; exact Except.noConfusion h
    | ok averagePrecision =>
      rw [hs] at h
      simp only [Except.ok.injEq] at h
      rw [← h]

/-- The catalog when the query loop has ended without an error: it differs
from the catalog at the start in the distance fields only, it is the catalog
at the start when there was no query, and otherwise it is what the distance
pass of the last query makes of the catalog at the start. -/
theorem evaluateLoop_catalog {Mat : Type}
    (ComputeFeatureDistance : Mat → Mat → Except EvalError Dbl)
    (sort : List ImageInfo → List ImageInfo) (cfg : Config) (mFeatures : List Mat) :
    ∀ (qs : List ImageInfo) (st st1 : Dbl × List ImageInfo),
      evaluateLoop ComputeFeatureDistance sort cfg mFeatures qs st = Except.ok st1 →
      eraseDistance st1.2 = eraseDistance st.2 ∧ (qs = [] → st1.2 = st.2) ∧
      ∀ q, qs.getLast? = some q →
        distancePass ComputeFeatureDistance mFeatures st.2 q = Except.ok st1.2 := by
  intro qs
  induction qs with
  | nil =>
    intro st st1 h
    simp only [evaluateLoop, Except.ok.injEq] at h
    rw [← h]
    exact ⟨rfl, fun _ => rfl, fun q hq => by simp at hq⟩
  | cons q0 rest ih =>
    intro st st1 h
    unfold evaluateLoop at h
    cases hq : evaluateQuery ComputeFeatureDistance sort cfg mFeatures q0 st with
    | error e => rw [hq] at h; exact Except.noConfusion h
    | ok st0 =>
      rw [hq] at h
      simp only at h
      have hpass := evaluateQuery_catalog ComputeFeatureDistance sort cfg mFeatures q0 st st0 hq
      have he0 := distancePass_ok_erase ComputeFeatureDistance mFeatures st.2 st0.2 q0 hpass
      obtain ⟨he1, hnil, hlast⟩ := ih st0 st1 h
      refine ⟨he1.trans he0, fun hne => absurd hne (List.cons_ne_nil q0 rest), ?_⟩
      intro q hql
      cases rest with
      | nil =>
        simp only [List.getLast?_singleton, Option.some.injEq] at hql
        rw [← hql, hnil rfl]
        exact hpass
      | cons q1 rest1 =>
        rw [List.getLast?_cons_cons] at hql
        rw [← distancePass_congr ComputeFeatureDistance mFeatures st0.2 st.2 q he0]
        exact hlast q hql

/-- What `Evaluate` leaves behind when it returns: every member but the
catalog is as before, and the catalog is as `evaluateLoop_catalog` says. -/
theorem Evaluate_catalog {Mat : Type}
    (ComputeFeatureDistance : Mat → Mat → Except EvalError Dbl)
    (sort : List ImageInfo → List ImageInfo) (ev : Evaluator Mat) (v : Dbl)
    (ev1 : Evaluator Mat) (h : Evaluate ComputeFeatureDistance sort ev = Except.ok (v, ev1)) :
    ev1 = { ev with mImageInfos := ev1.mImageInfos } ∧
    eraseDistance ev1.mImageInfos = eraseDistance ev.mImageInfos ∧
    (ev.mQueryInfos = [] → ev1.mImageInfos = ev.mImageInfos) ∧
    ∀ q, ev.mQueryInfos.getLast? = some q →
      distancePass ComputeFeatureDistance ev.mFeatures ev.mImageInfos q =
        Except.ok ev1.mImageInfos := by
  unfold Evaluate at h
  cases hl : evaluateLoop ComputeFeatureDistance sort ev.toConfig ev.mFeatures ev.mQueryInfos
      (Dbl.fin 0, ev.mImageInfos) with
  | error e => rw [hl] at h; exact Except.noConfusion h
  | ok st =>
    rw [hl] at h
    simp only [Except.ok.injEq, Prod.mk.injEq] at h
    obtain ⟨_, h2⟩ := h
    have hc := evaluateLoop_catalog ComputeFeatureDistance sort ev.toConfig ev.mFeatures
      ev.mQueryInfos (Dbl.fin 0, ev.mImageInfos) st hl
    rw [← h2]
    exact ⟨rfl, hc.1, hc.2.1, hc.2.2⟩

theorem tie_distancePass1 :
    distancePass absDistance tieEvaluator.mFeatures tieEvaluator.mImageInfos tieQuery1 =
      Except.ok tieDistances1 := by
  simp [distancePass, featureRow, tieEvaluator, tieQuery1, computeDistances, absDistance,
    tieDistances1]

theorem tie_queryAveragePrecision :
    ∀ q ∈ tieEvaluator.mQueryInfos, queryAveragePrecision absDistance insertionSortByDistance
      tieEvaluator.toConfig tieEvaluator.mFeatures tieEvaluator.mImageInfos q =
        Except.ok (tieAveragePrecision q) := by
  intro q hq
  have hq1 : q = tieQuery0 ∨ q = tieQuery1 := by
    simpa [tieEvaluator, tieQuery0, tieQuery1] using hq
  rcases hq1 with hq1 | hq1
  · rw [hq1, tie_averagePrecision0]; rfl
  · rw [hq1, tie_averagePrecision1]; rfl


/-! ## The distance-function selector -/

theorem stoi_eq_stoiOutcome (str : List Char) :
    stoi str = (match stoiOutcome str with
      | Except.ok value => some value
      | Except.error _ => none) := by
  unfold stoi stoiOutcome
  simp only
  split_ifs <;> rfl

/-- One turn of the query loop gives the same outcome from catalogs that
differ in the distance fields only. -/
theorem evaluateQuery_congr {Mat : Type}
    (ComputeFeatureDistance : Mat → Mat → Except EvalError Dbl)
    (sort : List ImageInfo → List ImageInfo) (cfg : Config) (mFeatures : List Mat)
    (query : ImageInfo) (acc : Dbl) (l l1 : List ImageInfo)
    (h : eraseDistance l = eraseDistance l1) :
    evaluateQuery ComputeFeatureDistance sort cfg mFeatures query (acc, l) =
      evaluateQuery ComputeFeatureDistance sort cfg mFeatures query (acc, l1) := by
  unfold evaluateQuery
  simp only
  rw [distancePass_congr ComputeFeatureDistance mFeatures l l1 query h]

theorem queryRanking_congr {Mat : Type}
    (ComputeFeatureDistance : Mat → Mat → Except EvalError Dbl)
    (sort : List ImageInfo → List ImageInfo) (mFeatures : List Mat)
    (query : ImageInfo) (l l1 : List ImageInfo) (h : eraseDistance l = eraseDistance l1) :
    queryRanking ComputeFeatureDistance sort mFeatures l query =
      queryRanking ComputeFeatureDistance sort mFeatures l1 query := by
  unfold queryRanking
  rw [distancePass_congr ComputeFeatureDistance mFeatures l l1 query h]

theorem queryAveragePrecision_congr {Mat : Type}
    (ComputeFeatureDistance : Mat → Mat → Except EvalError Dbl)
    (sort : List ImageInfo → List ImageInfo) (cfg : Config) (mFeatures : List Mat)
    (query : ImageInfo) (l l1 : List ImageInfo) (h : eraseDistance l = eraseDistance l1) :
    queryAveragePrecision ComputeFeatureDistance sort cfg mFeatures l query =
      queryAveragePrecision ComputeFeatureDistance sort cfg mFeatures l1 query := by
  unfold queryAveragePrecision
  rw [distancePass_congr ComputeFeatureDistance mFeatures l l1 query h]

theorem tie_evaluateLoop0 :
    evaluateLoop absDistance insertionSortByDistance tieEvaluator.toConfig
      tieEvaluator.mFeatures [tieQuery0] (Dbl.fin 0, tieEvaluator.mImageInfos) =
      Except.ok (Dbl.fin 1, tieDistances0) := by
  have hs : scoreQuery insertionSortByDistance tieEvaluator.toConfig tieDistances0 tieQuery0 =
      Except.ok (Dbl.fin 1) := by
    have h := tie_averagePrecision0
    unfold queryAveragePrecision at h
    rw [tie_distancePass0] at h
    exact h
  simp only [evaluateLoop, evaluateQuery, tie_distancePass0, hs]
  simp


/-! ## An understated classCount -/

theorem understated_finalState :
    finalState scenarioConfig understatedQuery understatedRanking =
      { oldRecall := Dbl.fin 2
        oldPrecision := Dbl.fin 1
        recall_ := Dbl.fin 2
        precision_ := Dbl.fin 1
        averagePrecision := Dbl.fin 2
        matchCount := Dbl.fin 2
        wasQueryExcluded := true
        precisionRecallValues := [(Dbl.fin 1, Dbl.fin 1), (Dbl.fin 1, Dbl.fin 2)]
        consumed := [(1, scenarioItem 1 7 false 2 1), (2, scenarioItem 2 7 false 2 2)] } := by
  simp [finalState, scenarioConfig, understatedQuery, understatedRanking, scenarioItem,
    resultCount, scoreLoop, scoreStep, adjustedMatches, matchesBeforeTopK, Dbl.ofInt, Dbl.div]
  norm_num


/-! ## Perfect rankings under a top-K limit -/

/-- A perfect ranking scores 1 whenever the limit `nResults` lets the loop
consume at least the `M ≥ 1` entries to retrieve. -/
theorem finalState_perfect_of_le (cfg : Config) (query : ImageInfo)
    (sortedResult : List ImageInfo) (M pos c : Nat) (own : ImageInfo)
    (hm : adjustedMatches cfg query sortedResult.length = Dbl.fin (M : ℚ))
    (hn : (M : Int) ≤ resultCount cfg sortedResult.length)
    (hM : 1 ≤ M) (hc : c = if cfg.mExcludeQueryFromDB then M + 1 else M)
    (hlen : c ≤ sortedResult.length)
    (hclass : ∀ (i : Nat) (x : ImageInfo), sortedResult[i]? = some x →
      (x.classId = query.classId ↔ i < c))
    (hown : sortedResult[pos]? = some own) (hownid : own.id = query.id) (hpos : pos < c)
    (huniq : ∀ (i : Nat) (x : ImageInfo), sortedResult[i]? = some x → x.id = query.id →
      i = pos) :
    (finalState cfg query sortedResult).averagePrecision = Dbl.fin 1 := by
  unfold finalState
  rw [hm]
  obtain ⟨j, _, ⟨hb, hP⟩, hend⟩ := scoreLoop_invariant cfg query (Dbl.fin (M : ℚ))
    (resultCount cfg sortedResult.length) sortedResult
    (fun i s => Bookkeeping cfg query sortedResult i s ∧ PerfectInv cfg query M pos i s)
    (fun i x s h hx hex hid => ⟨bookkeeping_skip cfg query sortedResult i s h.1 hex,
      perfect_skip cfg query M pos sortedResult huniq i x s h.2 hx hid⟩)
    (fun i x s h hx _ hq =>
      ⟨bookkeeping_step cfg query (Dbl.fin (M : ℚ)) sortedResult i x s h.1 hx hq,
        perfect_step cfg query M pos c sortedResult hM hc hclass own hown hownid hpos i x s
          h.1 h.2 hx hq⟩)
    sortedResult 0 {} (by simp)
    ⟨bookkeeping_init cfg query sortedResult,
      ⟨by simp, by simp, fun _ h => absurd h (Nat.not_lt_zero pos), by simp [sameClassCount],
        1, by simp, by simp, rfl, fun _ => rfl⟩⟩
  obtain ⟨hlenj, hwp, hpw, _, p, ha, _, _, _⟩ := hP
  set sf := scoreLoop cfg query (Dbl.fin (M : ℚ)) (resultCount cfg sortedResult.length) 0
    sortedResult {} with hsf
  have hge : M ≤ sf.consumed.length := by
    rcases hend with hend | hend
    · rw [← hb.len] at hend
      omega
    · simp only [Nat.zero_add] at hend
      by_cases hw : sf.wasQueryExcluded = true
      · rw [if_pos hw] at hlenj
        rw [if_pos (hb.excl hw)] at hc
        omega
      · rw [if_neg hw] at hlenj
        by_cases hex : cfg.mExcludeQueryFromDB = true
        · exact absurd (hpw hex (by omega)) hw
        · rw [if_neg hex] at hc; omega
  rw [ha, min_eq_right hge]
  have hMq : (M : ℚ) ≠ 0 := by
    have : M ≠ 0 := by omega
    exact_mod_cast this
  rw [div_self hMq]

theorem dbl_min_fin (a b : ℚ) (h : b ≤ a) : Dbl.min (Dbl.fin a) (Dbl.fin b) = Dbl.fin b := by
  unfold Dbl.min Dbl.lt
  by_cases hlt : b < a
  · simp [hlt]
  · have : a = b := le_antisymm (not_lt.mp hlt) h
    simp [this]

theorem topK_finalState :
    finalState topKConfig scenarioQuery scenarioRanking =
      { oldRecall := Dbl.fin 1
        oldPrecision := Dbl.fin (1 / 2)
        recall_ := Dbl.fin 1
        precision_ := Dbl.fin (1 / 2)
        averagePrecision := Dbl.fin 1
        matchCount := Dbl.fin 1
        wasQueryExcluded := true
        precisionRecallValues := [(Dbl.fin 1, Dbl.fin 1), (Dbl.fin (1 / 2), Dbl.fin 1)]
        consumed := [(1, scenarioItem 1 7 false 2 1), (2, scenarioItem 3 8 false 2 2)] } := by
  simp [finalState, topKConfig, scenarioQuery, scenarioRanking, scenarioItem, resultCount,
    scoreLoop, scoreStep, adjustedMatches, matchesBeforeTopK, Dbl.ofInt, Dbl.div, Dbl.min,
    Dbl.lt]
  norm_num


/-! ## The trace of the scoring loop: the samples -/

theorem skippedBefore_zero (cfg : Config) (query : ImageInfo) (l0 : List ImageInfo) :
    skippedBefore cfg query l0 0 = false := by
  simp [skippedBefore]

theorem skippedBefore_succ (cfg : Config) (query : ImageInfo) (l0 : List ImageInfo) (i : Nat)
    (x : ImageInfo) (hx : l0[i]? = some x) :
    skippedBefore cfg query l0 (i + 1) =
      (skippedBefore cfg query l0 i || (cfg.mExcludeQueryFromDB && decide (x.id = query.id))) := by
  unfold skippedBefore
  rw [List.take_succ, hx]
  simp only [Option.toList_some, List.any_append, List.any_cons, List.any_nil, Bool.or_false]
  cases cfg.mExcludeQueryFromDB <;> simp

/-- An entry with the query's id stands before raw index `i` when
`skippedBefore` holds there. -/
theorem skippedBefore_index (cfg : Config) (query : ImageInfo) (l0 : List ImageInfo) (i : Nat)
    (h : skippedBefore cfg query l0 i = true) :
    ∃ (k : Nat) (y : ImageInfo), k < i ∧ l0[k]? = some y ∧ y.id = query.id := by
  unfold skippedBefore at h
  simp only [Bool.and_eq_true, List.any_eq_true, decide_eq_true_eq] at h
  obtain ⟨_, y, hy, hid⟩ := h
  obtain ⟨k, hk⟩ := List.mem_iff_getElem?.mp hy
  rw [List.getElem?_take] at hk
  by_cases hlt : k < i
  · rw [if_pos hlt] at hk
    exact ⟨k, y, hlt, hk, hid⟩
  · rw [if_neg hlt] at hk
    exact Option.noConfusion hk

theorem scoreStep_sample (query : ImageInfo) (m : Dbl) (i : Nat) (x : ImageInfo)
    (s : LoopState) :
    (scoreStep query m i x s).precisionRecallValues = s.precisionRecallValues ++
      [((scoreStep query m i x s).matchCount.div
          (Dbl.ofInt (if s.wasQueryExcluded then (i : Int) else (i : Int) + 1)),
        (scoreStep query m i x s).matchCount.div m)] := by
  unfold scoreStep
  by_cases h : s.wasQueryExcluded = true <;> simp [h]

theorem matchCountAt_append_lt (query : ImageInfo) (c : List (Nat × ImageInfo))
    (y : Nat × ImageInfo) (j : Nat) (h : j < c.length) :
    matchCountAt query (c ++ [y]) j = matchCountAt query c j := by
  unfold matchCountAt
  rw [List.take_append_of_le_length (by omega)]

theorem matchCountAt_append_length (query : ImageInfo) (c : List (Nat × ImageInfo))
    (y : Nat × ImageInfo) :
    matchCountAt query (c ++ [y]) c.length = Dbl.fin (sameClassCount query (c ++ [y])) := by
  unfold matchCountAt
  rw [List.take_of_length_le (by simp)]

theorem trace_init (cfg : Config) (query : ImageInfo) (l0 : List ImageInfo) (m : Dbl) :
    TraceInv cfg query l0 m 0 {} :=
  ⟨(skippedBefore_zero cfg query l0).symm, fun _ => rfl,
    fun j k x h => by simp at h, fun j k x h => by simp at h⟩

theorem trace_skip (cfg : Config) (query : ImageInfo) (l0 : List ImageInfo) (m : Dbl)
    (i : Nat) (x : ImageInfo) (s : LoopState) (h : TraceInv cfg query l0 m i s)
    (hx : l0[i]? = some x) (hex : cfg.mExcludeQueryFromDB = true) (hid : x.id = query.id) :
    TraceInv cfg query l0 m (i + 1) { s with wasQueryExcluded := true } := by
  refine ⟨?_, ?_, h.sample, h.position⟩
  · rw [skippedBefore_succ cfg query l0 i x hx]
    simp [hex, hid]
  · intro hw
    exact absurd hw (by simp)

theorem trace_step (cfg : Config) (query : ImageInfo) (l0 : List ImageInfo) (m : Dbl)
    (i : Nat) (x : ImageInfo) (s : LoopState) (hb : Bookkeeping cfg query l0 i s)
    (h : TraceInv cfg query l0 m i s) (hx : l0[i]? = some x)
    (hq : ¬ (cfg.mExcludeQueryFromDB = true ∧ x.id = query.id)) :
    TraceInv cfg query l0 m (i + 1) (scoreStep query m i x s) := by
  have hb1 := bookkeeping_step cfg query m l0 i x s hb hx hq
  have hskip : skippedBefore cfg query l0 (i + 1) = skippedBefore cfg query l0 i := by
    rw [skippedBefore_succ cfg query l0 i x hx]
    have : (cfg.mExcludeQueryFromDB && decide (x.id = query.id)) = false := by
      by_contra hne
      simp only [Bool.not_eq_false, Bool.and_eq_true, decide_eq_true_eq] at hne
      exact hq hne
    rw [this, Bool.or_false]
  refine ⟨?_, ?_, ?_, ?_⟩
  · rw [scoreStep_wasQueryExcluded, hskip]
    exact h.excluded
  · intro hw
    rw [scoreStep_wasQueryExcluded] at hw
    rw [scoreStep_consumed, List.length_append, List.length_singleton, h.noSkip hw]
  · intro j k y hj
    rw [scoreStep_consumed] at hj ⊢
    rw [scoreStep_sample]
    rcases Nat.lt_trichotomy j s.consumed.length with hlt | heq | hgt
    · rw [List.getElem?_append_left hlt] at hj
      rw [List.getElem?_append_left (by rw [← hb.len]; exact hlt),
        matchCountAt_append_lt query s.consumed (i, x) j hlt]
      exact h.sample j k y hj
    · rw [heq, List.getElem?_concat_length] at hj
      simp only [Option.some.injEq, Prod.mk.injEq] at hj
      obtain ⟨hk, _⟩ := hj
      rw [heq, hb.len, List.getElem?_concat_length, ← hb.len,
        matchCountAt_append_length, ← hk]
      have hc := hb1.count
      rw [scoreStep_consumed] at hc
      rw [hc]
      unfold usedDivisor
      rw [← h.excluded]
    · have : (s.consumed ++ [(i, x)])[j]? = none := by
        rw [List.getElem?_eq_none_iff]
        simp only [List.length_append, List.length_singleton]
        omega
      rw [this] at hj
      exact Option.noConfusion hj
  · intro j k y hj
    rw [scoreStep_consumed] at hj
    rcases Nat.lt_trichotomy j s.consumed.length with hlt | heq | hgt
    · rw [List.getElem?_append_left hlt] at hj
      exact h.position j k y hj
    · rw [heq, List.getElem?_concat_length] at hj
      simp only [Option.some.injEq, Prod.mk.injEq] at hj
      obtain ⟨hk, _⟩ := hj
      rw [← hk, ← h.excluded, heq]
      constructor
      · intro hw
        exact (h.noSkip hw).symm
      · intro hw
        exact hb.lt_index hw
    · have : (s.consumed ++ [(i, x)])[j]? = none := by
        rw [List.getElem?_eq_none_iff]
        simp only [List.length_append, List.length_singleton]
        omega
      rw [this] at hj
      exact Option.noConfusion hj

/-- The bookkeeping facts and the trace invariant hold when the loop of
`EvaluateAveragePrecision` has ended. -/
theorem finalState_trace (cfg : Config) (query : ImageInfo) (sortedResult : List ImageInfo) :
    ∃ j, Bookkeeping cfg query sortedResult j (finalState cfg query sortedResult) ∧
      TraceInv cfg query sortedResult (adjustedMatches cfg query sortedResult.length) j
        (finalState cfg query sortedResult) := by
  obtain ⟨j, _, hj, _⟩ := scoreLoop_invariant cfg query
    (adjustedMatches cfg query sortedResult.length) (resultCount cfg sortedResult.length)
    sortedResult
    (fun i s => Bookkeeping cfg query sortedResult i s ∧
      TraceInv cfg query sortedResult (adjustedMatches cfg query sortedResult.length) i s)
    (fun i x s h hx hex hid => ⟨bookkeeping_skip cfg query sortedResult i s h.1 hex,
      trace_skip cfg query sortedResult _ i x s h.2 hx hex hid⟩)
    (fun i x s h hx _ hq => ⟨bookkeeping_step cfg query _ sortedResult i x s h.1 hx hq,
      trace_step cfg query sortedResult _ i x s h.1 h.2 hx hq⟩)
    sortedResult 0 {} (by simp)
    ⟨bookkeeping_init cfg query sortedResult, trace_init cfg query sortedResult _⟩
  exact ⟨j, hj⟩


/-! ## Rankings that hold the query's id at most once -/

theorem unique_of_countP_le_one (query : ImageInfo) :
    ∀ (l : List ImageInfo), l.countP (fun x => decide (x.id = query.id)) ≤ 1 →
      ∀ (i k : Nat) (x y : ImageInfo), l[i]? = some x → l[k]? = some y →
        x.id = query.id → y.id = query.id → i = k := by
  intro l
  induction l with
  | nil => intro _ i k x y hx; simp at hx
  | cons a rest ih =>
    intro h i k x y hx hy hxi hyi
    rw [List.countP_cons] at h
    have hpos : ∀ (n : Nat) (z : ImageInfo), rest[n]? = some z → z.id = query.id →
        0 < rest.countP (fun x => decide (x.id = query.id)) := by
      intro n z hz hzi
      rw [List.countP_pos_iff]
      exact ⟨z, List.mem_iff_getElem?.mpr ⟨n, hz⟩, by simpa using hzi⟩
    cases i with
    | zero =>
      cases k with
      | zero => rfl
      | succ k =>
        simp only [List.getElem?_cons_zero, Option.some.injEq] at hx
        simp only [List.getElem?_cons_succ] at hy
        have := hpos k y hy hyi
        rw [hx] at h
        simp only [hxi, decide_True, if_true] at h
        omega
    | succ i =>
      cases k with
      | zero =>
        simp only [List.getElem?_cons_zero, Option.some.injEq] at hy
        simp only [List.getElem?_cons_succ] at hx
        have := hpos i x hx hxi
        rw [hy] at h
        simp only [hyi, decide_True, if_true] at h
        omega
      | succ k =>
        simp only [List.getElem?_cons_succ] at hx hy
        have := ih (by omega) i k x y hx hy hxi hyi
        omega

theorem once_skip (cfg : Config) (query : ImageInfo) (l0 : List ImageInfo) (m : Dbl)
    (honce : ∀ (i k : Nat) (x y : ImageInfo), l0[i]? = some x → l0[k]? = some y →
      x.id = query.id → y.id = query.id → i = k)
    (i : Nat) (x : ImageInfo) (s : LoopState) (ht : TraceInv cfg query l0 m i s)
    (h : OnceInv cfg query l0 i s) (hx : l0[i]? = some x) (hid : x.id = query.id) :
    OnceInv cfg query l0 (i + 1) { s with wasQueryExcluded := true } := by
  refine ⟨fun _ => ?_, h.2⟩
  have hnot : s.wasQueryExcluded = false := by
    by_contra hw
    simp only [Bool.not_eq_false] at hw
    rw [ht.excluded] at hw
    obtain ⟨k, y, hk, hy, hyi⟩ := skippedBefore_index cfg query l0 i hw
    have := honce k i y x hy hx hyi hid
    omega
  have := ht.noSkip hnot
  simp only
  omega

theorem once_step (cfg : Config) (query : ImageInfo) (l0 : List ImageInfo) (m : Dbl)
    (i : Nat) (x : ImageInfo) (s : LoopState) (ht : TraceInv cfg query l0 m i s)
    (h : OnceInv cfg query l0 i s) :
    OnceInv cfg query l0 (i + 1) (scoreStep query m i x s) := by
  refine ⟨?_, ?_⟩
  · intro hw
    rw [scoreStep_wasQueryExcluded] at hw
    have := h.1 hw
    rw [scoreStep_consumed, List.length_append, List.length_singleton]
    omega
  · intro j k y hj
    rw [scoreStep_consumed] at hj
    rcases Nat.lt_trichotomy j s.consumed.length with hlt | heq | hgt
    · rw [List.getElem?_append_left hlt] at hj
      exact h.2 j k y hj
    · rw [heq, List.getElem?_concat_length] at hj
      simp only [Option.some.injEq, Prod.mk.injEq] at hj
      obtain ⟨hk, _⟩ := hj
      rw [← hk, heq]
      unfold usedDivisor
      rw [← ht.excluded]
      by_cases hw : s.wasQueryExcluded = true
      · rw [if_pos hw]
        have := h.1 hw
        omega
      · rw [if_neg hw]
        have := ht.noSkip (by simpa using hw)
        omega
    · have : (s.consumed ++ [(i, x)])[j]? = none := by
        rw [List.getElem?_eq_none_iff]
        simp only [List.length_append, List.length_singleton]
        omega
      rw [this] at hj
      exact Option.noConfusion hj

/-- For a ranking that holds the query's id at most once, the trace invariant
and `OnceInv` hold when the loop has ended. -/
theorem finalState_once (cfg : Config) (query : ImageInfo) (sortedResult : List ImageInfo)
    (honce : sortedResult.countP (fun x => decide (x.id = query.id)) ≤ 1) :
    ∃ j, TraceInv cfg query sortedResult (adjustedMatches cfg query sortedResult.length) j
        (finalState cfg query sortedResult) ∧
      OnceInv cfg query sortedResult j (finalState cfg query sortedResult) := by
  have hu := unique_of_countP_le_one query sortedResult honce
  obtain ⟨j, _, hj, _⟩ := scoreLoop_invariant cfg query
    (adjustedMatches cfg query sortedResult.length) (resultCount cfg sortedResult.length)
    sortedResult
    (fun i s => Bookkeeping cfg query sortedResult i s ∧
      TraceInv cfg query sortedResult (adjustedMatches cfg query sortedResult.length) i s ∧
      OnceInv cfg query sortedResult i s)
    (fun i x s h hx hex hid => ⟨bookkeeping_skip cfg query sortedResult i s h.1 hex,
      trace_skip cfg query sortedResult _ i x s h.2.1 hx hex hid,
      once_skip cfg query sortedResult _ hu i x s h.2.1 h.2.2 hx hid⟩)
    (fun i x s h hx _ hq => ⟨bookkeeping_step cfg query _ sortedResult i x s h.1 hx hq,
      trace_step cfg query sortedResult _ i x s h.1 h.2.1 hx hq,
      once_step cfg query sortedResult _ i x s h.2.1 h.2.2⟩)
    sortedResult 0 {} (by simp)
    ⟨bookkeeping_init cfg query sortedResult, trace_init cfg query sortedResult _,
      ⟨by simp, fun j k x h => by simp at h⟩⟩
  exact ⟨j, hj.2⟩

/-- The value of `matchCount` at consumed position `j` is at most `j + 1`. -/
theorem matchCountAt_le (query : ImageInfo) (consumed : List (Nat × ImageInfo)) (j : Nat) :
    ∃ c : Nat, matchCountAt query consumed j = Dbl.fin (c : ℚ) ∧ c ≤ j + 1 := by
  refine ⟨sameClassCount query (consumed.take (j + 1)), rfl, ?_⟩
  calc sameClassCount query (consumed.take (j + 1)) ≤ (consumed.take (j + 1)).length :=
        sameClassCount_le_length query _
    _ ≤ j + 1 := by rw [List.length_take]; exact Nat.min_le_left _ _


/-! ## The average precision as a trapezoidal sum -/

/-- Halving a product is halving its second factor, also for the special
values. -/
theorem dbl_mul_div_two (x y : Dbl) :
    (x.mul y).div (Dbl.fin 2) = x.mul (y.div (Dbl.fin 2)) := by
  cases x with
  | fin a =>
    cases y with
    | fin b =>
      simp only [Dbl.mul, Dbl.div]
      norm_num
      ring
    | pinf =>
      rcases lt_trichotomy 0 a with h | h | h
      · simp [Dbl.mul, Dbl.div, Dbl.sign, Dbl.infOfSign, h]
      · subst h; simp [Dbl.mul, Dbl.div, Dbl.sign, Dbl.infOfSign]
      · simp [Dbl.mul, Dbl.div, Dbl.sign, Dbl.infOfSign, h, not_lt.mpr (le_of_lt h)]
    | ninf =>
      rcases lt_trichotomy 0 a with h | h | h
      · simp [Dbl.mul, Dbl.div, Dbl.sign, Dbl.infOfSign, h]
      · subst h; simp [Dbl.mul, Dbl.div, Dbl.sign, Dbl.infOfSign]
      · simp [Dbl.mul, Dbl.div, Dbl.sign, Dbl.infOfSign, h, not_lt.mpr (le_of_lt h)]
    | nan => simp [Dbl.mul, Dbl.div, Dbl.sign]
  | pinf =>
    cases y with
    | fin b =>
      rcases lt_trichotomy 0 b with h | h | h
      · have h2 : (0 : ℚ) < b / 2 := by positivity
        simp [Dbl.mul, Dbl.div, Dbl.sign, Dbl.infOfSign, h, h2]
      · subst h; simp [Dbl.mul, Dbl.div, Dbl.sign, Dbl.infOfSign]
      · have h2 : b / 2 < 0 := by linarith
        simp [Dbl.mul, Dbl.div, Dbl.sign, Dbl.infOfSign, h, h2, not_lt.mpr (le_of_lt h),
          not_lt.mpr (le_of_lt h2)]
    | pinf => simp [Dbl.mul, Dbl.div, Dbl.sign, Dbl.infOfSign]
    | ninf => simp [Dbl.mul, Dbl.div, Dbl.sign, Dbl.infOfSign]
    | nan => simp [Dbl.mul, Dbl.div, Dbl.sign]
  | ninf =>
    cases y with
    | fin b =>
      rcases lt_trichotomy 0 b with h | h | h
      · have h2 : (0 : ℚ) < b / 2 := by positivity
        simp [Dbl.mul, Dbl.div, Dbl.sign, Dbl.infOfSign, h, h2]
      · subst h; simp [Dbl.mul, Dbl.div, Dbl.sign, Dbl.infOfSign]
      · have h2 : b / 2 < 0 := by linarith
        simp [Dbl.mul, Dbl.div, Dbl.sign, Dbl.infOfSign, h, h2, not_lt.mpr (le_of_lt h),
          not_lt.mpr (le_of_lt h2)]
    | pinf => simp [Dbl.mul, Dbl.div, Dbl.sign, Dbl.infOfSign]
    | ninf => simp [Dbl.mul, Dbl.div, Dbl.sign, Dbl.infOfSign]
    | nan => simp [Dbl.mul, Dbl.div, Dbl.sign]
  | nan =>
    cases y <;> simp [Dbl.mul, Dbl.div, Dbl.sign]

theorem lastOr_append_single {α : Type} (l : List α) :
    ∀ (prev x : α), lastOr prev (l ++ [x]) = x := by
  induction l with
  | nil => intro prev x; rfl
  | cons y rest ih => intro prev x; exact ih y x

theorem trapezoidTerms_append (l : List (Dbl × Dbl)) :
    ∀ (P R p r : Dbl), trapezoidTerms P R (l ++ [(p, r)]) = trapezoidTerms P R l ++
      [((r.sub (lastOr (P, R) l).2).mul (p.add (lastOr (P, R) l).1)).div (Dbl.fin 2)] := by
  induction l with
  | nil => intro P R p r; rfl
  | cons y rest ih =>
    intro P R p r
    obtain ⟨p0, r0⟩ := y
    show ((r0.sub R).mul (p0.add P)).div (Dbl.fin 2) ::
      trapezoidTerms p0 r0 (rest ++ [(p, r)]) = _
    rw [ih p0 r0 p r]
    rfl

theorem trapezoidTerms_length (l : List (Dbl × Dbl)) :
    ∀ (P R : Dbl), (trapezoidTerms P R l).length = l.length := by
  induction l with
  | nil => intro P R; rfl
  | cons y rest ih =>
    intro P R
    obtain ⟨p0, r0⟩ := y
    simp only [trapezoidTerms, List.length_cons, ih p0 r0]

theorem dbl_sum_append_single (l : List Dbl) (t : Dbl) :
    Dbl.sum (l ++ [t]) = (Dbl.sum l).add t := by
  simp [Dbl.sum, List.foldl_append]

theorem trap_step (query : ImageInfo) (m : Dbl) (i : Nat) (x : ImageInfo) (s : LoopState)
    (h : TrapInv s) : TrapInv (scoreStep query m i x s) := by
  obtain ⟨ha, hl⟩ := h
  have hprv : (scoreStep query m i x s).precisionRecallValues = s.precisionRecallValues ++
      [((scoreStep query m i x s).precision_, (scoreStep query m i x s).recall_)] := rfl
  have hap : (scoreStep query m i x s).averagePrecision = s.averagePrecision.add
      (((scoreStep query m i x s).recall_.sub s.oldRecall).mul
        ((s.oldPrecision.add (scoreStep query m i x s).precision_).div (Dbl.fin 2))) := rfl
  constructor
  · unfold trapezoidalSum
    rw [hprv, trapezoidTerms_append, dbl_sum_append_single, ← hl]
    simp only
    rw [dbl_mul_div_two, dbl_add_comm (scoreStep query m i x s).precision_ s.oldPrecision, hap,
      ha]
    rfl
  · rw [hprv, lastOr_append_single]
    rfl

/-- When the loop has ended, the accumulated average precision is the
trapezoidal sum of the recorded samples. -/
theorem finalState_trap (cfg : Config) (query : ImageInfo) (sortedResult : List ImageInfo) :
    TrapInv (finalState cfg query sortedResult) := by
  obtain ⟨j, _, hj, _⟩ := scoreLoop_invariant cfg query
    (adjustedMatches cfg query sortedResult.length) (resultCount cfg sortedResult.length)
    sortedResult (fun _ s => TrapInv s)
    (fun i x s h _ _ _ => h)
    (fun i x s h _ _ _ => trap_step query _ i x s h)
    sortedResult 0 {} (by simp) ⟨by simp [trapezoidalSum, trapezoidTerms, Dbl.sum], rfl⟩
  exact hj


/-! ## The closed form of the average precision -/

theorem matchingSum_append (l : List (ℚ × Bool)) :
    ∀ (prev p : ℚ) (b : Bool), matchingSum prev (l ++ [(p, b)]) =
      matchingSum prev l + (if b then (p + lastOr prev (l.map Prod.fst)) / 2 else 0) := by
  induction l with
  | nil => intro prev p b; simp [matchingSum, lastOr]
  | cons y rest ih =>
    intro prev p b
    obtain ⟨p0, b0⟩ := y
    show (if b0 = true then (p0 + prev) / 2 else 0) + matchingSum p0 (rest ++ [(p, b)]) = _
    rw [ih p0 p b]
    simp only [matchingSum, List.map_cons, lastOr]
    ring

theorem matchFlags_append_single (query : ImageInfo) (c : List (Nat × ImageInfo)) (i : Nat)
    (x : ImageInfo) :
    matchFlags query (c ++ [(i, x)]) =
      matchFlags query c ++ [decide (x.classId = query.classId)] := by
  simp [matchFlags]

theorem matchFlags_length (query : ImageInfo) (c : List (Nat × ImageInfo)) :
    (matchFlags query c).length = c.length := by
  simp [matchFlags]

theorem closed_step (cfg : Config) (query : ImageInfo) (m : ℚ) (hm : m ≠ 0)
    (l0 : List ImageInfo) (i : Nat) (x : ImageInfo) (s : LoopState)
    (hb : Bookkeeping cfg query l0 i s) (ht : TrapInv s) (h : ClosedInv query m s) :
    ClosedInv query m (scoreStep query (Dbl.fin m) i x s) := by
  obtain ⟨ps, hps, hlen, ha, hp, hr, hz⟩ := h
  have hi : s.wasQueryExcluded = true → 1 ≤ i := fun hw => by
    have := hb.lt_index hw; omega
  have hlast : lastOr (Dbl.fin 1, Dbl.fin 0) s.precisionRecallValues =
      (Dbl.fin (lastOr 1 ps), Dbl.fin ((sameClassCount query s.consumed : ℚ) / m)) := by
    rw [← ht.2, hp, hr]
  have hzl : ps.length = (matchFlags query s.consumed).length := by
    rw [matchFlags_length, hlen]
  have htl : (trapezoidTerms (Dbl.fin 1) (Dbl.fin 0) s.precisionRecallValues).length =
      (matchFlags query s.consumed).length := by
    rw [trapezoidTerms_length, matchFlags_length, hb.len]
  rw [scoreStep_fin query m i x s _ _ _ _ hm hb.count ha hp hr hi]
  set c : ℚ := (sameClassCount query s.consumed : ℚ) with hcdef
  set c1 : ℚ := stepCount query x c with hc1def
  set d : ℚ := stepDivisor s i with hddef
  refine ⟨ps ++ [c1 / d], ?_, ?_, ?_, ?_, ?_, ?_⟩
  · simp only [List.map_append, List.map_cons, List.map_nil, hps]
  · simp only [List.length_append, List.length_singleton, hlen]
  · simp only [matchFlags_append_single]
    rw [List.zip_append hzl]
    unfold closedForm
    simp only [List.zip_cons_cons, List.zip_nil_right]
    rw [matchingSum_append, List.map_fst_zip _ _ (le_of_eq hzl)]
    congr 1
    by_cases hx : x.classId = query.classId
    · have h1 : c1 = c + 1 := by simp [hc1def, stepCount, hx]
      simp only [hx, decide_True, if_true, h1, closedForm]
      field_simp
      ring
    · have h1 : c1 = c := by simp [hc1def, stepCount, hx]
      simp only [hx, decide_False, h1, closedForm]
      simp
  · simp only [lastOr_append_single]
  · simp only [hc1def, hcdef, stepCount_sameClassCount]
  · simp only [matchFlags_append_single, trapezoidTerms_append, hlast]
    rw [List.zip_append htl]
    intro t hmem hfalse
    simp only [List.zip_cons_cons, List.zip_nil_right, List.mem_append, List.mem_singleton]
      at hmem
    rcases hmem with hmem | hmem
    · exact hz t hmem hfalse
    · rw [hmem] at hfalse ⊢
      simp only [decide_eq_false_iff_not] at hfalse
      have h1 : c1 = c := by simp [hc1def, stepCount, hfalse]
      simp only [h1, Dbl.sub_fin, Dbl.add_fin, Dbl.mul_fin, Dbl.div_fin_two]
      congr 1
      ring

/-- For a non-zero adjusted match count the closed form holds when the loop
has ended. -/
theorem finalState_closed (cfg : Config) (query : ImageInfo) (sortedResult : List ImageInfo)
    (m : ℚ) (hm : adjustedMatches cfg query sortedResult.length = Dbl.fin m) (hne : m ≠ 0) :
    ClosedInv query m (finalState cfg query sortedResult) := by
  unfold finalState
  rw [hm]
  obtain ⟨j, _, hj, _⟩ := scoreLoop_invariant cfg query (Dbl.fin m)
    (resultCount cfg sortedResult.length) sortedResult
    (fun i s => Bookkeeping cfg query sortedResult i s ∧ TrapInv s ∧ ClosedInv query m s)
    (fun i x s h _ hex _ => ⟨bookkeeping_skip cfg query sortedResult i s h.1 hex, h.2.1, h.2.2⟩)
    (fun i x s h hx _ hq => ⟨bookkeeping_step cfg query (Dbl.fin m) sortedResult i x s h.1 hx hq,
      trap_step query _ i x s h.2.1,
      closed_step cfg query m hne sortedResult i x s h.1 h.2.1 h.2.2⟩)
    sortedResult 0 {} (by simp)
    ⟨bookkeeping_init cfg query sortedResult,
      ⟨by simp [trapezoidalSum, trapezoidTerms, Dbl.sum], rfl⟩,
      ⟨[], rfl, rfl, by simp [closedForm, matchingSum, matchFlags], rfl,
        by simp [sameClassCount], fun t ht => by simp [trapezoidTerms] at ht⟩⟩
  exact hj.2.2


theorem mixed_finalState :
    finalState scenarioConfig scenarioQuery mixedRanking =
      { oldRecall := Dbl.fin 1
        oldPrecision := Dbl.fin (1 / 3)
        recall_ := Dbl.fin 1
        precision_ := Dbl.fin (1 / 3)
        averagePrecision := Dbl.fin (1 / 4)
        matchCount := Dbl.fin 1
        wasQueryExcluded := true
        precisionRecallValues :=
          [(Dbl.fin 0, Dbl.fin 0), (Dbl.fin (1 / 2), Dbl.fin 1), (Dbl.fin (1 / 3), Dbl.fin 1)]
        consumed := [(1, scenarioItem 3 8 false 2 1), (2, scenarioItem 1 7 false 2 2),
          (3, scenarioItem 2 8 false 2 3)] } := by
  simp [finalState, scenarioConfig, scenarioQuery, mixedRanking, scenarioItem, resultCount,
    scoreLoop, scoreStep, adjustedMatches, matchesBeforeTopK, Dbl.ofInt, Dbl.div]
  norm_num

theorem mixed_adjustedMatches :
    adjustedMatches scenarioConfig scenarioQuery mixedRanking.length = Dbl.fin 1 := by
  simp [adjustedMatches, matchesBeforeTopK, scenarioConfig, scenarioQuery, scenarioItem,
    Dbl.ofInt]
  norm_num


/-! ## The cosine distance in real arithmetic -/

/-- Over the rationals `cosineDistanceIn` is `cosineDistance`: where it has a
value, `cosineDistance` returns that value as a finite double. -/
theorem cosineDistanceIn_rat (sqrt : ℚ → ℚ) (a b : List ℚ) (v : ℚ)
    (h : cosineDistanceIn sqrt a b = Except.ok (some v)) :
    cosineDistance sqrt a b = Except.ok (Dbl.fin v) := by
  unfold cosineDistanceIn at h
  by_cases hl : a.length = b.length
  · rw [if_pos hl] at h
    simp only at h
    by_cases hd : cvNormIn sqrt a * cvNormIn sqrt b = 0
    · rw [if_pos hd] at h
      simp at h
    · rw [if_neg hd] at h
      simp only [Except.ok.injEq, Option.some.injEq] at h
      have hd1 : cvNorm sqrt a * cvNorm sqrt b ≠ 0 := hd
      rw [cosineDistance_eq sqrt a b hl, Dbl.div_fin _ _ hd1, Dbl.sub_fin, ← h]
      rfl
  · rw [if_neg hl] at h
    exact Except.noConfusion h

theorem sum_squares_nonneg (a : List ℝ) : 0 ≤ (a.map (fun x => x * x)).sum := by
  induction a with
  | nil => simp
  | cons x a ih =>
    simp only [List.map_cons, List.sum_cons]
    exact add_nonneg (mul_self_nonneg x) ih

theorem sum_squares_eq_zero_iff (a : List ℝ) :
    (a.map (fun x => x * x)).sum = 0 ↔ ∀ x ∈ a, x = 0 := by
  induction a with
  | nil => simp
  | cons x a ih =>
    simp only [List.map_cons, List.sum_cons, List.mem_cons, forall_eq_or_imp]
    rw [← ih]
    constructor
    · intro h
      have h1 := mul_self_nonneg x
      have h2 := sum_squares_nonneg a
      have hx : x * x = 0 := by linarith
      exact ⟨mul_self_eq_zero.mp hx, by linarith⟩
    · rintro ⟨hx, hs⟩
      rw [hx, hs]
      simp

/-- In real arithmetic the cosine distance of a vector of non-zero norm to
itself is 0. -/
theorem cosineDistanceIn_self (a : List ℝ) (h : cvNormIn Real.sqrt a ≠ 0) :
    cosineDistanceIn Real.sqrt a a = Except.ok (some 0) := by
  have hdot : List.zipWith (fun x y => x * y) a a = a.map (fun x => x * x) := by
    induction a with
    | nil => rfl
    | cons x a ih => simp
  have hsq : cvNormIn Real.sqrt a * cvNormIn Real.sqrt a = (a.map (fun x => x * x)).sum :=
    Real.mul_self_sqrt (sum_squares_nonneg a)
  have hne : cvNormIn Real.sqrt a * cvNormIn Real.sqrt a ≠ 0 := mul_ne_zero h h
  unfold cosineDistanceIn
  rw [if_pos rfl]
  simp only
  rw [if_neg hne, hdot, hsq, div_self (by rw [← hsq]; exact hne), sub_self]


/-! ## `std::sort` as libstdc++ implements it: permutation, order, ties -/

/-! ### The output is a rearrangement of the input -/

theorem iter_swap_perm {α : Type} (arr : List α) (i j : Nat) : (iter_swap arr i j).Perm arr := by
  unfold iter_swap
  cases hi : arr[i]? with
  | none => exact List.Perm.refl _
  | some x =>
    cases hj : arr[j]? with
    | none => exact List.Perm.refl _
    | some y =>
      simp only
      classical
      rw [List.perm_iff_count]
      intro a
      obtain ⟨hil, hix⟩ := List.getElem?_eq_some_iff.mp hi
      obtain ⟨hjl, hjy⟩ := List.getElem?_eq_some_iff.mp hj
      have hjl2 : j < (arr.set i y).length := by simpa using hjl
      have hy : (arr.set i y)[j] = y := by
        by_cases hij : i = j
        · subst hij; simp
        · rw [List.getElem_set_ne hij]; exact hjy
      rw [List.count_set _ _ _ _ hjl2, List.count_set _ _ _ _ hil, hy, hix]
      have hle : (if (x == a) = true then 1 else 0) ≤ arr.count a := by
        by_cases hxa : (x == a) = true
        · rw [if_pos hxa]
          have : x = a := by simpa using hxa
          subst this
          exact List.count_pos_iff.mpr (hix ▸ List.getElem_mem _)
        · rw [if_neg hxa]; exact Nat.zero_le _
      omega

theorem move_median_to_first_perm {α : Type} (lt : α → α → Bool) (arr : List α)
    (result a b c : Nat) : (move_median_to_first lt arr result a b c).Perm arr := by
  unfold move_median_to_first
  split_ifs <;> exact iter_swap_perm _ _ _

theorem unguarded_partition_perm {α : Type} (lt : α → α → Bool) (pivot : Nat) (fuel : Nat) :
    ∀ (arr : List α) (first last : Nat),
      (unguarded_partition lt pivot fuel arr first last).1.Perm arr := by
  induction fuel with
  | zero => intro arr first last; exact List.Perm.refl _
  | succ fuel ih =>
    intro arr first last
    simp only [unguarded_partition]
    split_ifs
    · exact (ih _ _ _).trans (iter_swap_perm _ _ _)
    · exact List.Perm.refl _

theorem unguarded_partition_pivot_perm {α : Type} (lt : α → α → Bool) (arr : List α)
    (first last : Nat) : (unguarded_partition_pivot lt arr first last).1.Perm arr :=
  (unguarded_partition_perm lt first _ _ _ _).trans (move_median_to_first_perm lt arr _ _ _ _)

theorem push_heap_perm {α : Type} (lt : α → α → Bool) (first topIndex : Nat) (fuel : Nat) :
    ∀ (arr : List α) (holeIndex : Nat),
      (push_heap lt first topIndex fuel arr holeIndex).Perm arr := by
  induction fuel with
  | zero => intro arr holeIndex; exact List.Perm.refl _
  | succ fuel ih =>
    intro arr holeIndex
    simp only [push_heap]
    split_ifs
    · exact (ih _ _).trans (iter_swap_perm _ _ _)
    · exact List.Perm.refl _

theorem adjust_heap_loop_perm {α : Type} (lt : α → α → Bool) (first len : Nat) (fuel : Nat) :
    ∀ (arr : List α) (holeIndex secondChild : Nat),
      (adjust_heap_loop lt first len fuel arr holeIndex secondChild).1.Perm arr := by
  induction fuel with
  | zero => intro arr holeIndex secondChild; exact List.Perm.refl _
  | succ fuel ih =>
    intro arr holeIndex secondChild
    simp only [adjust_heap_loop]
    split_ifs
    · exact (ih _ _ _).trans (iter_swap_perm _ _ _)
    · exact (ih _ _ _).trans (iter_swap_perm _ _ _)
    · exact List.Perm.refl _

theorem adjust_heap_perm {α : Type} (lt : α → α → Bool) (arr : List α)
    (first holeIndex len : Nat) : (adjust_heap lt arr first holeIndex len).Perm arr := by
  unfold adjust_heap
  refine (push_heap_perm lt first holeIndex len _ _).trans ?_
  split_ifs
  · exact (iter_swap_perm _ _ _).trans (adjust_heap_loop_perm lt first len len arr _ _)
  · exact adjust_heap_loop_perm lt first len len arr _ _

theorem pop_heap_perm {α : Type} (lt : α → α → Bool) (arr : List α) (first last result : Nat) :
    (pop_heap lt arr first last result).Perm arr :=
  (adjust_heap_perm lt _ _ _ _).trans (iter_swap_perm _ _ _)

theorem make_heap_loop_perm {α : Type} (lt : α → α → Bool) (first len : Nat) (parent : Nat) :
    ∀ arr : List α, (make_heap_loop lt first len arr parent).Perm arr := by
  induction parent with
  | zero => intro arr; exact adjust_heap_perm lt _ _ _ _
  | succ parent ih =>
    intro arr
    exact (ih _).trans (adjust_heap_perm lt _ _ _ _)

theorem make_heap_perm {α : Type} (lt : α → α → Bool) (arr : List α) (first last : Nat) :
    (make_heap lt arr first last).Perm arr := by
  unfold make_heap
  split_ifs
  · exact List.Perm.refl _
  · exact make_heap_loop_perm lt _ _ _ _

theorem heap_select_perm {α : Type} (lt : α → α → Bool) (arr : List α)
    (first middle last : Nat) : (heap_select lt arr first middle last).Perm arr := by
  unfold heap_select
  have h : ∀ (is : List Nat) (a : List α),
      (is.foldl (fun arr i => if compAt lt arr i first then pop_heap lt arr first middle i
        else arr) a).Perm a := by
    intro is
    induction is with
    | nil => intro a; exact List.Perm.refl _
    | cons i is ih =>
      intro a
      simp only [List.foldl_cons]
      refine (ih _).trans ?_
      split_ifs
      · exact pop_heap_perm lt _ _ _ _
      · exact List.Perm.refl _
  exact (h _ _).trans (make_heap_perm lt arr first middle)

theorem sort_heap_perm {α : Type} (lt : α → α → Bool) (first : Nat) (fuel : Nat) :
    ∀ (arr : List α) (last : Nat), (sort_heap lt first fuel arr last).Perm arr := by
  induction fuel with
  | zero => intro arr last; exact List.Perm.refl _
  | succ fuel ih =>
    intro arr last
    simp only [sort_heap]
    split_ifs
    · exact (ih _ _).trans (pop_heap_perm lt _ _ _ _)
    · exact List.Perm.refl _

theorem partial_sort_perm {α : Type} (lt : α → α → Bool) (arr : List α)
    (first middle last : Nat) : (partial_sort lt arr first middle last).Perm arr :=
  (sort_heap_perm lt first _ _ _).trans (heap_select_perm lt arr first middle last)

theorem introsort_loop_perm {α : Type} (lt : α → α → Bool) (depth_limit : Nat) :
    ∀ (arr : List α) (first last : Nat),
      (introsort_loop lt depth_limit arr first last).Perm arr := by
  induction depth_limit with
  | zero =>
    intro arr first last
    simp only [introsort_loop]
    split_ifs
    · exact partial_sort_perm lt _ _ _ _
    · exact List.Perm.refl _
  | succ depth_limit ih =>
    intro arr first last
    simp only [introsort_loop]
    split_ifs
    · exact (ih _ _ _).trans ((ih _ _ _).trans (unguarded_partition_pivot_perm lt _ _ _))
    · exact List.Perm.refl _

theorem unguarded_linear_insert_perm {α : Type} (lt : α → α → Bool) (val : α) :
    ∀ before : List α, (unguarded_linear_insert lt val before).Perm (val :: before) := by
  intro before
  induction before with
  | nil => exact List.Perm.refl _
  | cons next before ih =>
    simp only [unguarded_linear_insert]
    split_ifs
    · exact ((ih).cons next).trans (List.Perm.swap val next before)
    · exact List.Perm.refl _

theorem insertion_sort_step_perm {α : Type} (lt : α → α → Bool) (before : List α) (val : α) :
    (insertion_sort_step lt before val).Perm (val :: before) := by
  unfold insertion_sort_step
  cases h : before.getLast? with
  | none =>
    have : before = [] := List.getLast?_eq_none_iff.mp h
    subst this
    exact List.Perm.refl _
  | some first =>
    simp only
    split_ifs
    · exact List.perm_append_singleton val before
    · exact unguarded_linear_insert_perm lt val before

theorem foldl_step_perm {α : Type} (step : List α → α → List α)
    (hstep : ∀ before val, (step before val).Perm (val :: before)) :
    ∀ (rest before : List α), (rest.foldl step before).Perm (before ++ rest) := by
  intro rest
  induction rest with
  | nil => intro before; simp
  | cons val rest ih =>
    intro before
    simp only [List.foldl_cons]
    refine (ih _).trans ?_
    refine ((hstep before val).append_right rest).trans ?_
    simp only [List.cons_append]
    exact List.perm_middle.symm

theorem insertion_sort_perm {α : Type} (lt : α → α → Bool) (l : List α) :
    (insertion_sort lt l).Perm l := by
  unfold insertion_sort
  cases l with
  | nil => exact List.Perm.refl _
  | cons x rest =>
    simp only
    exact (List.reverse_perm _).trans
      (foldl_step_perm _ (insertion_sort_step_perm lt) rest [x])

theorem final_insertion_sort_perm {α : Type} (lt : α → α → Bool) (l : List α) :
    (final_insertion_sort lt l).Perm l := by
  unfold final_insertion_sort
  split_ifs
  · refine (List.reverse_perm _).trans ?_
    refine (foldl_step_perm (fun before val => unguarded_linear_insert lt val before)
      (fun before val => unguarded_linear_insert_perm lt val before) _ _).trans ?_
    refine (((List.reverse_perm _).trans (insertion_sort_perm lt _)).append_right _).trans ?_
    rw [List.take_append_drop]
  · exact insertion_sort_perm lt l

theorem stdSort_perm {α : Type} (lt : α → α → Bool) (l : List α) : (stdSort lt l).Perm l := by
  unfold stdSort
  split_ifs
  · exact (final_insertion_sort_perm lt _).trans (introsort_loop_perm lt _ _ _ _)
  · exact List.Perm.refl _


/-! ### The output is ascending -/

theorem unguarded_linear_insert_sorted {α : Type} (lt : α → α → Bool) (S : α → Prop)
    (hasymm : ∀ x y, lt x y = true → lt y x = false)
    (hneg : ∀ x y z, S x → S y → S z → lt x y = false → lt y z = false → lt x z = false)
    (val : α) (hval : S val) :
    ∀ before : List α, (∀ z ∈ before, S z) →
      before.Pairwise (fun x y => lt x y = false) →
      (unguarded_linear_insert lt val before).Pairwise (fun x y => lt x y = false) := by
  intro before
  induction before with
  | nil => intro _ _; simp [unguarded_linear_insert]
  | cons next before ih =>
    intro hS hp
    have hp2 := List.pairwise_cons.mp hp
    simp only [unguarded_linear_insert]
    by_cases h : lt val next = true
    · rw [if_pos h]
      refine List.pairwise_cons.mpr ⟨?_, ih (fun z hz => hS z (List.mem_cons_of_mem _ hz)) hp2.2⟩
      intro z hz
      have hz2 := (unguarded_linear_insert_perm lt val before).mem_iff.mp hz
      rcases List.mem_cons.mp hz2 with hz3 | hz3
      · rw [hz3]; exact hasymm _ _ h
      · exact hp2.1 z hz3
    · rw [if_neg h]
      have h2 : lt val next = false := by simpa using h
      refine List.pairwise_cons.mpr ⟨?_, hp⟩
      intro z hz
      rcases List.mem_cons.mp hz with hz3 | hz3
      · rw [hz3]; exact h2
      · exact hneg val next z hval (hS next (List.mem_cons_self _ _))
          (hS z (List.mem_cons_of_mem _ hz3)) h2 (hp2.1 z hz3)

theorem lt_irrefl_of_asymm {α : Type} (lt : α → α → Bool)
    (hasymm : ∀ x y, lt x y = true → lt y x = false) (x : α) : lt x x = false := by
  cases h : lt x x with
  | false => rfl
  | true => have := hasymm x x h; rw [h] at this; exact this

theorem insertion_sort_step_sorted {α : Type} (lt : α → α → Bool) (S : α → Prop)
    (hasymm : ∀ x y, lt x y = true → lt y x = false)
    (hneg : ∀ x y z, S x → S y → S z → lt x y = false → lt y z = false → lt x z = false)
    (val : α) (hval : S val) (before : List α) (hS : ∀ z ∈ before, S z)
    (hp : before.Pairwise (fun x y => lt x y = false)) :
    (insertion_sort_step lt before val).Pairwise (fun x y => lt x y = false) := by
  unfold insertion_sort_step
  cases h : before.getLast? with
  | none => simp
  | some first =>
    simp only
    by_cases hlt : lt val first = true
    · rw [if_pos hlt]
      rw [List.pairwise_append]
      refine ⟨hp, List.pairwise_singleton _ _, ?_⟩
      intro z hz w hw
      rw [List.mem_singleton.mp hw]
      obtain ⟨init, hinit⟩ : ∃ init, before = init ++ [first] := by
        rcases List.getLast?_eq_some_iff.mp h with ⟨init, hinit⟩
        exact ⟨init, hinit⟩
      have hzf : lt z first = false := by
        rw [hinit] at hz hp
        rcases List.mem_append.mp hz with hz1 | hz1
        · exact (List.pairwise_append.mp hp).2.2 z hz1 first (List.mem_singleton_self _)
        · rw [List.mem_singleton.mp hz1]; exact lt_irrefl_of_asymm lt hasymm first
      have hfirst : first ∈ before := by rw [hinit]; simp
      exact hneg z first val (hS z hz) (hS first hfirst) hval hzf (hasymm _ _ hlt)
    · rw [if_neg hlt]
      exact unguarded_linear_insert_sorted lt S hasymm hneg val hval before hS hp

theorem foldl_step_sorted {α : Type} (lt : α → α → Bool) (S : α → Prop)
    (step : List α → α → List α)
    (hperm : ∀ before val, (step before val).Perm (val :: before))
    (hstep : ∀ before val, S val → (∀ z ∈ before, S z) →
      before.Pairwise (fun x y => lt x y = false) →
      (step before val).Pairwise (fun x y => lt x y = false)) :
    ∀ (rest before : List α), (∀ z ∈ rest, S z) → (∀ z ∈ before, S z) →
      before.Pairwise (fun x y => lt x y = false) →
      (rest.foldl step before).Pairwise (fun x y => lt x y = false) := by
  intro rest
  induction rest with
  | nil => intro before _ _ hp; exact hp
  | cons val rest ih =>
    intro before hrest hS hp
    simp only [List.foldl_cons]
    refine ih _ (fun z hz => hrest z (List.mem_cons_of_mem _ hz)) ?_
      (hstep before val (hrest val (List.mem_cons_self _ _)) hS hp)
    intro z hz
    rcases List.mem_cons.mp ((hperm before val).mem_iff.mp hz) with hz1 | hz1
    · rw [hz1]; exact hrest val (List.mem_cons_self _ _)
    · exact hS z hz1

theorem insertion_sort_sorted {α : Type} (lt : α → α → Bool) (S : α → Prop)
    (hasymm : ∀ x y, lt x y = true → lt y x = false)
    (hneg : ∀ x y z, S x → S y → S z → lt x y = false → lt y z = false → lt x z = false)
    (l : List α) (hS : ∀ z ∈ l, S z) :
    (insertion_sort lt l).reverse.Pairwise (fun x y => lt x y = false) := by
  unfold insertion_sort
  cases l with
  | nil => simp
  | cons x rest =>
    simp only [List.reverse_reverse]
    exact foldl_step_sorted lt S (insertion_sort_step lt) (insertion_sort_step_perm lt)
      (fun before val hval hb hp => insertion_sort_step_sorted lt S hasymm hneg val hval before hb hp)
      rest [x] (fun z hz => hS z (List.mem_cons_of_mem _ hz))
      (fun z hz => by rw [List.mem_singleton.mp hz]; exact hS x (List.mem_cons_self _ _))
      (List.pairwise_singleton _ _)

theorem final_insertion_sort_sorted {α : Type} (lt : α → α → Bool) (S : α → Prop)
    (hasymm : ∀ x y, lt x y = true → lt y x = false)
    (hneg : ∀ x y z, S x → S y → S z → lt x y = false → lt y z = false → lt x z = false)
    (l : List α) (hS : ∀ z ∈ l, S z) :
    (final_insertion_sort lt l).Pairwise (fun a b => lt b a = false) := by
  rw [← List.pairwise_reverse]
  unfold final_insertion_sort
  split_ifs
  · rw [List.reverse_reverse]
    refine foldl_step_sorted lt S (fun before val => unguarded_linear_insert lt val before)
      (fun before val => unguarded_linear_insert_perm lt val before)
      (fun before val hval hb hp =>
        unguarded_linear_insert_sorted lt S hasymm hneg val hval before hb hp)
      _ _ (fun z hz => hS z (List.mem_of_mem_drop hz)) ?_
      (insertion_sort_sorted lt S hasymm hneg _ (fun z hz => hS z (List.mem_of_mem_take hz)))
    intro z hz
    exact hS z (List.mem_of_mem_take
      ((insertion_sort_perm lt _).mem_iff.mp (List.mem_reverse.mp hz)))
  · exact insertion_sort_sorted lt S hasymm hneg l hS

theorem stdSort_sorted {α : Type} (lt : α → α → Bool) (S : α → Prop)
    (hasymm : ∀ x y, lt x y = true → lt y x = false)
    (hneg : ∀ x y z, S x → S y → S z → lt x y = false → lt y z = false → lt x z = false)
    (l : List α) (hS : ∀ z ∈ l, S z) :
    (stdSort lt l).Pairwise (fun a b => lt b a = false) := by
  unfold stdSort
  split_ifs with h
  · exact final_insertion_sort_sorted lt S hasymm hneg _
      (fun z hz => hS z ((introsort_loop_perm lt _ _ _ _).mem_iff.mp hz))
  · have : l = [] := List.length_eq_zero.mp (by simpa using h)
    subst this; exact List.Pairwise.nil

theorem imageInfo_lt_asymm (x y : ImageInfo) (h : ImageInfo.lt x y = true) :
    ImageInfo.lt y x = false := by
  unfold ImageInfo.lt at h ⊢
  cases hx : x.distance <;> cases hy : y.distance <;> simp [hx, hy, Dbl.lt] at h ⊢
  exact le_of_lt h

theorem imageInfo_lt_neg_trans (x y z : ImageInfo) (hy : y.distance ≠ Dbl.nan)
    (h1 : ImageInfo.lt x y = false) (h2 : ImageInfo.lt y z = false) :
    ImageInfo.lt x z = false := by
  unfold ImageInfo.lt at h1 h2 ⊢
  cases hx : x.distance <;> cases hyy : y.distance <;> cases hz : z.distance <;>
    simp [hx, hyy, hz, Dbl.lt] at h1 h2 hy ⊢
  exact le_trans h2 h1

/-- The `std::sort` of libstdc++ returns a rearrangement of its input in which
no later element is less than an earlier one, when no distance is NaN. -/
theorem stdSort_ascending (l : List ImageInfo) (hnan : ∀ x ∈ l, x.distance ≠ Dbl.nan) :
    (stdSort ImageInfo.lt l).Perm l ∧
    (stdSort ImageInfo.lt l).Pairwise (fun a b => ImageInfo.lt b a = false) :=
  ⟨stdSort_perm _ l, stdSort_sorted ImageInfo.lt (fun x => x.distance ≠ Dbl.nan)
    imageInfo_lt_asymm (fun x y z _ hy _ h1 h2 => imageInfo_lt_neg_trans x y z hy h1 h2) l hnan⟩


/-- The `std::sort` of libstdc++ keeps the contract `StdSortContract`. -/
theorem stdSort_contract : StdSortContract (stdSort ImageInfo.lt) :=
  fun l hnan => stdSort_ascending l hnan

/-! ### Inputs of at most 16 elements keep the order of equal elements -/

theorem unguarded_linear_insert_stable (val : ImageInfo) :
    ∀ before : List ImageInfo, (∀ z ∈ before, z.distance ≠ Dbl.nan) →
      (∀ z ∈ before, z.id < val.id) →
      before.Pairwise (fun x y => ImageInfo.lt x y = false ∧
        (y.distance = x.distance → y.id < x.id)) →
      (unguarded_linear_insert ImageInfo.lt val before).Pairwise
        (fun x y => ImageInfo.lt x y = false ∧ (y.distance = x.distance → y.id < x.id)) := by
  intro before
  induction before with
  | nil => intro _ _ _; simp [unguarded_linear_insert]
  | cons next before ih =>
    intro hnan hid hp
    have hp2 := List.pairwise_cons.mp hp
    simp only [unguarded_linear_insert]
    by_cases h : ImageInfo.lt val next = true
    · rw [if_pos h]
      refine List.pairwise_cons.mpr ⟨?_, ih (fun z hz => hnan z (List.mem_cons_of_mem _ hz))
        (fun z hz => hid z (List.mem_cons_of_mem _ hz)) hp2.2⟩
      intro z hz
      have hz2 := (unguarded_linear_insert_perm ImageInfo.lt val before).mem_iff.mp hz
      rcases List.mem_cons.mp hz2 with hz3 | hz3
      · rw [hz3]
        refine ⟨imageInfo_lt_asymm _ _ h, fun heq => ?_⟩
        exfalso
        unfold ImageInfo.lt at h
        rw [heq] at h
        have := imageInfo_lt_asymm next next (by unfold ImageInfo.lt; exact h)
        unfold ImageInfo.lt at this
        rw [h] at this
        exact Bool.noConfusion this
      · exact hp2.1 z hz3
    · rw [if_neg h]
      have h2 : ImageInfo.lt val next = false := by simpa using h
      refine List.pairwise_cons.mpr ⟨?_, hp⟩
      intro z hz
      refine ⟨?_, fun _ => hid z hz⟩
      rcases List.mem_cons.mp hz with hz3 | hz3
      · rw [hz3]; exact h2
      · exact imageInfo_lt_neg_trans val next z (hnan next (List.mem_cons_self _ _)) h2
          (hp2.1 z hz3).1

theorem insertion_sort_step_stable (val : ImageInfo) (before : List ImageInfo)
    (hnan : ∀ z ∈ before, z.distance ≠ Dbl.nan) (hid : ∀ z ∈ before, z.id < val.id)
    (hp : before.Pairwise (fun x y => ImageInfo.lt x y = false ∧
      (y.distance = x.distance → y.id < x.id))) :
    (insertion_sort_step ImageInfo.lt before val).Pairwise
      (fun x y => ImageInfo.lt x y = false ∧ (y.distance = x.distance → y.id < x.id)) := by
  unfold insertion_sort_step
  cases h : before.getLast? with
  | none => simp
  | some first =>
    simp only
    by_cases hlt : ImageInfo.lt val first = true
    · rw [if_pos hlt]
      rw [List.pairwise_append]
      refine ⟨hp, List.pairwise_singleton _ _, ?_⟩
      intro z hz w hw
      rw [List.mem_singleton.mp hw]
      obtain ⟨init, hinit⟩ : ∃ init, before = init ++ [first] := by
        rcases List.getLast?_eq_some_iff.mp h with ⟨init, hinit⟩
        exact ⟨init, hinit⟩
      have hzf : ImageInfo.lt z first = false := by
        rw [hinit] at hz hp
        rcases List.mem_append.mp hz with hz1 | hz1
        · exact ((List.pairwise_append.mp hp).2.2 z hz1 first (List.mem_singleton_self _)).1
        · rw [List.mem_singleton.mp hz1]
          exact lt_irrefl_of_asymm ImageInfo.lt imageInfo_lt_asymm first
      have hfirst : first ∈ before := by rw [hinit]; simp
      refine ⟨imageInfo_lt_neg_trans z first val (hnan first hfirst) hzf
        (imageInfo_lt_asymm _ _ hlt), fun heq => ?_⟩
      exfalso
      unfold ImageInfo.lt at hlt hzf
      rw [heq, hzf] at hlt
      exact Bool.noConfusion hlt
    · rw [if_neg hlt]
      exact unguarded_linear_insert_stable val before hnan hid hp

theorem foldl_insertion_sort_step_stable :
    ∀ (rest before : List ImageInfo), (∀ z ∈ rest, z.distance ≠ Dbl.nan) →
      (∀ z ∈ before, z.distance ≠ Dbl.nan) →
      rest.Pairwise (fun a b => a.id < b.id) →
      (∀ z ∈ before, ∀ w ∈ rest, z.id < w.id) →
      before.Pairwise (fun x y => ImageInfo.lt x y = false ∧
        (y.distance = x.distance → y.id < x.id)) →
      (rest.foldl (insertion_sort_step ImageInfo.lt) before).Pairwise
        (fun x y => ImageInfo.lt x y = false ∧ (y.distance = x.distance → y.id < x.id)) := by
  intro rest
  induction rest with
  | nil => intro before _ _ _ _ hp; exact hp
  | cons val rest ih =>
    intro before hrest hnan hids hlow hp
    have hids2 := List.pairwise_cons.mp hids
    simp only [List.foldl_cons]
    have hmem : ∀ z ∈ insertion_sort_step ImageInfo.lt before val, z = val ∨ z ∈ before :=
      fun z hz => List.mem_cons.mp ((insertion_sort_step_perm ImageInfo.lt before val).mem_iff.mp hz)
    refine ih _ (fun z hz => hrest z (List.mem_cons_of_mem _ hz)) ?_ hids2.2 ?_
      (insertion_sort_step_stable val before hnan
        (fun z hz => hlow z hz val (List.mem_cons_self _ _)) hp)
    · intro z hz
      rcases hmem z hz with hz1 | hz1
      · rw [hz1]; exact hrest val (List.mem_cons_self _ _)
      · exact hnan z hz1
    · intro z hz w hw
      rcases hmem z hz with hz1 | hz1
      · rw [hz1]; exact hids2.1 w hw
      · exact hlow z hz1 w (List.mem_cons_of_mem _ hw)

theorem insertion_sort_stable (l : List ImageInfo) (hnan : ∀ z ∈ l, z.distance ≠ Dbl.nan)
    (hids : l.Pairwise (fun a b => a.id < b.id)) :
    StableAscending (insertion_sort ImageInfo.lt l) := by
  unfold StableAscending
  rw [← List.pairwise_reverse]
  unfold insertion_sort
  cases l with
  | nil => simp
  | cons x rest =>
    simp only [List.reverse_reverse]
    have hids2 := List.pairwise_cons.mp hids
    exact foldl_insertion_sort_step_stable rest [x]
      (fun z hz => hnan z (List.mem_cons_of_mem _ hz))
      (fun z hz => by rw [List.mem_singleton.mp hz]; exact hnan x (List.mem_cons_self _ _))
      hids2.2
      (fun z hz w hw => by rw [List.mem_singleton.mp hz]; exact hids2.1 w hw)
      (List.pairwise_singleton _ _)

theorem stdSort_short {α : Type} (lt : α → α → Bool) (l : List α) (hlen : l.length ≤ 16) :
    stdSort lt l = insertion_sort lt l := by
  unfold stdSort
  by_cases h : l.length ≠ 0
  · rw [if_pos h]
    have h1 : introsort_loop lt (lg l.length * 2) l 0 l.length = l := by
      cases lg l.length * 2 with
      | zero => simp only [introsort_loop]; rw [if_neg (by omega)]
      | succ n => simp only [introsort_loop]; rw [if_neg (by omega)]
    rw [h1]
    unfold final_insertion_sort
    rw [if_neg (by omega)]
  · rw [if_neg h]
    have : l = [] := List.length_eq_zero.mp (by simpa using h)
    subst this; rfl

theorem stdSort_stable_short (l : List ImageInfo) (hlen : l.length ≤ 16)
    (hnan : ∀ z ∈ l, z.distance ≠ Dbl.nan) (hids : l.Pairwise (fun a b => a.id < b.id)) :
    StableAscending (stdSort ImageInfo.lt l) := by
  rw [stdSort_short ImageInfo.lt l hlen]
  exact insertion_sort_stable l hnan hids


/-! ### The catalog of seventeen items -/

theorem toOption_eq_some {ε α : Type} (e : Except ε α) (r : α)
    (h : e.toOption = some r) : e = Except.ok r := by
  cases e with
  | error x => simp [Except.toOption] at h
  | ok x =>
    simp only [Except.toOption, Option.some.injEq] at h
    rw [h]

theorem seventeen_ranking :
    queryRanking (ComputeFeatureDistance exactSqrt DistanceFunction.L2Squared)
      (stdSort ImageInfo.lt) seventeenFeatures seventeenCatalog seventeenQuery =
      Except.ok seventeenRanking :=
  toOption_eq_some _ _ (by decide!)


/-! # The claims -/

/-- C1: whenever the adjusted match count `m` is positive and the number of
same-class entries among the consumed positions is at most `m`, the value
returned by `EvaluateAveragePrecision` is a finite double `a` with
`0 ≤ a ≤ 1`. -/
theorem averagePrecision_in_unit_interval (cfg : Config) (query : ImageInfo)
    (sortedResult : List ImageInfo) (m : ℚ)
    (hm : adjustedMatches cfg query sortedResult.length = Dbl.fin m) (hpos : 0 < m)
    (hcount : (sameClassConsumed cfg query sortedResult : ℚ) ≤ m)
    (r : APResult) (hr : EvaluateAveragePrecision cfg query sortedResult = Except.ok r) :
    ∃ a : ℚ, r.averagePrecision = Dbl.fin a ∧ 0 ≤ a ∧ a ≤ 1 := by
  obtain ⟨a, p, ha, _, _, _, _, ha0, ha1⟩ := finalState_bounded cfg query sortedResult m hm hpos
  refine ⟨a, ?_, ha0, ?_⟩
  · rw [(EvaluateAveragePrecision_ok_inv cfg query sortedResult r hr).1, ha]
  · have h1 : (sameClassCount query (finalState cfg query sortedResult).consumed : ℚ) / m ≤ 1 := by
      rw [div_le_one hpos]; exact hcount
    linarith

/-- Witness of C1: the worked scenario. -/
theorem averagePrecision_in_unit_interval_witness :
    adjustedMatches scenarioConfig scenarioQuery scenarioRanking.length = Dbl.fin 1 ∧
    (0 : ℚ) < 1 ∧
    (sameClassConsumed scenarioConfig scenarioQuery scenarioRanking : ℚ) ≤ 1 ∧
    EvaluateAveragePrecision scenarioConfig scenarioQuery scenarioRanking =
      Except.ok scenarioResult ∧
    ∃ a : ℚ, scenarioResult.averagePrecision = Dbl.fin a ∧ 0 ≤ a ∧ a ≤ 1 :=
  ⟨scenario_adjustedMatches, by norm_num, by rw [scenario_sameClassConsumed]; norm_num,
    scenario_result,
    averagePrecision_in_unit_interval scenarioConfig scenarioQuery scenarioRanking 1
      scenario_adjustedMatches (by norm_num) (by rw [scenario_sameClassConsumed]; norm_num)
      scenarioResult scenario_result⟩

/-- C3: in the worked scenario (ids 0..3, classes [A,A,B,B], query item 0 with
classCount 2, exclusion on, topK 0, ranking [0, 1, 3, 2]) the call returns
exactly 1.0; the first consumed position is raw index 1 (item id 1), recorded
with precision 1 and recall 1. -/
theorem worked_scenario_average_precision :
    EvaluateAveragePrecision { mExcludeQueryFromDB := true, mTopK := 0 } scenarioQuery
        scenarioRanking =
      Except.ok
        { averagePrecision := Dbl.fin 1
          precisionRecallValues :=
            [(Dbl.fin 1, Dbl.fin 1), (Dbl.fin (1 / 2), Dbl.fin 1), (Dbl.fin (1 / 3), Dbl.fin 1)]
          warning := false } ∧
    (finalState { mExcludeQueryFromDB := true, mTopK := 0 } scenarioQuery
        scenarioRanking).consumed.head? = some (1, scenarioItem 1 7 false 2 1) :=
  ⟨scenario_result, by rw [show ({ mExcludeQueryFromDB := true, mTopK := 0 } : Config) =
      scenarioConfig from rfl, scenario_finalState]; rfl⟩

/-- C4, counterexample: for a query that is the only member of its class, with
the exclusion on, no consumed position is of the query's class, yet the
returned value is NaN (0.0 / 0.0), not 0.0; and for an empty ranking with the
exclusion on nothing is returned at all. -/
theorem zero_matches_not_zero_average_precision :
    sameClassConsumed scenarioConfig loneQuery loneRanking = 0 ∧
    (∃ r, EvaluateAveragePrecision scenarioConfig loneQuery loneRanking = Except.ok r ∧
      r.averagePrecision = Dbl.nan ∧ r.averagePrecision ≠ Dbl.fin 0) ∧
    EvaluateAveragePrecision scenarioConfig loneQuery [] =
      Except.error EvalError.lengthError := by
  refine ⟨?_, ⟨_, EvaluateAveragePrecision_ok _ _ _ (by decide), ?_, ?_⟩, ?_⟩
  · rw [sameClassConsumed, lone_finalState]
    simp [sameClassCount, loneQuery, scenarioItem]
  · rw [lone_finalState]
  · rw [lone_finalState]; simp
  · simp [EvaluateAveragePrecision, resultCount, scenarioConfig]

/-- C4, amended: for a non-zero adjusted match count `m`, when the call
returns (non-empty ranking, or exclusion off) and no consumed position holds an
entry of the query's class, `EvaluateAveragePrecision` returns exactly 0.0. -/
theorem averagePrecision_zero_without_match (cfg : Config) (query : ImageInfo)
    (sortedResult : List ImageInfo) (m : ℚ)
    (hm : adjustedMatches cfg query sortedResult.length = Dbl.fin m) (hne : m ≠ 0)
    (hres : sortedResult ≠ [] ∨ cfg.mExcludeQueryFromDB = false)
    (hnone : sameClassConsumed cfg query sortedResult = 0) :
    ∃ r, EvaluateAveragePrecision cfg query sortedResult = Except.ok r ∧
      r.averagePrecision = Dbl.fin 0 := by
  have hn : 0 ≤ resultCount cfg sortedResult.length := by
    by_contra hlt
    obtain ⟨h0, hex⟩ := (resultCount_neg_iff cfg sortedResult.length).mp (not_le.mp hlt)
    rcases hres with h | h
    · exact h (List.length_eq_zero.mp h0)
    · rw [hex] at h; exact Bool.noConfusion h
  refine ⟨_, EvaluateAveragePrecision_ok cfg query sortedResult hn, ?_⟩
  obtain ⟨a, p, ha, _, _, hz⟩ := finalState_zeroUntilMatch cfg query sortedResult m hm hne
  simp only [ha, hz hnone]

/-- Witness of C4 (amended): the scenario query against a ranking whose other
entries are all of class B. -/
theorem averagePrecision_zero_without_match_witness :
    adjustedMatches scenarioConfig scenarioQuery noMatchRanking.length = Dbl.fin 1 ∧
    (1 : ℚ) ≠ 0 ∧
    (noMatchRanking ≠ [] ∨ scenarioConfig.mExcludeQueryFromDB = false) ∧
    sameClassConsumed scenarioConfig scenarioQuery noMatchRanking = 0 ∧
    ∃ r, EvaluateAveragePrecision scenarioConfig scenarioQuery noMatchRanking = Except.ok r ∧
      r.averagePrecision = Dbl.fin 0 :=
  have h1 : adjustedMatches scenarioConfig scenarioQuery noMatchRanking.length = Dbl.fin 1 := by
    simp [adjustedMatches, matchesBeforeTopK, scenarioConfig, scenarioQuery, scenarioItem,
      Dbl.ofInt]
    norm_num
  have h3 : noMatchRanking ≠ [] ∨ scenarioConfig.mExcludeQueryFromDB = false :=
    Or.inl (by simp [noMatchRanking])
  have h4 : sameClassConsumed scenarioConfig scenarioQuery noMatchRanking = 0 := by
    rw [sameClassConsumed, noMatch_finalState]
    simp [sameClassCount, scenarioQuery, scenarioItem]
  ⟨h1, by norm_num, h3, h4,
    averagePrecision_zero_without_match scenarioConfig scenarioQuery noMatchRanking 1 h1
      (by norm_num) h3 h4⟩

/-- C5: with the exclusion on, every consumed position is an entry of the
ranking whose id differs from the query's id, there is one recorded
precision-recall sample per consumed position, and the final `matchCount` is
the number of same-class entries among the consumed positions. -/
theorem excluded_query_never_consumed (cfg : Config) (query : ImageInfo)
    (sortedResult : List ImageInfo) (hex : cfg.mExcludeQueryFromDB = true) :
    (∀ p ∈ (finalState cfg query sortedResult).consumed,
      sortedResult[p.1]? = some p.2 ∧ p.2.id ≠ query.id) ∧
    (finalState cfg query sortedResult).precisionRecallValues.length =
      (finalState cfg query sortedResult).consumed.length ∧
    (finalState cfg query sortedResult).matchCount =
      Dbl.fin (sameClassCount query (finalState cfg query sortedResult).consumed) := by
  obtain ⟨j, hj⟩ := finalState_bookkeeping cfg query sortedResult
  exact ⟨fun p hp => ⟨hj.entry p hp, hj.notQuery hex p hp⟩, hj.len.symm, hj.count⟩

/-- Witness of C5: the worked scenario, where the exclusion is on. -/
theorem excluded_query_never_consumed_witness :
    scenarioConfig.mExcludeQueryFromDB = true ∧
    (∀ p ∈ (finalState scenarioConfig scenarioQuery scenarioRanking).consumed,
      scenarioRanking[p.1]? = some p.2 ∧ p.2.id ≠ scenarioQuery.id) ∧
    (finalState scenarioConfig scenarioQuery scenarioRanking).precisionRecallValues.length =
      (finalState scenarioConfig scenarioQuery scenarioRanking).consumed.length ∧
    (finalState scenarioConfig scenarioQuery scenarioRanking).matchCount =
      Dbl.fin (sameClassCount scenarioQuery
        (finalState scenarioConfig scenarioQuery scenarioRanking).consumed) :=
  ⟨rfl, excluded_query_never_consumed scenarioConfig scenarioQuery scenarioRanking rfl⟩

/-- C6: when the ranking of `N` entries holds the query's id exactly once and
`topK` is not negative, the call returns, and the number of recorded samples
(consumed positions) is `resultCount` for `topK = 0` and
`min topK resultCount` for `topK > 0`, where `resultCount` is `N - 1` with the
exclusion on and `N` with it off. -/
theorem consumed_position_count (cfg : Config) (query : ImageInfo)
    (sortedResult : List ImageInfo)
    (honce : sortedResult.countP (fun x => decide (x.id = query.id)) = 1)
    (hk : 0 ≤ cfg.mTopK) :
    ∃ r, EvaluateAveragePrecision cfg query sortedResult = Except.ok r ∧
      r.precisionRecallValues.length = (finalState cfg query sortedResult).consumed.length ∧
      (r.precisionRecallValues.length : Int) =
        if cfg.mTopK = 0 then
          (if cfg.mExcludeQueryFromDB then (sortedResult.length : Int) - 1
            else sortedResult.length)
        else
          min cfg.mTopK (if cfg.mExcludeQueryFromDB then (sortedResult.length : Int) - 1
            else sortedResult.length) := by
  have hpos : 0 < sortedResult.length := by
    have hle : sortedResult.countP (fun x => decide (x.id = query.id)) ≤ sortedResult.length :=
      List.countP_le_length _
    omega
  have hn : 0 ≤ resultCount cfg sortedResult.length := by
    by_contra hlt
    have := ((resultCount_neg_iff cfg sortedResult.length).mp (not_le.mp hlt)).1
    omega
  refine ⟨_, EvaluateAveragePrecision_ok cfg query sortedResult hn, ?_, ?_⟩
  · obtain ⟨j, hj⟩ := finalState_bookkeeping cfg query sortedResult
    exact hj.len.symm
  · have hlen := scoreLoop_length cfg query (adjustedMatches cfg query sortedResult.length)
      (resultCount cfg sortedResult.length) sortedResult 0 {} (by simpa using hn)
    simp only [finalState, hlen, countP_not_skipped, honce]
    unfold resultCount
    by_cases hex : cfg.mExcludeQueryFromDB = true <;> by_cases hk0 : cfg.mTopK = 0
    · simp [hex, hk0]; omega
    · have hkpos : cfg.mTopK > 0 := by omega
      simp [hex, hk0, hkpos]; omega
    · simp [hex, hk0]
    · have hkpos : cfg.mTopK > 0 := by omega
      simp [hex, hk0, hkpos]

/-- Witness of C6: the worked scenario (4 entries, exclusion on, topK 0). -/
theorem consumed_position_count_witness :
    scenarioRanking.countP (fun x => decide (x.id = scenarioQuery.id)) = 1 ∧
    0 ≤ scenarioConfig.mTopK ∧
    ∃ r, EvaluateAveragePrecision scenarioConfig scenarioQuery scenarioRanking = Except.ok r ∧
      r.precisionRecallValues.length =
        (finalState scenarioConfig scenarioQuery scenarioRanking).consumed.length ∧
      (r.precisionRecallValues.length : Int) =
        if scenarioConfig.mTopK = 0 then
          (if scenarioConfig.mExcludeQueryFromDB then (scenarioRanking.length : Int) - 1
            else scenarioRanking.length)
        else
          min scenarioConfig.mTopK
            (if scenarioConfig.mExcludeQueryFromDB then (scenarioRanking.length : Int) - 1
              else scenarioRanking.length) :=
  have h1 : scenarioRanking.countP (fun x => decide (x.id = scenarioQuery.id)) = 1 := by
    simp [scenarioRanking, scenarioQuery, scenarioItem, List.countP_cons]
  have h2 : 0 ≤ scenarioConfig.mTopK := by simp [scenarioConfig]
  ⟨h1, h2, consumed_position_count scenarioConfig scenarioQuery scenarioRanking h1 h2⟩

/-- C2: with `topK = 0`, when the entries of the query's class are exactly
the first `classCount` entries of the ranking, the query's own entry (the only
one with its id) among them, `EvaluateAveragePrecision` returns exactly 1.0:
with the exclusion off, and with the exclusion on when `classCount ≥ 2`. -/
theorem perfect_ranking_average_precision (cfg : Config) (query : ImageInfo)
    (sortedResult : List ImageInfo) (pos : Nat) (own : ImageInfo)
    (htop : cfg.mTopK = 0)
    (hlen : query.classCount ≤ sortedResult.length)
    (hclass : ∀ (i : Nat) (x : ImageInfo), sortedResult[i]? = some x →
      (x.classId = query.classId ↔ (i : Int) < query.classCount))
    (hown : sortedResult[pos]? = some own) (hownid : own.id = query.id)
    (howncl : own.classId = query.classId)
    (huniq : ∀ (i : Nat) (x : ImageInfo), sortedResult[i]? = some x → x.id = query.id →
      i = pos)
    (hex : cfg.mExcludeQueryFromDB = true → 2 ≤ query.classCount) :
    ∃ r, EvaluateAveragePrecision cfg query sortedResult = Except.ok r ∧
      r.averagePrecision = Dbl.fin 1 := by
  have hposc : (pos : Int) < query.classCount := (hclass pos own hown).mp howncl
  have hN : 0 < sortedResult.length := by
    have : (0 : Int) < sortedResult.length := by omega
    exact_mod_cast this
  have hn : resultCount cfg sortedResult.length =
      if cfg.mExcludeQueryFromDB then (sortedResult.length : Int) - 1
      else sortedResult.length := by
    simp [resultCount, htop]
  have hn0 : 0 ≤ resultCount cfg sortedResult.length := by
    rw [hn]; split <;> omega
  refine ⟨_, EvaluateAveragePrecision_ok cfg query sortedResult hn0, ?_⟩
  obtain ⟨c, hcc⟩ : ∃ c : Nat, query.classCount = (c : Int) :=
    ⟨query.classCount.toNat, by omega⟩
  by_cases hexc : cfg.mExcludeQueryFromDB = true
  · have h2 := hex hexc
    apply finalState_perfect cfg query sortedResult (c - 1) pos c own ?_ hn (by omega)
      (by rw [if_pos hexc]; omega) (by omega)
      (fun i x hx => by rw [hclass i x hx, hcc]; omega) hown hownid (by omega) huniq
    have hcq : ((c - 1 : ℕ) : ℚ) = (c : ℚ) - 1 := by
      have : 1 ≤ c := by omega
      push_cast [this]
      ring
    simp [adjustedMatches, htop, matchesBeforeTopK, hexc, Dbl.ofInt, hcc, hcq]
  · apply finalState_perfect cfg query sortedResult c pos c own ?_ hn (by omega)
      (by rw [if_neg hexc]) (by omega)
      (fun i x hx => by rw [hclass i x hx, hcc]; omega) hown hownid (by omega) huniq
    simp [adjustedMatches, htop, matchesBeforeTopK, hexc, Dbl.ofInt, hcc]

/-- Witness of C2: the worked scenario, whose ranking is perfect (exclusion
on, classCount 2, own entry at raw index 0). -/
theorem perfect_ranking_average_precision_witness :
    scenarioConfig.mTopK = 0 ∧
    scenarioQuery.classCount ≤ scenarioRanking.length ∧
    (∀ (i : Nat) (x : ImageInfo), scenarioRanking[i]? = some x →
      (x.classId = scenarioQuery.classId ↔ (i : Int) < scenarioQuery.classCount)) ∧
    scenarioRanking[0]? = some (scenarioItem 0 7 true 2 0) ∧
    (∀ (i : Nat) (x : ImageInfo), scenarioRanking[i]? = some x → x.id = scenarioQuery.id →
      i = 0) ∧
    (scenarioConfig.mExcludeQueryFromDB = true → 2 ≤ scenarioQuery.classCount) ∧
    ∃ r, EvaluateAveragePrecision scenarioConfig scenarioQuery scenarioRanking = Except.ok r ∧
      r.averagePrecision = Dbl.fin 1 :=
  have h1 : scenarioConfig.mTopK = 0 := rfl
  have h2 : scenarioQuery.classCount ≤ scenarioRanking.length := by
    simp [scenarioQuery, scenarioItem, scenarioRanking]
  have h3 : ∀ (i : Nat) (x : ImageInfo), scenarioRanking[i]? = some x →
      (x.classId = scenarioQuery.classId ↔ (i : Int) < scenarioQuery.classCount) := by
    intro i x hx
    rcases i with _ | _ | _ | _ | i <;>
      simp [scenarioRanking, scenarioItem, scenarioQuery] at hx ⊢ <;> subst hx <;> simp
  have h4 : scenarioRanking[0]? = some (scenarioItem 0 7 true 2 0) := rfl
  have h5 : ∀ (i : Nat) (x : ImageInfo), scenarioRanking[i]? = some x →
      x.id = scenarioQuery.id → i = 0 := by
    intro i x hx hid
    rcases i with _ | _ | _ | _ | i <;>
      simp [scenarioRanking, scenarioItem, scenarioQuery] at hx hid ⊢ <;> subst hx <;>
      simp at hid
  have h6 : scenarioConfig.mExcludeQueryFromDB = true → 2 ≤ scenarioQuery.classCount := by
    intro _; simp [scenarioQuery, scenarioItem]
  ⟨h1, h2, h3, h4, h5, h6,
    perfect_ranking_average_precision scenarioConfig scenarioQuery scenarioRanking 0
      (scenarioItem 0 7 true 2 0) h1 h2 h3 h4 rfl rfl h5 h6⟩

/-- C7: when every query's average precision is computed without a fatal
error, `Evaluate` returns the sum of the per-query average precisions divided
by the number of queries, and it returns the same value for every permutation
`qs` of the query set. -/
theorem evaluate_is_mean_of_average_precisions {Mat : Type}
    (ComputeFeatureDistance : Mat → Mat → Except EvalError Dbl)
    (sort : List ImageInfo → List ImageInfo) (ev : Evaluator Mat) (f : ImageInfo → Dbl)
    (hf : ∀ q ∈ ev.mQueryInfos, queryAveragePrecision ComputeFeatureDistance sort ev.toConfig
      ev.mFeatures ev.mImageInfos q = Except.ok (f q))
    (qs : List ImageInfo) (hperm : ev.mQueryInfos.Perm qs) :
    ∃ infos1 infos2,
      Evaluate ComputeFeatureDistance sort ev =
        Except.ok ((Dbl.sum (ev.mQueryInfos.map f)).div (Dbl.ofInt ev.mQueryInfos.length),
          { ev with mImageInfos := infos1 }) ∧
      Evaluate ComputeFeatureDistance sort { ev with mQueryInfos := qs } =
        Except.ok ((Dbl.sum (ev.mQueryInfos.map f)).div (Dbl.ofInt ev.mQueryInfos.length),
          { ev with mQueryInfos := qs, mImageInfos := infos2 }) := by
  obtain ⟨infos1, h1⟩ := Evaluate_ok ComputeFeatureDistance sort ev f hf
  obtain ⟨infos2, h2⟩ := Evaluate_ok ComputeFeatureDistance sort { ev with mQueryInfos := qs } f
    (fun q hq => hf q (hperm.mem_iff.mpr hq))
  refine ⟨infos1, infos2, h1, ?_⟩
  rw [h2]
  have hsum : Dbl.sum (qs.map f) = Dbl.sum (ev.mQueryInfos.map f) :=
    foldl_add_perm _ _ (hperm.symm.map f) (Dbl.fin 0)
  simp only [hsum, hperm.length_eq]

/-- Witness of C7: the two queries of `tieEvaluator`, and their swap. -/
theorem evaluate_is_mean_of_average_precisions_witness :
    (∀ q ∈ tieEvaluator.mQueryInfos, queryAveragePrecision absDistance insertionSortByDistance
      tieEvaluator.toConfig tieEvaluator.mFeatures tieEvaluator.mImageInfos q =
        Except.ok (tieAveragePrecision q)) ∧
    tieEvaluator.mQueryInfos.Perm [tieQuery1, tieQuery0] ∧
    (Dbl.sum (tieEvaluator.mQueryInfos.map tieAveragePrecision)).div
      (Dbl.ofInt tieEvaluator.mQueryInfos.length) = Dbl.fin (5 / 8) ∧
    ∃ infos1 infos2,
      Evaluate absDistance insertionSortByDistance tieEvaluator =
        Except.ok ((Dbl.sum (tieEvaluator.mQueryInfos.map tieAveragePrecision)).div
            (Dbl.ofInt tieEvaluator.mQueryInfos.length),
          { tieEvaluator with mImageInfos := infos1 }) ∧
      Evaluate absDistance insertionSortByDistance
          { tieEvaluator with mQueryInfos := [tieQuery1, tieQuery0] } =
        Except.ok ((Dbl.sum (tieEvaluator.mQueryInfos.map tieAveragePrecision)).div
            (Dbl.ofInt tieEvaluator.mQueryInfos.length),
          { tieEvaluator with mQueryInfos := [tieQuery1, tieQuery0], mImageInfos := infos2 }) :=
  have h1 : ∀ q ∈ tieEvaluator.mQueryInfos, queryAveragePrecision absDistance
      insertionSortByDistance tieEvaluator.toConfig tieEvaluator.mFeatures
      tieEvaluator.mImageInfos q = Except.ok (tieAveragePrecision q) := by
    intro q hq
    have hq1 : q = tieQuery0 ∨ q = tieQuery1 := by
      simpa [tieEvaluator, tieQuery0, tieQuery1] using hq
    rcases hq1 with hq1 | hq1
    · rw [hq1, tie_averagePrecision0]; rfl
    · rw [hq1, tie_averagePrecision1]; rfl
  have h2 : tieEvaluator.mQueryInfos.Perm [tieQuery1, tieQuery0] :=
    List.Perm.swap tieQuery1 tieQuery0 []
  have h3 : (Dbl.sum (tieEvaluator.mQueryInfos.map tieAveragePrecision)).div
      (Dbl.ofInt tieEvaluator.mQueryInfos.length) = Dbl.fin (5 / 8) := by
    simp [Dbl.sum, tieEvaluator, tieAveragePrecision, Dbl.div, Dbl.ofInt]
    norm_num
  ⟨h1, h2, h3, evaluate_is_mean_of_average_precisions absDistance insertionSortByDistance
    tieEvaluator tieAveragePrecision h1 [tieQuery1, tieQuery0] h2⟩

/-- C8, counterexample: a catalog of seventeen items, item 0 the query at
feature 0 and items 1 to 16 all at feature 1, under the squared Euclidean
distance (the default of the command line). With the `std::sort` of libstdc++
the ranking built for item 0 holds the sixteen items at distance 1 in the id
order 8, 16, 15, 14, 13, 12, 11, 10, 9, 7, 6, 5, 4, 3, 2, 1: items at equal
distance do not come in increasing id order, so the ranking is not a stable
ascending ordering. -/
theorem ranking_not_stable :
    queryRanking (ComputeFeatureDistance exactSqrt DistanceFunction.L2Squared)
      (stdSort ImageInfo.lt) seventeenFeatures seventeenCatalog seventeenQuery =
      Except.ok seventeenRanking ∧
    seventeenCatalog.map (fun x => x.id) =
      [0, 1, 2, 3, 4, 5, 6, 7, 8, 9, 10, 11, 12, 13, 14, 15, 16] ∧
    seventeenRanking.map (fun x => x.id) =
      [0, 8, 16, 15, 14, 13, 12, 11, 10, 9, 7, 6, 5, 4, 3, 2, 1] ∧
    seventeenRanking.map (fun x => x.distance) = Dbl.fin 0 :: List.replicate 16 (Dbl.fin 1) ∧
    ¬ StableAscending seventeenRanking := by
  refine ⟨seventeen_ranking, by decide, by decide, by decide!, ?_⟩
  unfold StableAscending
  decide!

/-- C8, amended: with the `std::sort` of libstdc++ and no NaN distance, the
ranking built for a query is a rearrangement of the whole catalog (each item
carrying the distance between the query's feature row and its own) in which
no later distance is less than an earlier one. When the catalog has at most
16 items, listed with increasing ids, the ranking is moreover stable: items
at equal distance come in increasing id order. -/
theorem ranking_ascending_permutation {Mat : Type}
    (ComputeFeatureDistance : Mat → Mat → Except EvalError Dbl)
    (mFeatures : List Mat) (mImageInfos : List ImageInfo) (query : ImageInfo)
    (infos : List ImageInfo)
    (hpass : distancePass ComputeFeatureDistance mFeatures mImageInfos query = Except.ok infos)
    (hnan : ∀ x ∈ infos, x.distance ≠ Dbl.nan) :
    queryRanking ComputeFeatureDistance (stdSort ImageInfo.lt) mFeatures mImageInfos query =
      Except.ok (stdSort ImageInfo.lt infos) ∧
    (stdSort ImageInfo.lt infos).Perm infos ∧
    eraseDistance infos = eraseDistance mImageInfos ∧
    (∃ queryFeature, featureRow mFeatures query.id = Except.ok queryFeature ∧
      ∀ (j : Nat) (x : ImageInfo), infos[j]? = some x →
        ∃ v, featureRow mFeatures (j : Int) = Except.ok v ∧
          ComputeFeatureDistance queryFeature v = Except.ok x.distance) ∧
    (stdSort ImageInfo.lt infos).Pairwise (fun a b => Dbl.lt b.distance a.distance = false) ∧
    (mImageInfos.length ≤ 16 → mImageInfos.Pairwise (fun a b => a.id < b.id) →
      StableAscending (stdSort ImageInfo.lt infos)) := by
  have herase : eraseDistance infos = eraseDistance mImageInfos :=
    distancePass_ok_erase ComputeFeatureDistance mFeatures mImageInfos infos query hpass
  refine ⟨?_, (stdSort_ascending infos hnan).1, herase, ?_, (stdSort_ascending infos hnan).2,
    ?_⟩
  · unfold queryRanking
    rw [hpass]
  · unfold distancePass at hpass
    cases hrow : featureRow mFeatures query.id with
    | error e => rw [hrow] at hpass; exact Except.noConfusion hpass
    | ok v =>
      rw [hrow] at hpass
      refine ⟨v, rfl, fun j x hx => ?_⟩
      have := computeDistances_distance ComputeFeatureDistance mFeatures v mImageInfos 0 infos
        hpass j x hx
      simpa using this
  · intro hlen hids
    have hlen2 : infos.length = mImageInfos.length := by
      have := congrArg List.length herase
      simpa [eraseDistance] using this
    have hids2 : infos.Pairwise (fun a b => a.id < b.id) := by
      have h1 : (eraseDistance mImageInfos).Pairwise (fun a b => a.id < b.id) := by
        unfold eraseDistance
        rw [List.pairwise_map]
        exact hids
      rw [← herase] at h1
      unfold eraseDistance at h1
      rw [List.pairwise_map] at h1
      exact h1
    exact stdSort_stable_short infos (by omega) hnan hids2

/-- Witness of C8 (amended): item 0 of `tieEvaluator`, a catalog of three
items. -/
theorem ranking_ascending_permutation_witness :
    distancePass absDistance tieEvaluator.mFeatures tieEvaluator.mImageInfos tieQuery0 =
      Except.ok tieDistances0 ∧
    (∀ x ∈ tieDistances0, x.distance ≠ Dbl.nan) ∧
    (queryRanking absDistance (stdSort ImageInfo.lt) tieEvaluator.mFeatures
      tieEvaluator.mImageInfos tieQuery0 = Except.ok (stdSort ImageInfo.lt tieDistances0) ∧
    (stdSort ImageInfo.lt tieDistances0).Perm tieDistances0 ∧
    eraseDistance tieDistances0 = eraseDistance tieEvaluator.mImageInfos ∧
    (∃ queryFeature, featureRow tieEvaluator.mFeatures tieQuery0.id = Except.ok queryFeature ∧
      ∀ (j : Nat) (x : ImageInfo), tieDistances0[j]? = some x →
        ∃ v, featureRow tieEvaluator.mFeatures (j : Int) = Except.ok v ∧
          absDistance queryFeature v = Except.ok x.distance) ∧
    (stdSort ImageInfo.lt tieDistances0).Pairwise
      (fun a b => Dbl.lt b.distance a.distance = false) ∧
    (tieEvaluator.mImageInfos.length ≤ 16 →
      tieEvaluator.mImageInfos.Pairwise (fun a b => a.id < b.id) →
      StableAscending (stdSort ImageInfo.lt tieDistances0))) :=
  have h3 : ∀ x ∈ tieDistances0, x.distance ≠ Dbl.nan := by
    intro x hx
    simp only [tieDistances0, List.mem_cons, List.mem_singleton, List.not_mem_nil,
      or_false] at hx
    rcases hx with hx | hx | hx <;> rw [hx] <;> simp
  ⟨tie_distancePass0, h3,
    ranking_ascending_permutation absDistance tieEvaluator.mFeatures tieEvaluator.mImageInfos
      tieQuery0 tieDistances0 tie_distancePass0 h3⟩

/-- C9, counterexample: with an empty query set `Evaluate` does not fail; it
returns NaN, the quotient 0.0 / 0. -/
theorem evaluate_empty_query_set_returns_nan :
    Evaluate absDistance insertionSortByDistance noQueryEvaluator =
      Except.ok (Dbl.nan, noQueryEvaluator) ∧
    (Dbl.fin 0).div (Dbl.ofInt noQueryEvaluator.mQueryInfos.length) = Dbl.nan := by
  constructor
  · simp [Evaluate, noQueryEvaluator, evaluateLoop, Dbl.div, Dbl.ofInt]
  · simp [noQueryEvaluator, Dbl.div, Dbl.ofInt]

/-- C9, amended: with an empty query set `Evaluate` raises no error, whatever
the distance function, the sorting procedure and the rest of the evaluator: it
divides the sum 0.0 by the query count 0 and returns the NaN that results,
leaving the evaluator as it was. -/
theorem evaluate_empty_query_set {Mat : Type}
    (ComputeFeatureDistance : Mat → Mat → Except EvalError Dbl)
    (sort : List ImageInfo → List ImageInfo) (ev : Evaluator Mat) :
    Evaluate ComputeFeatureDistance sort { ev with mQueryInfos := [] } =
      Except.ok ((Dbl.fin 0).div (Dbl.ofInt (0 : Nat)), { ev with mQueryInfos := [] }) ∧
    (Dbl.fin 0).div (Dbl.ofInt (0 : Nat)) = Dbl.nan := by
  constructor
  · simp [Evaluate, evaluateLoop]
  · simp [Dbl.div, Dbl.ofInt]

/-- C10, counterexample: for a query that is the only member of its class,
with the exclusion on, the adjusted match count is 0 and
`EvaluateAveragePrecision` reports no error: it returns normally, the recorded
recall being the NaN of 0.0 / 0.0 and the returned value NaN. -/
theorem zero_match_count_not_reported :
    adjustedMatches scenarioConfig loneQuery loneRanking.length = Dbl.fin 0 ∧
    EvaluateAveragePrecision scenarioConfig loneQuery loneRanking =
      Except.ok
        { averagePrecision := Dbl.nan
          precisionRecallValues := [(Dbl.fin 0, Dbl.nan)]
          warning := false } := by
  constructor
  · simp [adjustedMatches, matchesBeforeTopK, scenarioConfig, loneQuery, scenarioItem,
      Dbl.ofInt]
  · rw [EvaluateAveragePrecision_ok _ _ _ (by decide), lone_finalState]
    simp [scenarioConfig, loneQuery, scenarioItem, matchesBeforeTopK, Dbl.ofInt, Dbl.lt]

/-- C10, amended: when the adjusted match count is zero,
`EvaluateAveragePrecision` has no guard and reports no error: for a non-empty
ranking (or with the exclusion off) it returns normally, every recorded recall
is the NaN or infinity of a division by zero, and so is the returned value as
soon as one position is consumed. -/
theorem zero_match_count_divides_by_zero (cfg : Config) (query : ImageInfo)
    (sortedResult : List ImageInfo)
    (hm : adjustedMatches cfg query sortedResult.length = Dbl.fin 0)
    (hres : sortedResult ≠ [] ∨ cfg.mExcludeQueryFromDB = false) :
    ∃ r, EvaluateAveragePrecision cfg query sortedResult = Except.ok r ∧
      (∀ pr ∈ r.precisionRecallValues, pr.2.isFinite = false) ∧
      (r.precisionRecallValues ≠ [] → r.averagePrecision.isFinite = false) := by
  have hn : 0 ≤ resultCount cfg sortedResult.length := by
    by_contra hlt
    obtain ⟨h0, hex⟩ := (resultCount_neg_iff cfg sortedResult.length).mp (not_le.mp hlt)
    rcases hres with h | h
    · exact h (List.length_eq_zero.mp h0)
    · rw [hex] at h; exact Bool.noConfusion h
  refine ⟨_, EvaluateAveragePrecision_ok cfg query sortedResult hn, ?_⟩
  simp only [finalState, hm]
  exact scoreLoop_zero_matches cfg query (resultCount cfg sortedResult.length) sortedResult

/-- Witness of C10 (amended): the query that is the only member of its class. -/
theorem zero_match_count_divides_by_zero_witness :
    adjustedMatches scenarioConfig loneQuery loneRanking.length = Dbl.fin 0 ∧
    (loneRanking ≠ [] ∨ scenarioConfig.mExcludeQueryFromDB = false) ∧
    ∃ r, EvaluateAveragePrecision scenarioConfig loneQuery loneRanking = Except.ok r ∧
      (∀ pr ∈ r.precisionRecallValues, pr.2.isFinite = false) ∧
      (r.precisionRecallValues ≠ [] → r.averagePrecision.isFinite = false) :=
  have h1 : adjustedMatches scenarioConfig loneQuery loneRanking.length = Dbl.fin 0 := by
    simp [adjustedMatches, matchesBeforeTopK, scenarioConfig, loneQuery, scenarioItem,
      Dbl.ofInt]
  have h2 : loneRanking ≠ [] ∨ scenarioConfig.mExcludeQueryFromDB = false :=
    Or.inl (by simp [loneRanking])
  ⟨h1, h2, zero_match_count_divides_by_zero scenarioConfig loneQuery loneRanking h1 h2⟩

/-- C11, counterexample: for the zero vector `[0, 0]` the norm is 0 and
`cosineDistance` raises no error: it divides 0 by 0 and returns the NaN that
results. -/
theorem cosine_zero_norm_not_guarded :
    cvNorm exactSqrt [0, 0] = 0 ∧
    cosineDistance exactSqrt [0, 0] [3, 4] = Except.ok Dbl.nan := by
  refine ⟨cvNorm_00, ?_⟩
  rw [cosineDistance_eq exactSqrt [0, 0] [3, 4] rfl, cvNorm_00, cvNorm_34]
  simp [cvSum, Dbl.div, Dbl.sub, Dbl.neg, Dbl.add]

/-- C11, amended: for vectors of the same length, `cosineDistance(a, b)` is
`1 - (a.b)/(|a||b|)` when both norms are non-zero; when a norm is zero there is
no guard and no error: the division by zero is performed and the value
returned is NaN or infinite (NaN when the dot product is zero). -/
theorem cosineDistance_formula_and_zero_norm (sqrt : ℚ → ℚ) (a b : List ℚ)
    (h : a.length = b.length) :
    (cvNorm sqrt a ≠ 0 → cvNorm sqrt b ≠ 0 →
      cosineDistance sqrt a b = Except.ok (Dbl.fin
        (1 - cvSum (List.zipWith (fun x y => x * y) a b) / (cvNorm sqrt a * cvNorm sqrt b)))) ∧
    (cvNorm sqrt a = 0 ∨ cvNorm sqrt b = 0 →
      ∃ d, cosineDistance sqrt a b = Except.ok d ∧ d.isFinite = false ∧
        (cvSum (List.zipWith (fun x y => x * y) a b) = 0 → d = Dbl.nan)) := by
  rw [cosineDistance_eq sqrt a b h]
  constructor
  · intro ha hb
    rw [Dbl.div_fin _ _ (mul_ne_zero ha hb), Dbl.sub_fin]
  · intro hz
    have h0 : cvNorm sqrt a * cvNorm sqrt b = 0 := by
      rcases hz with hz | hz <;> simp [hz]
    rw [h0]
    refine ⟨_, rfl, ?_, ?_⟩
    · have h1 := div_zero_not_finite (Dbl.fin (cvSum (List.zipWith (fun x y => x * y) a b)))
      generalize (Dbl.fin (cvSum (List.zipWith (fun x y => x * y) a b))).div (Dbl.fin 0) = q
        at h1 ⊢
      cases q <;> simp [Dbl.isFinite, Dbl.sub, Dbl.neg, Dbl.add] at h1 ⊢
    · intro hdot
      simp [hdot, Dbl.div, Dbl.sub, Dbl.neg, Dbl.add]

/-- Witness of C11 (amended): the vectors `[0, 0]` and `[3, 4]`. -/
theorem cosineDistance_formula_and_zero_norm_witness :
    ([0, 0] : List ℚ).length = ([3, 4] : List ℚ).length ∧
    (cvNorm exactSqrt [0, 0] = 0 ∨ cvNorm exactSqrt [3, 4] = 0) ∧
    ∃ d, cosineDistance exactSqrt [0, 0] [3, 4] = Except.ok d ∧ d.isFinite = false ∧
      (cvSum (List.zipWith (fun x y => x * y) [0, 0] [3, 4]) = 0 → d = Dbl.nan) :=
  ⟨rfl, Or.inl cvNorm_00,
    (cosineDistance_formula_and_zero_norm exactSqrt [0, 0] [3, 4] rfl).2 (Or.inl cvNorm_00)⟩

/-- C18: for vectors of the same length, `hamming(a, b)` is the number of
positions at which exactly one of the two elements is non-zero (the 255 of the
masks is cancelled by the division), a count between 0 and the length. -/
theorem hamming_is_plain_count (a b : List ℚ) (h : a.length = b.length) :
    hamming a b = Except.ok (Dbl.fin (differingSupport a b)) ∧
    differingSupport a b ≤ a.length :=
  ⟨hamming_eq_count a b h, differingSupport_le a b⟩

/-- Witness of C18: two vectors of length 4 that differ in support at two
positions. -/
theorem hamming_is_plain_count_witness :
    ([0, 2, 0, 5] : List ℚ).length = ([1, 0, 0, 3] : List ℚ).length ∧
    differingSupport [0, 2, 0, 5] [1, 0, 0, 3] = 2 ∧
    hamming [0, 2, 0, 5] [1, 0, 0, 3] =
      Except.ok (Dbl.fin (differingSupport [0, 2, 0, 5] [1, 0, 0, 3])) ∧
    differingSupport [0, 2, 0, 5] [1, 0, 0, 3] ≤ ([0, 2, 0, 5] : List ℚ).length :=
  ⟨rfl, by simp [differingSupport, List.countP_cons],
    hamming_is_plain_count [0, 2, 0, 5] [1, 0, 0, 3] rfl⟩

/-- C19: for non-empty vectors of the same length,
`maximalDimensionDifference(a, b)` is `|a[k] - b[k]|` where `k` is the first
index at which `a` attains its maximum; and in the distance pass of `Evaluate`
under this selector the first argument is the query's feature row. -/
theorem maximalDimensionDifference_first_argmax (a b : List ℚ) (ha : a ≠ [])
    (hlen : a.length = b.length) (sqrt : ℚ → ℚ) (mFeatures : List (List ℚ))
    (mImageInfos : List ImageInfo) (query : ImageInfo) (infos : List ImageInfo)
    (hpass : distancePass
      (ComputeFeatureDistance sqrt DistanceFunction.MaximalDimensionDifference)
      mFeatures mImageInfos query = Except.ok infos) :
    (∃ (k : Nat) (x y : ℚ), a[k]? = some x ∧ b[k]? = some y ∧
      (∀ (j : Nat) (v : ℚ), a[j]? = some v → v ≤ x) ∧
      (∀ (j : Nat) (v : ℚ), j < k → a[j]? = some v → v < x) ∧
      maximalDimensionDifference a b = Except.ok (Dbl.fin |x - y|)) ∧
    (∃ queryFeature, featureRow mFeatures query.id = Except.ok queryFeature ∧
      ∀ (j : Nat) (item : ImageInfo), infos[j]? = some item →
        ∃ imageFeature, featureRow mFeatures (j : Int) = Except.ok imageFeature ∧
          maximalDimensionDifference queryFeature imageFeature = Except.ok item.distance) := by
  constructor
  · obtain ⟨k, m, hk, hm, hmax, hfirst⟩ := cvMaxLoc_spec a ha
    have hkl : k < a.length := by
      by_contra hge
      rw [List.getElem?_eq_none (by omega)] at hm
      exact Option.noConfusion hm
    have hb : b[k]? = some (b[k]) := List.getElem?_eq_getElem (by omega)
    refine ⟨k, m, b[k], hm, hb, hmax, hfirst, ?_⟩
    unfold maximalDimensionDifference
    rw [hk]
    simp only [hm, hb]
  · unfold distancePass at hpass
    cases hrow : featureRow mFeatures query.id with
    | error e => rw [hrow] at hpass; exact Except.noConfusion hpass
    | ok v =>
      rw [hrow] at hpass
      refine ⟨v, rfl, fun j item hitem => ?_⟩
      have := computeDistances_distance
        (ComputeFeatureDistance sqrt DistanceFunction.MaximalDimensionDifference) mFeatures v
        mImageInfos 0 infos hpass j item hitem
      simpa [ComputeFeatureDistance] using this

/-- Witness of C19: the row `[1, 3, 3]`, whose maximum stands at the indices 1
and 2, against `[0, 1, 7]`: the difference is taken at index 1. -/
theorem maximalDimensionDifference_first_argmax_witness :
    ([1, 3, 3] : List ℚ) ≠ [] ∧
    ([1, 3, 3] : List ℚ).length = ([0, 1, 7] : List ℚ).length ∧
    distancePass (ComputeFeatureDistance exactSqrt DistanceFunction.MaximalDimensionDifference)
      metricFeatures metricCatalog { id := 0, classId := 7, isQuery := true, classCount := 2 } =
      Except.ok metricDistances ∧
    maximalDimensionDifference [1, 3, 3] [0, 1, 7] = Except.ok (Dbl.fin 2) ∧
    ((∃ (k : Nat) (x y : ℚ), ([1, 3, 3] : List ℚ)[k]? = some x ∧
      ([0, 1, 7] : List ℚ)[k]? = some y ∧
      (∀ (j : Nat) (v : ℚ), ([1, 3, 3] : List ℚ)[j]? = some v → v ≤ x) ∧
      (∀ (j : Nat) (v : ℚ), j < k → ([1, 3, 3] : List ℚ)[j]? = some v → v < x) ∧
      maximalDimensionDifference [1, 3, 3] [0, 1, 7] = Except.ok (Dbl.fin |x - y|)) ∧
    (∃ queryFeature, featureRow metricFeatures (0 : Int) = Except.ok queryFeature ∧
      ∀ (j : Nat) (item : ImageInfo), metricDistances[j]? = some item →
        ∃ imageFeature, featureRow metricFeatures (j : Int) = Except.ok imageFeature ∧
          maximalDimensionDifference queryFeature imageFeature =
            Except.ok item.distance)) :=
  ⟨by simp, rfl, metric_distancePass,
    by simp [maximalDimensionDifference, cvMaxLoc, maxLocFrom]; norm_num,
    maximalDimensionDifference_first_argmax [1, 3, 3] [0, 1, 7] (by simp) rfl exactSqrt
      metricFeatures metricCatalog { id := 0, classId := 7, isQuery := true, classCount := 2 }
      metricDistances metric_distancePass⟩

/-- C20: `ComputeFeatureDistance(a, a)` is 0 for every vector `a` under L1,
L2 (the square root of 0 being 0), L2Squared, Infinity and Hamming. Under
Cosine, in exact real arithmetic (the operations of `cosineDistance` over the
real numbers, with the real square root), the distance of `a` to itself is 0
whenever the norm of `a` is non-zero, which it is exactly when `a` has a
non-zero element; over the rationals the real-arithmetic function is
`ComputeFeatureDistance` under Cosine, so the double returned is 0 as well
when the norm is non-zero and its square root is exact. -/
theorem distance_to_self_is_zero (sqrt : ℚ → ℚ) (a : List ℚ) (hsqrt : sqrt 0 = 0) :
    ComputeFeatureDistance sqrt DistanceFunction.L1 a a = Except.ok (Dbl.fin 0) ∧
    ComputeFeatureDistance sqrt DistanceFunction.L2 a a = Except.ok (Dbl.fin 0) ∧
    ComputeFeatureDistance sqrt DistanceFunction.L2Squared a a = Except.ok (Dbl.fin 0) ∧
    ComputeFeatureDistance sqrt DistanceFunction.Infinity a a = Except.ok (Dbl.fin 0) ∧
    ComputeFeatureDistance sqrt DistanceFunction.Hamming a a = Except.ok (Dbl.fin 0) ∧
    (cvNormIn Real.sqrt (a.map (fun x : ℚ => (x : ℝ))) ≠ 0 →
      cosineDistanceIn Real.sqrt (a.map (fun x : ℚ => (x : ℝ)))
        (a.map (fun x : ℚ => (x : ℝ))) = Except.ok (some 0)) ∧
    (cvNormIn Real.sqrt (a.map (fun x : ℚ => (x : ℝ))) ≠ 0 ↔ ∃ x ∈ a, x ≠ 0) ∧
    (∀ (b : List ℚ) (v : ℚ), cosineDistanceIn sqrt a b = Except.ok (some v) →
      ComputeFeatureDistance sqrt DistanceFunction.Cosine a b = Except.ok (Dbl.fin v)) ∧
    (cvNorm sqrt a ≠ 0 → cvNorm sqrt a * cvNorm sqrt a = cvSum (a.map (fun x => x * x)) →
      ComputeFeatureDistance sqrt DistanceFunction.Cosine a a = Except.ok (Dbl.fin 0)) := by
  refine ⟨?_, ?_, ?_, ?_, ?_, ?_, ?_, ?_, ?_⟩
  · simp [ComputeFeatureDistance, cvNormDiff, zipWith_sub_self, cvSum]
  · simp [ComputeFeatureDistance, cvNormDiff, zipWith_sub_self, cvSum, hsqrt]
  · simp [ComputeFeatureDistance, cvNormDiff, zipWith_sub_self, cvSum]
  · simp [ComputeFeatureDistance, cvNormDiff, zipWith_sub_self, foldl_max_replicate_zero]
  · simp [ComputeFeatureDistance, hamming_eq_count a a rfl, differingSupport_self]
  · exact cosineDistanceIn_self _
  · unfold cvNormIn
    rw [Ne, Real.sqrt_eq_zero (sum_squares_nonneg _), sum_squares_eq_zero_iff]
    simp
  · intro b v h
    exact cosineDistanceIn_rat sqrt a b v h
  · intro hne hexact
    have hdot : List.zipWith (fun x y => x * y) a a = a.map (fun x => x * x) := by
      induction a with
      | nil => rfl
      | cons x a ih => simp
    simp only [ComputeFeatureDistance]
    rw [cosineDistance_eq sqrt a a rfl, hdot, hexact,
      Dbl.div_fin _ _ (by rw [← hexact]; exact mul_ne_zero hne hne), Dbl.sub_fin]
    have hs : cvSum (List.map (fun x => x * x) a) ≠ 0 := by
      rw [← hexact]; exact mul_ne_zero hne hne
    rw [div_self hs]
    norm_num

/-- Witness of C20: the vector `[1, 1]`, whose norm is the irrational square
root of 2; and the vector `[3, 4]`, whose norm 5 is exact in the doubles. -/
theorem distance_to_self_is_zero_witness :
    exactSqrt 0 = 0 ∧
    ComputeFeatureDistance exactSqrt DistanceFunction.L1 [1, 1] [1, 1] =
      Except.ok (Dbl.fin 0) ∧
    ComputeFeatureDistance exactSqrt DistanceFunction.L2 [1, 1] [1, 1] =
      Except.ok (Dbl.fin 0) ∧
    cvNormIn Real.sqrt (([1, 1] : List ℚ).map (fun x : ℚ => (x : ℝ))) ≠ 0 ∧
    cosineDistanceIn Real.sqrt (([1, 1] : List ℚ).map (fun x : ℚ => (x : ℝ)))
      (([1, 1] : List ℚ).map (fun x : ℚ => (x : ℝ))) = Except.ok (some 0) ∧
    ComputeFeatureDistance exactSqrt DistanceFunction.Cosine [3, 4] [3, 4] =
      Except.ok (Dbl.fin 0) :=
  have h0 : cvNormIn Real.sqrt (([1, 1] : List ℚ).map (fun x : ℚ => (x : ℝ))) ≠ 0 :=
    (distance_to_self_is_zero exactSqrt [1, 1] exactSqrt_zero).2.2.2.2.2.2.1.mpr
      ⟨1, by simp, by norm_num⟩
  have h1 : cvNorm exactSqrt [3, 4] ≠ 0 := by rw [cvNorm_34]; norm_num
  have h2 : cvNorm exactSqrt [3, 4] * cvNorm exactSqrt [3, 4] =
      cvSum (([3, 4] : List ℚ).map (fun x => x * x)) := by
    rw [cvNorm_34]; simp [cvSum]; norm_num
  ⟨exactSqrt_zero,
    (distance_to_self_is_zero exactSqrt [1, 1] exactSqrt_zero).1,
    (distance_to_self_is_zero exactSqrt [1, 1] exactSqrt_zero).2.1,
    h0,
    (distance_to_self_is_zero exactSqrt [1, 1] exactSqrt_zero).2.2.2.2.2.1 h0,
    (distance_to_self_is_zero exactSqrt [3, 4] exactSqrt_zero).2.2.2.2.2.2.2.2 h1 h2⟩

/-- C12: when `ParseAnnotationFile` succeeds, the catalog has one item per
line and the n-th item (0-based) has id n, so the ids are 0, 1, ..., N-1 in
order; the first column of a line is not read: changing it changes nothing. -/
theorem catalog_ids_are_line_numbers (lines : List (List Char))
    (infos queries : List ImageInfo)
    (h : ParseAnnotationFile (some lines) = Except.ok (infos, queries)) :
    infos.length = lines.length ∧
    (∀ (n : Nat) (x : ImageInfo), infos[n]? = some x → x.id = n) ∧
    infos.map (fun x => x.id) = (List.range lines.length).map Int.ofNat ∧
    (∀ (id : Int) (f0 g0 rest : List Char), ';' ∉ f0 → ';' ∉ g0 →
      parseLine id (f0 ++ ';' :: rest) = parseLine id (g0 ++ ';' :: rest)) := by
  obtain ⟨hlen, _, hid⟩ := ParseAnnotationFile_ok lines infos queries h
  refine ⟨hlen, fun n x hx => (hid n x hx).1, ?_, parseLine_first_field⟩
  apply List.ext_getElem?
  intro n
  by_cases hn : n < infos.length
  · have hx : infos[n]? = some (infos[n]) := List.getElem?_eq_getElem hn
    simp only [List.getElem?_map, hx, Option.map_some']
    rw [List.getElem?_range (by omega)]
    simp [(hid n _ hx).1]
  · rw [List.getElem?_eq_none (by simpa using hn), List.getElem?_eq_none (by simp; omega)]

/-- Witness of C12: the file `sampleAnnotation`, whose second line has 99 in
the first column and gets the id 1. -/
theorem catalog_ids_are_line_numbers_witness :
    ParseAnnotationFile (some sampleAnnotation) = Except.ok (sampleCatalog, sampleQueries) ∧
    sampleCatalog.length = sampleAnnotation.length ∧
    (∀ (n : Nat) (x : ImageInfo), sampleCatalog[n]? = some x → x.id = n) ∧
    sampleCatalog.map (fun x => x.id) =
      (List.range sampleAnnotation.length).map Int.ofNat ∧
    (∀ (id : Int) (f0 g0 rest : List Char), ';' ∉ f0 → ';' ∉ g0 →
      parseLine id (f0 ++ ';' :: rest) = parseLine id (g0 ++ ';' :: rest)) :=
  ⟨sample_parse,
    catalog_ids_are_line_numbers sampleAnnotation sampleCatalog sampleQueries sample_parse⟩

/-- C13, the code at the failing input: a file whose `is query` fields are 2
and -1 is parsed without error; both items get the query flag and enter the
query set. -/
theorem isQuery_outside_zero_one_is_accepted :
    ParseAnnotationFile (some isQueryTwoAnnotation) =
      Except.ok
        ([{ id := 0, classId := 5, isQuery := true, classCount := 3 },
          { id := 1, classId := 5, isQuery := true, classCount := 3 }],
         [{ id := 0, classId := 5, isQuery := true, classCount := 3 },
          { id := 1, classId := 5, isQuery := true, classCount := 3 }]) := by
  rfl

/-- C14, counterexample: the fields "12abc" and "3.5" are accepted, with the
values 12 and 3; and on the line "0;5", where the columns `is query` and
`class count` are absent, the token "5" is converted for all three columns. -/
theorem trailing_characters_are_accepted :
    parseLine 0 "0;12abc;0;3.5".toList =
      Except.ok { id := 0, classId := 12, isQuery := false, classCount := 3 } ∧
    parseLine 0 "0;5".toList =
      Except.ok { id := 0, classId := 5, isQuery := true, classCount := 5 } := by
  constructor <;> rfl

/-- C14, amended: on a line of at least four fields the parse fails exactly
when `stoi` throws on the second, third or fourth field, and otherwise stores
the values `stoi` returns; on a line of fewer fields the last field is
converted again for each absent column. `stoi` throws on the empty token and on a
token that starts with a character other than white space, a sign or a digit;
on a run of digits followed by anything that does not start with a digit it
returns the decimal value of the run (when that fits an `int`). -/
theorem parseLine_by_leading_integers (id : Int) (f0 f1 f2 f3 rest : List Char)
    (h0 : ';' ∉ f0) (h1 : ';' ∉ f1) (h2 : ';' ∉ f2) (h3 : ';' ∉ f3)
    (hrest : rest = [] ∨ ∃ more, rest = ';' :: more) :
    (parseLine id (f0 ++ ';' :: (f1 ++ ';' :: (f2 ++ ';' :: (f3 ++ rest)))) =
      match stoi f1 with
      | none => Except.error (ConstructError.parseError Column.class_id (id + 2))
      | some classId =>
        match stoi f2 with
        | none => Except.error (ConstructError.parseError Column.is_query (id + 2))
        | some isQuery =>
          match stoi f3 with
          | none => Except.error (ConstructError.parseError Column.class_count (id + 2))
          | some classCount =>
            Except.ok
              { id := id
                classId := classId
                isQuery := decide (isQuery ≠ 0)
                classCount := classCount }) ∧
    (parseLine id (f0 ++ ';' :: (f1 ++ ';' :: f2)) =
      match stoi f1 with
      | none => Except.error (ConstructError.parseError Column.class_id (id + 2))
      | some classId =>
        match stoi f2 with
        | none => Except.error (ConstructError.parseError Column.is_query (id + 2))
        | some v =>
          Except.ok
            { id := id, classId := classId, isQuery := decide (v ≠ 0), classCount := v }) ∧
    (parseLine id (f0 ++ ';' :: f1) =
      match stoi f1 with
      | none => Except.error (ConstructError.parseError Column.class_id (id + 2))
      | some v =>
        Except.ok { id := id, classId := v, isQuery := decide (v ≠ 0), classCount := v }) ∧
    (parseLine id f0 =
      match stoi f0 with
      | none => Except.error (ConstructError.parseError Column.class_id (id + 2))
      | some v =>
        Except.ok { id := id, classId := v, isQuery := decide (v ≠ 0), classCount := v }) ∧
    stoi [] = none ∧
    (∀ (c : Char) (cs : List Char), isSpace c = false → c ≠ '-' → c ≠ '+' →
      isDigit c = false → stoi (c :: cs) = none) ∧
    (∀ (ds junk : List Char), ds ≠ [] → (∀ c ∈ ds, isDigit c = true) →
      (junk = [] ∨ ∃ j js, junk = j :: js ∧ isDigit j = false) →
      digitsValue ds ≤ 2147483647 → stoi (ds ++ junk) = some (digitsValue ds : Int)) :=
  ⟨parseLine_four_fields id f0 f1 f2 f3 rest h0 h1 h2 h3 hrest,
    parseLine_three_fields id f0 f1 f2 h0 h1 h2, parseLine_two_fields id f0 f1 h0 h1,
    parseLine_one_field id f0 h0, stoi_no_digits.1, stoi_no_digits.2, stoi_digits⟩

/-- Witness of C14 (amended): the line "0;12abc;0;3.5". -/
theorem parseLine_by_leading_integers_witness :
    ';' ∉ "0".toList ∧ ';' ∉ "12abc".toList ∧ ';' ∉ "3.5".toList ∧
    stoi "12abc".toList = some 12 ∧ stoi "0".toList = some 0 ∧ stoi "3.5".toList = some 3 ∧
    parseLine 7 ("0".toList ++ ';' :: ("12abc".toList ++ ';' :: ("0".toList ++
        ';' :: ("3.5".toList ++ [])))) =
      match stoi "12abc".toList with
      | none => Except.error (ConstructError.parseError Column.class_id (7 + 2))
      | some classId =>
        match stoi "0".toList with
        | none => Except.error (ConstructError.parseError Column.is_query (7 + 2))
        | some isQuery =>
          match stoi "3.5".toList with
          | none => Except.error (ConstructError.parseError Column.class_count (7 + 2))
          | some classCount =>
            Except.ok
              { id := 7
                classId := classId
                isQuery := decide (isQuery ≠ 0)
                classCount := classCount } :=
  ⟨by decide, by decide, by decide, rfl, rfl, rfl,
    (parseLine_by_leading_integers 7 "0".toList "12abc".toList "0".toList "3.5".toList []
      (by decide) (by decide) (by decide) (by decide) (Or.inl rfl)).1⟩

/-- C15, the code at the failing input: the malformed class id stands on the
first line of the file (0-based line 0, line number 1), and the line number
reported is 2. -/
theorem reported_line_number_is_two_for_first_line :
    malformedAnnotation[0]? = some "0;x;0;1".toList ∧
    ParseAnnotationFile (some malformedAnnotation) =
      Except.error (ConstructError.parseError Column.class_id 2) := by
  constructor <;> rfl

/-- C16: after a successful parse the query set is the catalog filtered by the
query flag (same order), every query is the catalog item at the index given by
its id, and in an object constructed from the file every query id is the index
of a row of the feature matrix. -/
theorem query_set_is_flagged_subsequence (lines : List (List Char))
    (infos queries : List ImageInfo)
    (h : ParseAnnotationFile (some lines) = Except.ok (infos, queries)) :
    queries = infos.filter (fun x => x.isQuery) ∧
    (∀ q ∈ queries, 0 ≤ q.id ∧ infos[q.id.toNat]? = some q) ∧
    (∀ (features : List (List ℚ)) (obj : MapEvaluatorObject),
      MapEvaluatorObject.construct features (some lines) = Except.ok obj →
      obj.mImageInfos = infos ∧ obj.mQueryInfos = queries ∧
      ∀ q ∈ queries, ∃ row, featureRow obj.mFeatures q.id = Except.ok row) := by
  obtain ⟨_, hq, hid⟩ := ParseAnnotationFile_ok lines infos queries h
  have hidx : ∀ q ∈ queries, 0 ≤ q.id ∧ infos[q.id.toNat]? = some q := by
    intro q hqm
    rw [hq] at hqm
    obtain ⟨n, hn⟩ := List.mem_iff_getElem?.mp (List.mem_filter.mp hqm).1
    have hqid := (hid n q hn).1
    rw [hqid]
    exact ⟨by omega, by simpa using hn⟩
  refine ⟨hq, hidx, fun features obj hc => ?_⟩
  rw [construct_of_parse features lines infos queries h] at hc
  by_cases hl : features.length = infos.length
  · rw [if_pos hl] at hc
    simp only [Except.ok.injEq] at hc
    rw [← hc]
    refine ⟨rfl, rfl, fun q hqm => ?_⟩
    obtain ⟨h0, hget⟩ := hidx q hqm
    have hlt : q.id.toNat < infos.length := by
      by_contra hge
      rw [List.getElem?_eq_none (by omega)] at hget
      exact Option.noConfusion hget
    have hrow : features[q.id.toNat]? = some (features[q.id.toNat]) :=
      List.getElem?_eq_getElem (by omega)
    refine ⟨features[q.id.toNat], ?_⟩
    unfold featureRow
    simp only [not_lt.mpr h0, if_false, hrow]
  · rw [if_neg hl] at hc
    exact Except.noConfusion hc

/-- Witness of C16: the file `sampleAnnotation`. -/
theorem query_set_is_flagged_subsequence_witness :
    ParseAnnotationFile (some sampleAnnotation) = Except.ok (sampleCatalog, sampleQueries) ∧
    sampleQueries = sampleCatalog.filter (fun x => x.isQuery) ∧
    (∀ q ∈ sampleQueries, 0 ≤ q.id ∧ sampleCatalog[q.id.toNat]? = some q) ∧
    (∀ (features : List (List ℚ)) (obj : MapEvaluatorObject),
      MapEvaluatorObject.construct features (some sampleAnnotation) = Except.ok obj →
      obj.mImageInfos = sampleCatalog ∧ obj.mQueryInfos = sampleQueries ∧
      ∀ q ∈ sampleQueries, ∃ row, featureRow obj.mFeatures q.id = Except.ok row) :=
  ⟨sample_parse,
    query_set_is_flagged_subsequence sampleAnnotation sampleCatalog sampleQueries sample_parse⟩

/-- C17: for an annotation file that parses, the constructor fails if and only
if the number of rows of the loaded feature matrix differs from the number of
catalog items, the failure being the row-count check of the constructor; with
equal numbers it returns the object (distance function L2, exclusion on, topK
0). No query is evaluated by the constructor: `Evaluate` needs the object. -/
theorem construction_fails_iff_row_count_differs (features : List (List ℚ))
    (lines : List (List Char)) (infos queries : List ImageInfo)
    (h : ParseAnnotationFile (some lines) = Except.ok (infos, queries)) :
    ((∃ e, MapEvaluatorObject.construct features (some lines) = Except.error e) ↔
      features.length ≠ infos.length) ∧
    (features.length ≠ infos.length →
      MapEvaluatorObject.construct features (some lines) =
        Except.error ConstructError.rowCountMismatch) ∧
    (features.length = infos.length →
      MapEvaluatorObject.construct features (some lines) =
        Except.ok
          { mExcludeQueryFromDB := true
            mTopK := 0
            mFeatures := features
            mImageInfos := infos
            mQueryInfos := queries
            mDistanceFunction := DistanceFunction.L2
            mDistanceFunctionParameter := Dbl.fin 0 }) := by
  rw [construct_of_parse features lines infos queries h]
  by_cases hl : features.length = infos.length
  · simp [hl]
  · simp [hl]

/-- Witness of C17: the file `sampleAnnotation` (three items) with a feature
matrix of two rows. -/
theorem construction_fails_iff_row_count_differs_witness :
    ParseAnnotationFile (some sampleAnnotation) = Except.ok (sampleCatalog, sampleQueries) ∧
    metricFeatures.length ≠ sampleCatalog.length ∧
    MapEvaluatorObject.construct metricFeatures (some sampleAnnotation) =
      Except.error ConstructError.rowCountMismatch :=
  ⟨sample_parse, by decide,
    (construction_fails_iff_row_count_differs metricFeatures sampleAnnotation sampleCatalog
      sampleQueries sample_parse).2.1 (by decide)⟩

/-- C21: for vectors `a` and `b` of equal length, under each of the selectors
L1, L2, L2Squared, Infinity and Hamming, `ComputeFeatureDistance(a, b)` and
`ComputeFeatureDistance(b, a)` both return, and return the same finite
value. -/
theorem distance_is_symmetric (sqrt : ℚ → ℚ) (a b : List ℚ) (h : a.length = b.length) :
    (∃ d : ℚ, ComputeFeatureDistance sqrt DistanceFunction.L1 a b = Except.ok (Dbl.fin d) ∧
      ComputeFeatureDistance sqrt DistanceFunction.L1 b a = Except.ok (Dbl.fin d)) ∧
    (∃ d : ℚ, ComputeFeatureDistance sqrt DistanceFunction.L2 a b = Except.ok (Dbl.fin d) ∧
      ComputeFeatureDistance sqrt DistanceFunction.L2 b a = Except.ok (Dbl.fin d)) ∧
    (∃ d : ℚ, ComputeFeatureDistance sqrt DistanceFunction.L2Squared a b =
        Except.ok (Dbl.fin d) ∧
      ComputeFeatureDistance sqrt DistanceFunction.L2Squared b a = Except.ok (Dbl.fin d)) ∧
    (∃ d : ℚ, ComputeFeatureDistance sqrt DistanceFunction.Infinity a b =
        Except.ok (Dbl.fin d) ∧
      ComputeFeatureDistance sqrt DistanceFunction.Infinity b a = Except.ok (Dbl.fin d)) ∧
    (∃ d : ℚ, ComputeFeatureDistance sqrt DistanceFunction.Hamming a b =
        Except.ok (Dbl.fin d) ∧
      ComputeFeatureDistance sqrt DistanceFunction.Hamming b a = Except.ok (Dbl.fin d)) := by
  refine ⟨cvNormDiff_comm sqrt a b NormType.NORM_L1 h, cvNormDiff_comm sqrt a b NormType.NORM_L2 h,
    cvNormDiff_comm sqrt a b NormType.NORM_L2SQR h, cvNormDiff_comm sqrt a b NormType.NORM_INF h,
    ⟨(differingSupport a b : ℚ), ?_, ?_⟩⟩
  · exact hamming_eq_count a b h
  · simp only [ComputeFeatureDistance]
    rw [hamming_eq_count b a h.symm, differingSupport_comm b a]

/-- Witness of C21: the vectors `[1, 0, 3]` and `[0, 0, 7]`, at L1 distance 5
and Hamming distance 1 in both orders. -/
theorem distance_is_symmetric_witness :
    ([1, 0, 3] : List ℚ).length = ([0, 0, 7] : List ℚ).length ∧
    ComputeFeatureDistance exactSqrt DistanceFunction.L1 [1, 0, 3] [0, 0, 7] =
      Except.ok (Dbl.fin 5) ∧
    ComputeFeatureDistance exactSqrt DistanceFunction.L1 [0, 0, 7] [1, 0, 3] =
      Except.ok (Dbl.fin 5) ∧
    (∃ d : ℚ, ComputeFeatureDistance exactSqrt DistanceFunction.Hamming [1, 0, 3] [0, 0, 7] =
        Except.ok (Dbl.fin d) ∧
      ComputeFeatureDistance exactSqrt DistanceFunction.Hamming [0, 0, 7] [1, 0, 3] =
        Except.ok (Dbl.fin d)) :=
  ⟨rfl, by simp [ComputeFeatureDistance, cvNormDiff, cvSum]; norm_num,
    by simp [ComputeFeatureDistance, cvNormDiff, cvSum]; norm_num,
    (distance_is_symmetric exactSqrt [1, 0, 3] [0, 0, 7] rfl).2.2.2.2⟩


/-- C22, counterexample: `Evaluate` on `tieEvaluator` returns with a catalog
that is not the catalog before the call: the distance fields, all -1 before,
hold 1, 0 and 0 afterwards, the distances to the last query (item 1). -/
theorem evaluate_writes_distance_field :
    Evaluate absDistance insertionSortByDistance tieEvaluator =
      Except.ok (Dbl.fin (5 / 8), { tieEvaluator with mImageInfos := tieDistances1 }) ∧
    tieEvaluator.mImageInfos.map ImageInfo.distance =
      [Dbl.fin (-1), Dbl.fin (-1), Dbl.fin (-1)] ∧
    tieDistances1.map ImageInfo.distance = [Dbl.fin 1, Dbl.fin 0, Dbl.fin 0] ∧
    tieDistances1 ≠ tieEvaluator.mImageInfos := by
  obtain ⟨infos1, h1⟩ := Evaluate_ok absDistance insertionSortByDistance tieEvaluator
    tieAveragePrecision tie_queryAveragePrecision
  have h2 := (Evaluate_catalog absDistance insertionSortByDistance tieEvaluator _ _ h1).2.2.2
    tieQuery1 rfl
  rw [tie_distancePass1] at h2
  simp only [Except.ok.injEq] at h2
  have h3 : (Dbl.sum (tieEvaluator.mQueryInfos.map tieAveragePrecision)).div
      (Dbl.ofInt tieEvaluator.mQueryInfos.length) = Dbl.fin (5 / 8) := by
    simp [Dbl.sum, tieEvaluator, tieAveragePrecision, Dbl.div, Dbl.ofInt]
    norm_num
  refine ⟨?_, rfl, rfl, by decide⟩
  rw [h1, h3, ← h2]

/-- C22, amended: when `Evaluate` returns, the feature matrix, the query set
and the configuration are as before the call, and every catalog item has its
id, classId, isQuery and classCount as before; the distance field of the
items is overwritten: with an empty query set the catalog is unchanged, and
otherwise the catalog is what the distance pass of the last query makes of
it, each item holding its distance to that query. -/
theorem evaluate_overwrites_only_distances {Mat : Type}
    (ComputeFeatureDistance : Mat → Mat → Except EvalError Dbl)
    (sort : List ImageInfo → List ImageInfo) (ev : Evaluator Mat) (v : Dbl)
    (ev1 : Evaluator Mat) (h : Evaluate ComputeFeatureDistance sort ev = Except.ok (v, ev1)) :
    ev1.mFeatures = ev.mFeatures ∧ ev1.mQueryInfos = ev.mQueryInfos ∧
    ev1.toConfig = ev.toConfig ∧
    eraseDistance ev1.mImageInfos = eraseDistance ev.mImageInfos ∧
    (ev.mQueryInfos = [] → ev1.mImageInfos = ev.mImageInfos) ∧
    ∀ q, ev.mQueryInfos.getLast? = some q →
      distancePass ComputeFeatureDistance ev.mFeatures ev.mImageInfos q =
        Except.ok ev1.mImageInfos ∧
      ∃ queryFeature, featureRow ev.mFeatures q.id = Except.ok queryFeature ∧
        ∀ (j : Nat) (x : ImageInfo), ev1.mImageInfos[j]? = some x →
          ∃ imageFeature, featureRow ev.mFeatures (j : Int) = Except.ok imageFeature ∧
            ComputeFeatureDistance queryFeature imageFeature = Except.ok x.distance := by
  obtain ⟨h1, h2, h3, h4⟩ := Evaluate_catalog ComputeFeatureDistance sort ev v ev1 h
  refine ⟨by rw [h1], by rw [h1], by rw [h1], h2, h3, ?_⟩
  intro q hq
  have hp := h4 q hq
  refine ⟨hp, ?_⟩
  unfold distancePass at hp
  cases hrow : featureRow ev.mFeatures q.id with
  | error e => rw [hrow] at hp; exact Except.noConfusion hp
  | ok queryFeature =>
    rw [hrow] at hp
    refine ⟨queryFeature, rfl, ?_⟩
    intro j x hx
    have := computeDistances_distance ComputeFeatureDistance ev.mFeatures queryFeature
      ev.mImageInfos 0 ev1.mImageInfos hp j x hx
    simpa using this

/-- Witness of C22, amended: `Evaluate` on `tieEvaluator`. -/
theorem evaluate_overwrites_only_distances_witness :
    Evaluate absDistance insertionSortByDistance tieEvaluator =
      Except.ok (Dbl.fin (5 / 8), { tieEvaluator with mImageInfos := tieDistances1 }) ∧
    eraseDistance tieDistances1 = eraseDistance tieEvaluator.mImageInfos ∧
    distancePass absDistance tieEvaluator.mFeatures tieEvaluator.mImageInfos tieQuery1 =
      Except.ok tieDistances1 :=
  have h : Evaluate absDistance insertionSortByDistance tieEvaluator =
      Except.ok (Dbl.fin (5 / 8), { tieEvaluator with mImageInfos := tieDistances1 }) := by
    obtain ⟨infos1, h1⟩ := Evaluate_ok absDistance insertionSortByDistance tieEvaluator
      tieAveragePrecision tie_queryAveragePrecision
    have h2 := (Evaluate_catalog absDistance insertionSortByDistance tieEvaluator _ _ h1).2.2.2
      tieQuery1 rfl
    rw [tie_distancePass1] at h2
    simp only [Except.ok.injEq] at h2
    have h3 : (Dbl.sum (tieEvaluator.mQueryInfos.map tieAveragePrecision)).div
        (Dbl.ofInt tieEvaluator.mQueryInfos.length) = Dbl.fin (5 / 8) := by
      simp [Dbl.sum, tieEvaluator, tieAveragePrecision, Dbl.div, Dbl.ofInt]
      norm_num
    rw [h1, h3, ← h2]
  ⟨h,
    (evaluate_overwrites_only_distances absDistance insertionSortByDistance tieEvaluator _ _
      h).2.2.2.1,
    ((evaluate_overwrites_only_distances absDistance insertionSortByDistance tieEvaluator _ _
      h).2.2.2.2.2 tieQuery1 rfl).1⟩



/-- C24, counterexample: in the worked scenario the first consumed position
(`p = 0` positions consumed before it) comes after the skip of the query's own
entry, at raw index 1. The claimed divisor `p = 0` would make the precision
1/0; the code divides by the raw index 1 and records the precision 1. -/
theorem divisor_after_skip_is_not_consumed_count :
    (finalState scenarioConfig scenarioQuery scenarioRanking).consumed[0]? =
      some (1, scenarioItem 1 7 false 2 1) ∧
    skippedBefore scenarioConfig scenarioQuery scenarioRanking 1 = true ∧
    (finalState scenarioConfig scenarioQuery scenarioRanking).precisionRecallValues[0]? =
      some (Dbl.fin 1, Dbl.fin 1) ∧
    matchCountAt scenarioQuery
      (finalState scenarioConfig scenarioQuery scenarioRanking).consumed 0 = Dbl.fin 1 ∧
    claimedDivisor true 0 = 0 ∧
    (Dbl.fin 1).div (Dbl.ofInt (claimedDivisor true 0)) = Dbl.pinf ∧
    usedDivisor scenarioConfig scenarioQuery scenarioRanking 1 = 1 ∧
    (Dbl.fin 1).div (Dbl.ofInt (usedDivisor scenarioConfig scenarioQuery scenarioRanking 1)) =
      Dbl.fin 1 := by
  have hs : skippedBefore scenarioConfig scenarioQuery scenarioRanking 1 = true := by
    simp [skippedBefore, scenarioConfig, scenarioQuery, scenarioRanking, scenarioItem]
  have hu : usedDivisor scenarioConfig scenarioQuery scenarioRanking 1 = 1 := by
    simp [usedDivisor, hs]
  rw [scenario_finalState, hu]
  refine ⟨rfl, hs, rfl, ?_, rfl, ?_, rfl, ?_⟩
  · simp [matchCountAt, sameClassCount, scenarioQuery, scenarioItem]
  · simp [claimedDivisor, Dbl.div, Dbl.ofInt]
  · simp [Dbl.div, Dbl.ofInt]

/-- C24, amended: at the consumed position `j` (so `j` positions were consumed
before it), standing at raw index `i` of the ranking, the recorded precision
is `matchCount / d` with `d = i + 1` as long as the query's own entry has not
been skipped and `d = i`, the raw index, after it has been. Before the skip
`i = j`, so `d = j + 1`; after it `i ≥ j + 1`, so `d` is never the number `j`
of positions consumed before. -/
theorem precision_divisor_is_raw_index (cfg : Config) (query : ImageInfo)
    (sortedResult : List ImageInfo) (j i : Nat) (x : ImageInfo)
    (hj : (finalState cfg query sortedResult).consumed[j]? = some (i, x)) :
    sortedResult[i]? = some x ∧
    (finalState cfg query sortedResult).precisionRecallValues[j]? = some
      ((matchCountAt query (finalState cfg query sortedResult).consumed j).div
          (Dbl.ofInt (usedDivisor cfg query sortedResult i)),
        (matchCountAt query (finalState cfg query sortedResult).consumed j).div
          (adjustedMatches cfg query sortedResult.length)) ∧
    (skippedBefore cfg query sortedResult i = false →
      usedDivisor cfg query sortedResult i = (i : Int) + 1 ∧ i = j ∧
      usedDivisor cfg query sortedResult i = claimedDivisor false j) ∧
    (skippedBefore cfg query sortedResult i = true →
      usedDivisor cfg query sortedResult i = (i : Int) ∧ j + 1 ≤ i ∧
      usedDivisor cfg query sortedResult i ≠ claimedDivisor true j) := by
  obtain ⟨n, hb, ht⟩ := finalState_trace cfg query sortedResult
  refine ⟨hb.entry (i, x) (List.mem_iff_getElem?.mpr ⟨j, hj⟩), ht.sample j i x hj, ?_, ?_⟩
  · intro hs
    have hij := (ht.position j i x hj).1 hs
    refine ⟨by simp [usedDivisor, hs], hij, ?_⟩
    rw [← hij]
    simp [usedDivisor, hs, claimedDivisor]
  · intro hs
    have hij := (ht.position j i x hj).2 hs
    refine ⟨by simp [usedDivisor, hs], hij, ?_⟩
    simp only [usedDivisor, hs, if_true, claimedDivisor]
    omega

/-- Witness of C24, amended: the first consumed position of the worked
scenario, at raw index 1. -/
theorem precision_divisor_is_raw_index_witness :
    (finalState scenarioConfig scenarioQuery scenarioRanking).consumed[0]? =
      some (1, scenarioItem 1 7 false 2 1) ∧
    scenarioRanking[1]? = some (scenarioItem 1 7 false 2 1) ∧
    (skippedBefore scenarioConfig scenarioQuery scenarioRanking 1 = true →
      usedDivisor scenarioConfig scenarioQuery scenarioRanking 1 = ((1 : Nat) : Int) ∧
      0 + 1 ≤ 1 ∧
      usedDivisor scenarioConfig scenarioQuery scenarioRanking 1 ≠ claimedDivisor true 0) :=
  have h : (finalState scenarioConfig scenarioQuery scenarioRanking).consumed[0]? =
      some (1, scenarioItem 1 7 false 2 1) := by
    rw [scenario_finalState]; rfl
  ⟨h,
    (precision_divisor_is_raw_index scenarioConfig scenarioQuery scenarioRanking 0 1
      (scenarioItem 1 7 false 2 1) h).1,
    (precision_divisor_is_raw_index scenarioConfig scenarioQuery scenarioRanking 0 1
      (scenarioItem 1 7 false 2 1) h).2.2.2⟩


/-- C25: when `EvaluateAveragePrecision` returns (the ranking is not empty, or
the exclusion is off), the returned value is the trapezoidal sum over the
recorded samples of `(recall_j - recall_{j-1}) * (precision_j +
precision_{j-1}) / 2` from `recall_{-1} = 0` and `precision_{-1} = 1`; one
sample is recorded per consumed position, and the sample of the consumed
position `j` is `(precision_j, recall_j)` with `recall_j = matchCount_j /
matches` and `precision_j = matchCount_j` over the divisor at its raw index. -/
theorem averagePrecision_is_trapezoidal_sum (cfg : Config) (query : ImageInfo)
    (sortedResult : List ImageInfo) (h : 0 ≤ resultCount cfg sortedResult.length) :
    ∃ r, EvaluateAveragePrecision cfg query sortedResult = Except.ok r ∧
      r.averagePrecision = trapezoidalSum r.precisionRecallValues ∧
      r.precisionRecallValues.length = (finalState cfg query sortedResult).consumed.length ∧
      ∀ (j i : Nat) (x : ImageInfo),
        (finalState cfg query sortedResult).consumed[j]? = some (i, x) →
        r.precisionRecallValues[j]? = some
          ((matchCountAt query (finalState cfg query sortedResult).consumed j).div
              (Dbl.ofInt (usedDivisor cfg query sortedResult i)),
            (matchCountAt query (finalState cfg query sortedResult).consumed j).div
              (adjustedMatches cfg query sortedResult.length)) := by
  obtain ⟨n, hb, ht⟩ := finalState_trace cfg query sortedResult
  exact ⟨_, EvaluateAveragePrecision_ok cfg query sortedResult h,
    (finalState_trap cfg query sortedResult).1, hb.len.symm, ht.sample⟩

/-- Witness of C25: the worked scenario, whose three samples sum to 1. -/
theorem averagePrecision_is_trapezoidal_sum_witness :
    0 ≤ resultCount scenarioConfig scenarioRanking.length ∧
    EvaluateAveragePrecision scenarioConfig scenarioQuery scenarioRanking =
      Except.ok scenarioResult ∧
    trapezoidalSum scenarioResult.precisionRecallValues = Dbl.fin 1 := by
  have h0 : 0 ≤ resultCount scenarioConfig scenarioRanking.length := by decide
  obtain ⟨r, hr, hap, _⟩ :=
    averagePrecision_is_trapezoidal_sum scenarioConfig scenarioQuery scenarioRanking h0
  rw [scenario_result] at hr
  simp only [Except.ok.injEq] at hr
  rw [← hr] at hap
  exact ⟨h0, scenario_result, hap.symm⟩


/-- C26, counterexample: in the worked scenario with `topK = 2`, which
exceeds the match count 1, the two `min` adjustments are applied (`nResults`
becomes 2, `matches` stays 1) and the warning is logged, and the perfect
ranking still scores exactly 1.0, which is not below 1.0. -/
theorem topK_above_match_count_scores_one :
    Dbl.lt (matchesBeforeTopK topKConfig scenarioQuery) (Dbl.ofInt topKConfig.mTopK) = true ∧
    resultCount topKConfig scenarioRanking.length = 2 ∧
    adjustedMatches topKConfig scenarioQuery scenarioRanking.length = Dbl.fin 1 ∧
    EvaluateAveragePrecision topKConfig scenarioQuery scenarioRanking =
      Except.ok
        { averagePrecision := Dbl.fin 1
          precisionRecallValues := [(Dbl.fin 1, Dbl.fin 1), (Dbl.fin (1 / 2), Dbl.fin 1)]
          warning := true } ∧
    Dbl.lt (Dbl.fin 1) (Dbl.fin 1) = false := by
  refine ⟨?_, by decide, ?_, ?_, by simp [Dbl.lt]⟩
  · simp [matchesBeforeTopK, topKConfig, scenarioQuery, scenarioItem, Dbl.ofInt, Dbl.lt]
  · simp [adjustedMatches, matchesBeforeTopK, topKConfig, scenarioQuery, scenarioItem,
      scenarioRanking, resultCount, Dbl.ofInt, Dbl.min, Dbl.lt]
    norm_num
  · rw [EvaluateAveragePrecision_ok _ _ _ (by decide), topK_finalState]
    simp [topKConfig, scenarioQuery, scenarioItem, matchesBeforeTopK, Dbl.ofInt, Dbl.lt]

/-- C26, amended: when `topK` exceeds the query's match count (classCount,
less one under the exclusion), `nResults = min(topK, nResults)` and
`matches = min(nResults, matches)` are applied, which leaves `matches` at the
match count, the warning is logged, and a perfect ranking (the entries of the
query's class are exactly the first classCount entries, the query's own entry
among them) still scores exactly 1.0. -/
theorem topK_above_match_count_keeps_perfect_score (cfg : Config) (query : ImageInfo)
    (sortedResult : List ImageInfo) (pos : Nat) (own : ImageInfo)
    (hexceeds : (if cfg.mExcludeQueryFromDB then query.classCount - 1 else query.classCount) <
      cfg.mTopK)
    (hlen : query.classCount ≤ sortedResult.length)
    (hclass : ∀ (i : Nat) (x : ImageInfo), sortedResult[i]? = some x →
      (x.classId = query.classId ↔ (i : Int) < query.classCount))
    (hown : sortedResult[pos]? = some own) (hownid : own.id = query.id)
    (howncl : own.classId = query.classId)
    (huniq : ∀ (i : Nat) (x : ImageInfo), sortedResult[i]? = some x → x.id = query.id →
      i = pos)
    (hex : cfg.mExcludeQueryFromDB = true → 2 ≤ query.classCount) :
    resultCount cfg sortedResult.length =
      min cfg.mTopK (if cfg.mExcludeQueryFromDB then (sortedResult.length : Int) - 1
        else sortedResult.length) ∧
    adjustedMatches cfg query sortedResult.length =
      Dbl.min (Dbl.ofInt (resultCount cfg sortedResult.length)) (matchesBeforeTopK cfg query) ∧
    adjustedMatches cfg query sortedResult.length =
      Dbl.ofInt (if cfg.mExcludeQueryFromDB then query.classCount - 1 else query.classCount) ∧
    ∃ r, EvaluateAveragePrecision cfg query sortedResult = Except.ok r ∧
      r.warning = true ∧ r.averagePrecision = Dbl.fin 1 := by
  have hposc : (pos : Int) < query.classCount := (hclass pos own hown).mp howncl
  obtain ⟨c, hcc⟩ : ∃ c : Nat, query.classCount = (c : Int) :=
    ⟨query.classCount.toNat, by omega⟩
  have htop : cfg.mTopK > 0 := by
    by_cases hexc : cfg.mExcludeQueryFromDB = true
    · have := hex hexc
      rw [if_pos hexc] at hexceeds
      omega
    · rw [if_neg hexc] at hexceeds
      omega
  have hrc : resultCount cfg sortedResult.length =
      min cfg.mTopK (if cfg.mExcludeQueryFromDB then (sortedResult.length : Int) - 1
        else sortedResult.length) := by
    simp only [resultCount, htop, if_true]
  have ham : adjustedMatches cfg query sortedResult.length =
      Dbl.min (Dbl.ofInt (resultCount cfg sortedResult.length))
        (matchesBeforeTopK cfg query) := by
    simp only [adjustedMatches, htop, if_true]
  have hmb : matchesBeforeTopK cfg query =
      Dbl.ofInt (if cfg.mExcludeQueryFromDB then query.classCount - 1
        else query.classCount) := by
    by_cases hexc : cfg.mExcludeQueryFromDB = true
    · simp [matchesBeforeTopK, hexc, Dbl.ofInt]
    · simp [matchesBeforeTopK, hexc, Dbl.ofInt]
  have hle : (if cfg.mExcludeQueryFromDB then query.classCount - 1 else query.classCount) ≤
      resultCount cfg sortedResult.length := by
    rw [hrc]
    apply le_min (le_of_lt hexceeds)
    by_cases hexc : cfg.mExcludeQueryFromDB = true
    · rw [if_pos hexc, if_pos hexc]; omega
    · rw [if_neg hexc, if_neg hexc]; exact hlen
  have hamv : adjustedMatches cfg query sortedResult.length =
      Dbl.ofInt (if cfg.mExcludeQueryFromDB then query.classCount - 1
        else query.classCount) := by
    rw [ham, hmb]
    unfold Dbl.ofInt
    exact dbl_min_fin _ _ (by exact_mod_cast hle)
  have hn0 : 0 ≤ resultCount cfg sortedResult.length := by
    refine le_trans ?_ hle
    by_cases hexc : cfg.mExcludeQueryFromDB = true
    · have := hex hexc
      rw [if_pos hexc]; omega
    · rw [if_neg hexc]; omega
  have hwarn : Dbl.lt (matchesBeforeTopK cfg query) (Dbl.ofInt cfg.mTopK) = true := by
    rw [hmb]
    simp only [Dbl.ofInt, Dbl.lt, decide_eq_true_eq]
    exact_mod_cast hexceeds
  refine ⟨hrc, ham, hamv, _, EvaluateAveragePrecision_ok cfg query sortedResult hn0, hwarn, ?_⟩
  by_cases hexc : cfg.mExcludeQueryFromDB = true
  · have h2 := hex hexc
    rw [if_pos hexc] at hle hamv
    apply finalState_perfect_of_le cfg query sortedResult (c - 1) pos c own ?_ ?_ (by omega)
      (by rw [if_pos hexc]; omega) (by omega)
      (fun i x hx => by rw [hclass i x hx, hcc]; omega) hown hownid (by omega) huniq
    · rw [hamv, hcc]
      unfold Dbl.ofInt
      congr 1
      have : 1 ≤ c := by omega
      push_cast [this]
      ring
    · omega
  · rw [if_neg hexc] at hle hamv
    apply finalState_perfect_of_le cfg query sortedResult c pos c own ?_ ?_ (by omega)
      (by rw [if_neg hexc]) (by omega)
      (fun i x hx => by rw [hclass i x hx, hcc]; omega) hown hownid (by omega) huniq
    · rw [hamv, hcc]
      unfold Dbl.ofInt
      congr 1
    · omega

/-- Witness of C26, amended: the worked scenario with `topK = 2`. -/
theorem topK_above_match_count_keeps_perfect_score_witness :
    (if topKConfig.mExcludeQueryFromDB then scenarioQuery.classCount - 1
      else scenarioQuery.classCount) < topKConfig.mTopK ∧
    scenarioQuery.classCount ≤ scenarioRanking.length ∧
    (∀ (i : Nat) (x : ImageInfo), scenarioRanking[i]? = some x →
      (x.classId = scenarioQuery.classId ↔ (i : Int) < scenarioQuery.classCount)) ∧
    scenarioRanking[0]? = some (scenarioItem 0 7 true 2 0) ∧
    (∀ (i : Nat) (x : ImageInfo), scenarioRanking[i]? = some x → x.id = scenarioQuery.id →
      i = 0) ∧
    (topKConfig.mExcludeQueryFromDB = true → 2 ≤ scenarioQuery.classCount) ∧
    ∃ r, EvaluateAveragePrecision topKConfig scenarioQuery scenarioRanking = Except.ok r ∧
      r.warning = true ∧ r.averagePrecision = Dbl.fin 1 :=
  have h1 : (if topKConfig.mExcludeQueryFromDB then scenarioQuery.classCount - 1
      else scenarioQuery.classCount) < topKConfig.mTopK := by
    simp [topKConfig, scenarioQuery, scenarioItem]
  have h2 : scenarioQuery.classCount ≤ scenarioRanking.length := by
    simp [scenarioQuery, scenarioItem, scenarioRanking]
  have h3 : ∀ (i : Nat) (x : ImageInfo), scenarioRanking[i]? = some x →
      (x.classId = scenarioQuery.classId ↔ (i : Int) < scenarioQuery.classCount) := by
    intro i x hx
    rcases i with _ | _ | _ | _ | i <;>
      simp [scenarioRanking, scenarioItem, scenarioQuery] at hx ⊢ <;> subst hx <;> simp
  have h4 : scenarioRanking[0]? = some (scenarioItem 0 7 true 2 0) := rfl
  have h5 : ∀ (i : Nat) (x : ImageInfo), scenarioRanking[i]? = some x →
      x.id = scenarioQuery.id → i = 0 := by
    intro i x hx hid
    rcases i with _ | _ | _ | _ | i <;>
      simp [scenarioRanking, scenarioItem, scenarioQuery] at hx hid ⊢ <;> subst hx <;>
      simp at hid
  have h6 : topKConfig.mExcludeQueryFromDB = true → 2 ≤ scenarioQuery.classCount := by
    intro _; simp [scenarioQuery, scenarioItem]
  ⟨h1, h2, h3, h4, h5, h6,
    (topK_above_match_count_keeps_perfect_score topKConfig scenarioQuery scenarioRanking 0
      (scenarioItem 0 7 true 2 0) h1 h2 h3 h4 rfl rfl h5 h6).2.2.2⟩


/-- C27: whatever queries `done` the loop of `Evaluate` has processed before,
from the catalog `infos0`, the turn of the loop for a query `q` has the same
outcome on the catalog they left (`st.2`) as on `infos0`: the same ranking and
the same average precision. More generally the ranking, the average precision
and the turn of the loop are the same for any two catalogs that differ in the
distance fields only. -/
theorem distance_scratch_not_read_across_queries {Mat : Type}
    (ComputeFeatureDistance : Mat → Mat → Except EvalError Dbl)
    (sort : List ImageInfo → List ImageInfo) (cfg : Config) (mFeatures : List Mat)
    (infos0 done : List ImageInfo) (acc0 : Dbl) (st : Dbl × List ImageInfo)
    (h : evaluateLoop ComputeFeatureDistance sort cfg mFeatures done (acc0, infos0) =
      Except.ok st) (q : ImageInfo) :
    queryRanking ComputeFeatureDistance sort mFeatures st.2 q =
      queryRanking ComputeFeatureDistance sort mFeatures infos0 q ∧
    queryAveragePrecision ComputeFeatureDistance sort cfg mFeatures st.2 q =
      queryAveragePrecision ComputeFeatureDistance sort cfg mFeatures infos0 q ∧
    evaluateQuery ComputeFeatureDistance sort cfg mFeatures q st =
      evaluateQuery ComputeFeatureDistance sort cfg mFeatures q (st.1, infos0) ∧
    ∀ infos1 : List ImageInfo, eraseDistance infos1 = eraseDistance infos0 →
      queryRanking ComputeFeatureDistance sort mFeatures infos1 q =
        queryRanking ComputeFeatureDistance sort mFeatures infos0 q ∧
      queryAveragePrecision ComputeFeatureDistance sort cfg mFeatures infos1 q =
        queryAveragePrecision ComputeFeatureDistance sort cfg mFeatures infos0 q ∧
      evaluateQuery ComputeFeatureDistance sort cfg mFeatures q (st.1, infos1) =
        evaluateQuery ComputeFeatureDistance sort cfg mFeatures q (st.1, infos0) := by
  have he : eraseDistance st.2 = eraseDistance infos0 :=
    (evaluateLoop_catalog ComputeFeatureDistance sort cfg mFeatures done (acc0, infos0) st h).1
  exact ⟨queryRanking_congr ComputeFeatureDistance sort mFeatures q st.2 infos0 he,
    queryAveragePrecision_congr ComputeFeatureDistance sort cfg mFeatures q st.2 infos0 he,
    evaluateQuery_congr ComputeFeatureDistance sort cfg mFeatures q st.1 st.2 infos0 he,
    fun infos1 h1 =>
      ⟨queryRanking_congr ComputeFeatureDistance sort mFeatures q infos1 infos0 h1,
        queryAveragePrecision_congr ComputeFeatureDistance sort cfg mFeatures q infos1 infos0 h1,
        evaluateQuery_congr ComputeFeatureDistance sort cfg mFeatures q st.1 infos1 infos0 h1⟩⟩

/-- Witness of C27: in `tieEvaluator` the second query (item 1) is processed
on the catalog holding the distances to item 0; its average precision is the
1/4 computed from the initial catalog. -/
theorem distance_scratch_not_read_across_queries_witness :
    evaluateLoop absDistance insertionSortByDistance tieEvaluator.toConfig
      tieEvaluator.mFeatures [tieQuery0] (Dbl.fin 0, tieEvaluator.mImageInfos) =
      Except.ok (Dbl.fin 1, tieDistances0) ∧
    queryAveragePrecision absDistance insertionSortByDistance tieEvaluator.toConfig
      tieEvaluator.mFeatures tieDistances0 tieQuery1 = Except.ok (Dbl.fin (1 / 4)) :=
  ⟨tie_evaluateLoop0, by
    rw [← tie_averagePrecision1]
    exact (distance_scratch_not_read_across_queries absDistance insertionSortByDistance
      tieEvaluator.toConfig tieEvaluator.mFeatures tieEvaluator.mImageInfos [tieQuery0]
      (Dbl.fin 0) (Dbl.fin 1, tieDistances0) tie_evaluateLoop0 tieQuery1).2.1⟩


/-- C28: for a ranking that holds the query's id at most once, with or
without the exclusion, one sample is recorded per consumed position, and the
divisor used at the consumed position `j` (raw index `i`: `i + 1` before the
skip, `i` after it) is `j + 1`, the number of positions consumed so far with
the current one; so it is not zero, and the recorded precision is a finite
value in [0, 1]. -/
theorem precision_divisor_counts_consumed_positions (cfg : Config) (query : ImageInfo)
    (sortedResult : List ImageInfo)
    (honce : sortedResult.countP (fun x => decide (x.id = query.id)) ≤ 1)
    (j i : Nat) (x : ImageInfo)
    (hj : (finalState cfg query sortedResult).consumed[j]? = some (i, x)) :
    (finalState cfg query sortedResult).precisionRecallValues.length =
      (finalState cfg query sortedResult).consumed.length ∧
    usedDivisor cfg query sortedResult i = (j : Int) + 1 ∧
    usedDivisor cfg query sortedResult i ≠ 0 ∧
    ∃ p : ℚ,
      (finalState cfg query sortedResult).precisionRecallValues[j]? = some
        (Dbl.fin p, (matchCountAt query (finalState cfg query sortedResult).consumed j).div
          (adjustedMatches cfg query sortedResult.length)) ∧
      (matchCountAt query (finalState cfg query sortedResult).consumed j).div
        (Dbl.ofInt (usedDivisor cfg query sortedResult i)) = Dbl.fin p ∧
      0 ≤ p ∧ p ≤ 1 := by
  obtain ⟨n, ht, ho⟩ := finalState_once cfg query sortedResult honce
  have hd := ho.2 j i x hj
  have hs := ht.sample j i x hj
  obtain ⟨c, hc, hle⟩ := matchCountAt_le query (finalState cfg query sortedResult).consumed j
  have hne : (((j : Int) + 1 : Int) : ℚ) ≠ 0 := by
    have h2 : (0 : ℚ) < (((j : Int) + 1 : Int) : ℚ) := by exact_mod_cast Nat.succ_pos j
    exact ne_of_gt h2
  have hdiv : (matchCountAt query (finalState cfg query sortedResult).consumed j).div
      (Dbl.ofInt (usedDivisor cfg query sortedResult i)) =
        Dbl.fin ((c : ℚ) / (((j : Int) + 1 : Int) : ℚ)) := by
    rw [hc, hd]
    exact Dbl.div_fin _ _ hne
  have hpos : (0 : ℚ) < (((j : Int) + 1 : Int) : ℚ) := by exact_mod_cast Nat.succ_pos j
  obtain ⟨n1, hb⟩ := finalState_bookkeeping cfg query sortedResult
  refine ⟨hb.len.symm, hd, by rw [hd]; omega, (c : ℚ) / (((j : Int) + 1 : Int) : ℚ), ?_, hdiv,
    ?_, ?_⟩
  · rw [hs, hdiv]
  · exact div_nonneg (by positivity) (le_of_lt hpos)
  · rw [div_le_one hpos]
    exact_mod_cast hle

/-- Witness of C28: the second consumed position of the worked scenario, at
raw index 2 after the skip: the divisor is 2 and the precision 1/2. -/
theorem precision_divisor_counts_consumed_positions_witness :
    scenarioRanking.countP (fun x => decide (x.id = scenarioQuery.id)) ≤ 1 ∧
    (finalState scenarioConfig scenarioQuery scenarioRanking).consumed[1]? =
      some (2, scenarioItem 3 8 false 2 2) ∧
    (finalState scenarioConfig scenarioQuery scenarioRanking).precisionRecallValues[1]? =
      some (Dbl.fin (1 / 2), Dbl.fin 1) ∧
    usedDivisor scenarioConfig scenarioQuery scenarioRanking 2 = ((1 : Nat) : Int) + 1 :=
  have h1 : scenarioRanking.countP (fun x => decide (x.id = scenarioQuery.id)) ≤ 1 := by
    simp [scenarioRanking, scenarioQuery, scenarioItem, List.countP_cons]
  have h2 : (finalState scenarioConfig scenarioQuery scenarioRanking).consumed[1]? =
      some (2, scenarioItem 3 8 false 2 2) := by
    rw [scenario_finalState]; rfl
  have h3 : (finalState scenarioConfig scenarioQuery scenarioRanking).precisionRecallValues[1]? =
      some (Dbl.fin (1 / 2), Dbl.fin 1) := by
    rw [scenario_finalState]; rfl
  ⟨h1, h2, h3,
    (precision_divisor_counts_consumed_positions scenarioConfig scenarioQuery scenarioRanking
      h1 1 2 (scenarioItem 3 8 false 2 2) h2).2.1⟩


/-- C29, counterexample: in double arithmetic, for the query `roundingQuery`
(matches 3, exclusion off) and a ranking with the classes other, same, same,
other, same, the loop returns 4153319656352791 / 2^53 (0x1.d82d82d82d82ep-2)
while the closed form over the recorded precisions, evaluated in doubles,
is 8306639312705581 / 2^54 (0x1.d82d82d82d82dp-2): they differ in the last
bit. In exact arithmetic the loop returns 83/180. -/
theorem closed_form_differs_in_doubles :
    EvaluateAveragePrecision64 plainConfig roundingQuery roundingRanking =
      Except.ok
        { averagePrecision := Dbl.fin (4153319656352791 / 9007199254740992)
          precisionRecallValues :=
            [(Dbl.fin 0, Dbl.fin 0),
             (Dbl.fin (1 / 2), Dbl.fin (6004799503160661 / 18014398509481984)),
             (Dbl.fin (6004799503160661 / 9007199254740992),
               Dbl.fin (6004799503160661 / 9007199254740992)),
             (Dbl.fin (1 / 2), Dbl.fin (6004799503160661 / 9007199254740992)),
             (Dbl.fin (5404319552844595 / 9007199254740992), Dbl.fin 1)]
          warning := false } ∧
    matchFlags roundingQuery (finalState64 plainConfig roundingQuery roundingRanking).consumed =
      [false, true, true, false, true] ∧
    closedForm64 (adjustedMatches plainConfig roundingQuery roundingRanking.length)
      [(Dbl.fin 0, false), (Dbl.fin (1 / 2), true),
       (Dbl.fin (6004799503160661 / 9007199254740992), true), (Dbl.fin (1 / 2), false),
       (Dbl.fin (5404319552844595 / 9007199254740992), true)] =
      Dbl.fin (8306639312705581 / 18014398509481984) ∧
    Dbl.fin (4153319656352791 / 9007199254740992) ≠
      Dbl.fin (8306639312705581 / 18014398509481984) ∧
    (finalState plainConfig roundingQuery roundingRanking).averagePrecision =
      Dbl.fin (83 / 180) := by
  have h1 : (finalState64 plainConfig roundingQuery roundingRanking).averagePrecision =
      Dbl.fin (4153319656352791 / 9007199254740992) := by decide!
  have h2 : (finalState64 plainConfig roundingQuery roundingRanking).precisionRecallValues =
      [(Dbl.fin 0, Dbl.fin 0),
       (Dbl.fin (1 / 2), Dbl.fin (6004799503160661 / 18014398509481984)),
       (Dbl.fin (6004799503160661 / 9007199254740992),
         Dbl.fin (6004799503160661 / 9007199254740992)),
       (Dbl.fin (1 / 2), Dbl.fin (6004799503160661 / 9007199254740992)),
       (Dbl.fin (5404319552844595 / 9007199254740992), Dbl.fin 1)] := by decide!
  have h3 : Dbl.lt (matchesBeforeTopK plainConfig roundingQuery)
      (Dbl.ofInt plainConfig.mTopK) = false := by decide!
  refine ⟨?_, by decide!, by decide!, by decide!, by decide!⟩
  unfold EvaluateAveragePrecision64
  rw [if_neg (by decide)]
  simp only [h1, h2, h3]

/-- C29, amended: in exact arithmetic (no rounding of the doubles), for a
positive adjusted match count `m`, when `EvaluateAveragePrecision` returns,
the recorded precisions are finite values `ps`, one per consumed position,
and the returned value is the closed form
`(1 / m) * Σ (precision_j + precision_{j-1}) / 2` over the consumed positions
`j` that are matches, with `precision_{-1} = 1`; and the term that a consumed
position which is not a match adds to the sum is 0. -/
theorem averagePrecision_closed_form (cfg : Config) (query : ImageInfo)
    (sortedResult : List ImageInfo) (m : ℚ)
    (hm : adjustedMatches cfg query sortedResult.length = Dbl.fin m) (hpos : 0 < m)
    (h : 0 ≤ resultCount cfg sortedResult.length) :
    ∃ (r : APResult) (ps : List ℚ),
      EvaluateAveragePrecision cfg query sortedResult = Except.ok r ∧
      r.precisionRecallValues.map Prod.fst = ps.map Dbl.fin ∧
      ps.length = (finalState cfg query sortedResult).consumed.length ∧
      r.averagePrecision = Dbl.fin (closedForm m
        (ps.zip (matchFlags query (finalState cfg query sortedResult).consumed))) ∧
      ∀ t ∈ (trapezoidTerms (Dbl.fin 1) (Dbl.fin 0) r.precisionRecallValues).zip
          (matchFlags query (finalState cfg query sortedResult).consumed),
        t.2 = false → t.1 = Dbl.fin 0 := by
  obtain ⟨ps, hps, hlen, ha, _, _, hz⟩ :=
    finalState_closed cfg query sortedResult m hm (ne_of_gt hpos)
  exact ⟨_, ps, EvaluateAveragePrecision_ok cfg query sortedResult h, hps, hlen, ha, hz⟩

/-- Witness of C29 (amended): the ranking `mixedRanking`, whose only match is the second
consumed position, after a non-match of precision 0: the closed form is
`(1/2 + 0) / 2 = 1/4`, the value returned. -/
theorem averagePrecision_closed_form_witness :
    adjustedMatches scenarioConfig scenarioQuery mixedRanking.length = Dbl.fin 1 ∧
    (0 : ℚ) < 1 ∧
    0 ≤ resultCount scenarioConfig mixedRanking.length ∧
    (finalState scenarioConfig scenarioQuery mixedRanking).averagePrecision = Dbl.fin (1 / 4) ∧
    closedForm 1 (([0, 1 / 2, 1 / 3] : List ℚ).zip
      (matchFlags scenarioQuery (finalState scenarioConfig scenarioQuery mixedRanking).consumed))
      = 1 / 4 ∧
    ∃ (r : APResult) (ps : List ℚ),
      EvaluateAveragePrecision scenarioConfig scenarioQuery mixedRanking = Except.ok r ∧
      r.precisionRecallValues.map Prod.fst = ps.map Dbl.fin ∧
      ps.length = (finalState scenarioConfig scenarioQuery mixedRanking).consumed.length ∧
      r.averagePrecision = Dbl.fin (closedForm 1
        (ps.zip (matchFlags scenarioQuery
          (finalState scenarioConfig scenarioQuery mixedRanking).consumed))) ∧
      ∀ t ∈ (trapezoidTerms (Dbl.fin 1) (Dbl.fin 0) r.precisionRecallValues).zip
          (matchFlags scenarioQuery
            (finalState scenarioConfig scenarioQuery mixedRanking).consumed),
        t.2 = false → t.1 = Dbl.fin 0 :=
  ⟨mixed_adjustedMatches, by norm_num, by decide, by rw [mixed_finalState],
    by
      rw [mixed_finalState]
      simp [closedForm, matchingSum, matchFlags, scenarioQuery, scenarioItem]
      norm_num,
    averagePrecision_closed_form scenarioConfig scenarioQuery mixedRanking 1
      mixed_adjustedMatches (by norm_num) (by decide)⟩


/-- C30: classCount is used as given. For the query `understatedQuery`
(classCount 2, exclusion on, so adjusted match count 1) and a ranking holding
two more items of its class, two same-class items are consumed, and
`EvaluateAveragePrecision` records the recall 2 and returns the average
precision 2, both greater than 1. -/
theorem understated_classCount_exceeds_one :
    adjustedMatches scenarioConfig understatedQuery understatedRanking.length = Dbl.fin 1 ∧
    sameClassConsumed scenarioConfig understatedQuery understatedRanking = 2 ∧
    EvaluateAveragePrecision scenarioConfig understatedQuery understatedRanking =
      Except.ok
        { averagePrecision := Dbl.fin 2
          precisionRecallValues := [(Dbl.fin 1, Dbl.fin 1), (Dbl.fin 1, Dbl.fin 2)]
          warning := false } ∧
    Dbl.lt (Dbl.fin 1) (Dbl.fin 2) = true := by
  refine ⟨?_, ?_, ?_, by simp [Dbl.lt]⟩
  · simp [adjustedMatches, matchesBeforeTopK, scenarioConfig, understatedQuery, scenarioItem,
      Dbl.ofInt]
    norm_num
  · rw [sameClassConsumed, understated_finalState]
    simp [sameClassCount, understatedQuery, scenarioItem]
  · rw [EvaluateAveragePrecision_ok _ _ _ (by decide), understated_finalState]
    simp [scenarioConfig, understatedQuery, scenarioItem, matchesBeforeTopK, Dbl.ofInt, Dbl.lt]


end MapEvaluator

